import Mathlib

/-!
go-ipfix: iespec parser, information element registry, message stream

A shallow embedding of `iespec.go` and `message.go`.

* Go byte slices and strings are `List UInt8`.
* Go machine integers are `Nat`/`Int` with explicit reduction modulo `2^w`
  at every narrowing conversion.
* A Go function that can panic returns a `Go` value; a `for` loop without a
  bound is a function with fuel.
-/

namespace Ipfix

/-- Go `[]byte` and `string`: a sequence of bytes. -/
abbrev Bytes := List UInt8

/-- The bytes of an ASCII string literal. -/
def ascii (s : String) : Bytes := s.toList.map (fun c => c.toNat.toUInt8)

/-! ## The regular expression of `iespec.go`

`(?m)^(.+)\(((\d+)/)?(\d+)\)<(.+)>(\[(.+)\])?$`

Go's `regexp` returns the match a backtracking search finds first
(leftmost, then by preference: a greedy repetition tries more before less,
an optional group tries to take part before being skipped). The matcher
below is that search, written out for this expression, one function per
piece, alternatives in preference order. -/

/-- The class `.`: without the `s` flag it is every character but a line feed. -/
def isDot (c : UInt8) : Bool := c != 10

/-- The class `\d`: an ASCII digit. -/
def isDigit (c : UInt8) : Bool := decide (48 ≤ c.toNat) && decide (c.toNat ≤ 57)

/-- Greedy `c+`: every way to take one or more characters of the class off
the front of `s`, as (taken, rest), the longest first. -/
def plusGreedy (p : UInt8 → Bool) : Bytes → List (Bytes × Bytes)
  | [] => []
  | c :: cs =>
    if p c then (plusGreedy p cs).map (fun ar => (c :: ar.1, ar.2)) ++ [([c], cs)]
    else []

/-- A literal character. -/
def lit (c : UInt8) : Bytes → Option Bytes
  | [] => none
  | x :: xs => if x = c then some xs else none

/-- The anchor `$` under `(?m)`: the end of the text or just before a line feed. -/
def atEOL : Bytes → Bool
  | [] => true
  | c :: _ => c == 10

/-- The capture groups `MakeIEFromSpec` reads: `x[1]`, `x[3]`, `x[4]`, `x[5]`,
`x[7]`; a group that took no part in the match is `nil` (`none`). -/
structure Submatch where
  x1 : Bytes
  x3 : Option Bytes
  x4 : Bytes
  x5 : Bytes
  x7 : Option Bytes
  deriving DecidableEq, Repr

/-- The piece `(\[(.+)\])?$`: the group first, then without it. -/
def matchLength (s : Bytes) : Option (Option Bytes) :=
  match (lit 91 s).bind (fun s1 =>
      (plusGreedy isDot s1).findSome? fun xr =>
        (lit 93 xr.2).bind fun s2 => if atEOL s2 then some (some xr.1) else none) with
  | some x7 => some x7
  | none => if atEOL s then some none else none

/-- The piece `(\d+)\)<(.+)>(\[(.+)\])?$`, group 1 and group 3 already fixed. -/
def matchID (x1 : Bytes) (x3 : Option Bytes) (s : Bytes) : Option Submatch :=
  (plusGreedy isDigit s).findSome? fun dr =>
    (lit 41 dr.2).bind fun s1 =>
    (lit 60 s1).bind fun s2 =>
      (plusGreedy isDot s2).findSome? fun tr =>
        (lit 62 tr.2).bind fun s3 =>
        (matchLength s3).map fun x7 => ⟨x1, x3, dr.1, tr.1, x7⟩

/-- The piece `((\d+)/)?(\d+)\)<(.+)>(\[(.+)\])?$`, group 1 already fixed. -/
def matchPen (x1 : Bytes) (s : Bytes) : Option Submatch :=
  match (plusGreedy isDigit s).findSome? (fun pr =>
      (lit 47 pr.2).bind fun s1 => matchID x1 (some pr.1) s1) with
  | some x => some x
  | none => matchID x1 none s

/-- The whole expression after `^`, at a fixed start. -/
def matchHere (s : Bytes) : Option Submatch :=
  (plusGreedy isDot s).findSome? fun nr =>
    (lit 40 nr.2).bind fun s1 => matchPen nr.1 s1

/-- The leftmost match: start positions from left to right; `bol` says
whether `^` holds at the current one (start of text or after a line feed). -/
def findFrom : Bool → Bytes → Option Submatch
  | bol, [] => if bol then matchHere [] else none
  | bol, c :: cs =>
    match (if bol then matchHere (c :: cs) else none) with
    | some x => some x
    | none => findFrom (c == 10) cs

/-- The call `iespecRegex.FindSubmatch(spec)`. -/
def FindSubmatch (spec : Bytes) : Option Submatch := findFrom true spec

/-! ## `strconv.Atoi` (Go standard library) -/

/-- Width of the platform `int`. -/
def intSize : Nat := 64

/-- Value of a run of decimal digits. -/
def digitsValue (ds : Bytes) : Nat :=
  ds.foldl (fun n c => 10 * n + (c.toNat - 48)) 0

/-- The function `strconv.Atoi`: an optional sign, then one or more decimal digits, and
the value has to fit the platform `int`; anything else is an error. -/
def Atoi (s : Bytes) : Option Int :=
  let neg : Bool := s.head? = some 45
  let ds : Bytes := if s.head? = some 43 ∨ s.head? = some 45 then s.tail else s
  if ds = [] ∨ ds.all isDigit = false then none
  else
    let v : Int := if neg then -(digitsValue ds : Int) else (digitsValue ds : Int)
    if -(2 : Int) ^ (intSize - 1) ≤ v ∧ v ≤ (2 : Int) ^ (intSize - 1) - 1 then some v else none

/-- Conversion of an `int` to `uint16`. -/
def toUint16 (i : Int) : Nat := (i % 65536).toNat

/-- Conversion of an `int` to `uint32`. -/
def toUint32 (i : Int) : Nat := (i % 4294967296).toNat

/-! ## Type taxonomy and information elements

`types.go` and `ie.go` are not among the sources: the type taxonomy is a
parameter of everything below. -/

/-- The parts of the type taxonomy `MakeIEFromSpec` uses, over a type `τ`
of IPFIX types: the lookup `NameToType`, the sentinel `IllegalType`, and the
table `DefaultSize` of `uint16` widths (`none` where an index expression
`DefaultSize[t]` would be out of range). -/
structure Taxonomy (τ : Type) where
  NameToType : Bytes → τ
  IllegalType : τ
  DefaultSize : τ → Option Nat
  size_lt : ∀ t n, DefaultSize t = some n → n < 65536

/-- The struct `InformationElement`. -/
structure InformationElement (τ : Type) where
  Name : Bytes
  Pen : Nat
  ID : Nat
  Typ : τ
  Length : Nat
  deriving DecidableEq, Repr

/-- Modelled from the spec: `NewInformationElement` (in the absent `ie.go`)
builds the immutable descriptor {name, enterprise number, element id, type,
length} from its five arguments. -/
def NewInformationElement {τ : Type} (name : Bytes) (pen id : Nat) (t : τ) (length : Nat) :
    InformationElement τ :=
  ⟨name, pen, id, t, length⟩

/-- Outcome of a Go call that returns `(value, error)` and may panic. -/
inductive Go (ε α : Type) where
  | panic : Go ε α
  | error (e : ε) : Go ε α
  | ok (a : α) : Go ε α
  deriving DecidableEq, Repr

/-- The five `fmt.Errorf` returns of `MakeIEFromSpec`, in source order. -/
inductive SpecError where
  | couldNotParseIespec
  | couldNotParsePen
  | couldNotParseID
  | notValidType
  | couldNotParseLength
  deriving DecidableEq, Repr

/-- Lines 21-26 of `iespec.go`: `pen` is 0 unless group 3 took part in the
match, and then `strconv.Atoi` of it (`none`: the conversion failed). -/
def enterprise : Option Bytes → Option Int
  | none => some 0
  | some p => Atoi p

/-- Lines 35-40 of `iespec.go`: `length` after the suffix has been read.
`x[7][0]` panics on an empty `x[7]`. -/
def suffixLength (x7 : Option Bytes) : Go SpecError Int :=
  match x7 with
  | none => .ok 0
  | some l =>
    match l.head? with
    | none => .panic
    | some c =>
      if c ≠ 118 then
        match Atoi l with
        | none => .error .couldNotParseLength
        | some v => .ok v
      else .ok 0

/-- Lines 41-43 of `iespec.go`: a zero `length` is replaced by
`int(DefaultSize[t])`. -/
def defaultLength {τ : Type} (T : Taxonomy τ) (t : τ) (length : Int) : Go SpecError Int :=
  if length = 0 then
    match T.DefaultSize t with
    | none => .panic
    | some n => .ok (n : Int)
  else .ok length

/-- The function `MakeIEFromSpec`. -/
def MakeIEFromSpec {τ : Type} [DecidableEq τ] (T : Taxonomy τ) (spec : Bytes) :
    Go SpecError (InformationElement τ) :=
  match FindSubmatch spec with
  | none => .error .couldNotParseIespec
  | some x =>
    let name := x.x1
    match enterprise x.x3 with
    | none => .error .couldNotParsePen
    | some pen =>
      match Atoi x.x4 with
      | none => .error .couldNotParseID
      | some id =>
        let t := T.NameToType x.x5
        if t = T.IllegalType then .error .notValidType
        else
          match suffixLength x.x7 with
          | .panic => .panic
          | .error e => .error e
          | .ok length =>
            match defaultLength T t length with
            | .panic => .panic
            | .error e => .error e
            | .ok length =>
              .ok (NewInformationElement name (toUint32 pen) (toUint16 id) t (toUint16 length))

/-! ### A concrete taxonomy -/

/-- Modelled from the spec: the IPFIX abstract types of section 2 (unsigned
and signed 8 to 64 bit, float32/64, boolean, macAddress, string, octetArray,
ipv4/ipv6 address, four dateTime precisions) and the illegal sentinel. The
type declaration is in the absent `types.go`. -/
inductive IEType where
  | octetArray | unsigned8 | unsigned16 | unsigned32 | unsigned64
  | signed8 | signed16 | signed32 | signed64
  | float32 | float64 | boolean | macAddress | string
  | dateTimeSeconds | dateTimeMilliseconds | dateTimeMicroseconds | dateTimeNanoseconds
  | ipv4Address | ipv6Address
  | illegal
  deriving DecidableEq, Repr

/-- Modelled from the spec: the variable-length marker of the absent
`types.go`, the length 65535 that RFC 7011 reserves for it. -/
def VariableLength : Nat := 65535

/-- Modelled from the spec: the name of every type of the taxonomy, as the
iespec notation writes it. -/
def typeNames : List (String × IEType) :=
  [("octetArray", .octetArray), ("unsigned8", .unsigned8), ("unsigned16", .unsigned16),
   ("unsigned32", .unsigned32), ("unsigned64", .unsigned64), ("signed8", .signed8),
   ("signed16", .signed16), ("signed32", .signed32), ("signed64", .signed64),
   ("float32", .float32), ("float64", .float64), ("boolean", .boolean),
   ("macAddress", .macAddress), ("string", .string),
   ("dateTimeSeconds", .dateTimeSeconds), ("dateTimeMilliseconds", .dateTimeMilliseconds),
   ("dateTimeMicroseconds", .dateTimeMicroseconds),
   ("dateTimeNanoseconds", .dateTimeNanoseconds),
   ("ipv4Address", .ipv4Address), ("ipv6Address", .ipv6Address)]

/-- Modelled from the spec: `NameToType` of the absent `types.go`; an unknown
name resolves to the illegal sentinel. -/
def NameToType (x : Bytes) : IEType :=
  match typeNames.find? (fun nt => decide (ascii nt.1 = x)) with
  | some nt => nt.2
  | none => .illegal

/-- Modelled from the spec: the table `DefaultSize` of the absent `types.go`,
the canonical encoded width of each type; string and octetArray have no fixed
width and carry the variable-length marker. -/
def DefaultSize : IEType → Nat
  | .octetArray => VariableLength
  | .unsigned8 => 1 | .unsigned16 => 2 | .unsigned32 => 4 | .unsigned64 => 8
  | .signed8 => 1 | .signed16 => 2 | .signed32 => 4 | .signed64 => 8
  | .float32 => 4 | .float64 => 8 | .boolean => 1 | .macAddress => 6
  | .string => VariableLength
  | .dateTimeSeconds => 4 | .dateTimeMilliseconds => 8
  | .dateTimeMicroseconds => 8 | .dateTimeNanoseconds => 8
  | .ipv4Address => 4 | .ipv6Address => 16
  | .illegal => 0

/-- The taxonomy assembled from the three definitions above. -/
def ipfixTaxonomy : Taxonomy IEType where
  NameToType := NameToType
  IllegalType := .illegal
  DefaultSize := fun t => some (DefaultSize t)
  size_lt := by
    intro t n h
    cases t <;> simp [DefaultSize, VariableLength] at h <;> omega


/-! ### The textual notation, as the spec gives it -/

/-- The optional `PEN/` of the notation. -/
def penPart : Option Bytes → Bytes
  | none => []
  | some p => p ++ [47]

/-- The optional `[LENGTH]` of the notation. -/
def lengthPart : Option Bytes → Bytes
  | none => []
  | some l => 91 :: (l ++ [93])

/-- The notation `NAME(PEN/)?(ID)<TYPENAME>([LENGTH])?` written out from its
tokens. -/
def iespec (name : Bytes) (pen : Option Bytes) (id tn : Bytes) (len : Option Bytes) : Bytes :=
  name ++ 40 :: (penPart pen ++ (id ++ 41 :: 60 :: (tn ++ 62 :: lengthPart len)))

/-- A byte string has the form `NAME(PEN/)?(ID)<TYPENAME>([LENGTH])?`: `PEN`
and `ID` are runs of decimal digits, `NAME`, `TYPENAME` and `LENGTH` are not
empty. -/
def Iespec (s : Bytes) : Prop :=
  ∃ name pen id tn len,
    name ≠ [] ∧ (∀ p, pen = some p → p ≠ [] ∧ ∀ c ∈ p, isDigit c = true) ∧
    id ≠ [] ∧ (∀ c ∈ id, isDigit c = true) ∧ tn ≠ [] ∧ (∀ l, len = some l → l ≠ []) ∧
    s = iespec name pen id tn len

/-- The byte string `l` is one line of `spec`: it holds no line feed and is
bounded by line feeds or the ends of `spec`. -/
def IsLine (l spec : Bytes) : Prop :=
  ∃ pre post, spec = pre ++ l ++ post ∧ (∀ c ∈ l, c ≠ 10) ∧
    (pre = [] ∨ pre.getLast? = some 10) ∧ (post = [] ∨ post.head? = some 10)

/-- The tokens of an iespec that the expression reads back as they were
written: `NAME` without a line feed, `PEN` and `ID` runs of decimal digits,
`TYPENAME` without a line feed or `(`, `LENGTH` without a line feed, `(` or
`>`; none of them empty. -/
def Tokens (name : Bytes) (pen : Option Bytes) (id tn : Bytes) (len : Option Bytes) : Prop :=
  (name ≠ [] ∧ ∀ c ∈ name, c ≠ 10) ∧
  (∀ p ∈ pen, p ≠ [] ∧ ∀ c ∈ p, isDigit c = true) ∧
  (id ≠ [] ∧ ∀ c ∈ id, isDigit c = true) ∧
  (tn ≠ [] ∧ ∀ c ∈ tn, c ≠ 10 ∧ c ≠ 40) ∧
  (∀ l ∈ len, l ≠ [] ∧ ∀ c ∈ l, c ≠ 10 ∧ c ≠ 40 ∧ c ≠ 62)

instance (name : Bytes) (pen : Option Bytes) (id tn : Bytes) (len : Option Bytes) :
    Decidable (Tokens name pen id tn len) := by
  unfold Tokens
  infer_instance

/-- What the expression guarantees of the groups of any match. -/
def Submatch.Sound (x : Submatch) : Prop :=
  (x.x1 ≠ [] ∧ ∀ c ∈ x.x1, c ≠ 10) ∧
  (∀ p ∈ x.x3, p ≠ [] ∧ ∀ c ∈ p, isDigit c = true) ∧
  (x.x4 ≠ [] ∧ ∀ c ∈ x.x4, isDigit c = true) ∧
  (x.x5 ≠ [] ∧ ∀ c ∈ x.x5, c ≠ 10) ∧
  (∀ l ∈ x.x7, l ≠ [] ∧ ∀ c ∈ l, c ≠ 10)

/-- Value of the optional enterprise token; 0 when it is absent. -/
def penValue : Option Bytes → Nat
  | none => 0
  | some p => digitsValue p

/-! ## The registry of information elements (`iespec.go`, lines 47-94) -/

/-- A Go `map[κ]ν`, read through its lookup: `none` where the key is absent. -/
abbrev GoMap (κ ν : Type) := κ → Option ν

/-- The map `make(map[κ]ν)`: no key. -/
def GoMap.empty {κ ν : Type} : GoMap κ ν := fun _ => none

/-- The assignment `m[k] = v`. -/
def GoMap.set {κ ν : Type} [DecidableEq κ] (m : GoMap κ ν) (k : κ) (v : ν) : GoMap κ ν :=
  fun k' => if k' = k then some v else m k'

/-- The two package variables: the index by name and the index by
enterprise number, then element id. -/
structure Registry (τ : Type) where
  informationElementRegistry : GoMap Bytes (InformationElement τ)
  enterpriseElementRegistry : GoMap Nat (GoMap Nat (InformationElement τ))

/-- The function `init`: both maps are made empty. -/
def Registry.init {τ : Type} : Registry τ :=
  ⟨GoMap.empty, GoMap.empty⟩

/-- The four `fmt.Errorf` values of the registry functions. -/
inductive RegistryError where
  | alreadyRegistered (name : Bytes)
  | noEnterprise (pen : Nat)
  | noElement (id pen : Nat)
  | noName (name : Bytes)
  deriving DecidableEq, Repr

/-- The function `RegisterInformationElement`: the error (`none` is `nil`) and
the registry after the call. The sub-map of the enterprise is made when it is
missing, and `enterpriseElements[x.ID] = x` writes into the sub-map the outer
map holds under `x.Pen`. -/
def RegisterInformationElement {τ : Type} (x : InformationElement τ) (r : Registry τ) :
    Option RegistryError × Registry τ :=
  match r.informationElementRegistry x.Name with
  | some _ => (some (.alreadyRegistered x.Name), r)
  | none =>
    let names := r.informationElementRegistry.set x.Name x
    match r.enterpriseElementRegistry x.Pen with
    | some enterpriseElements =>
      (none, ⟨names, r.enterpriseElementRegistry.set x.Pen (enterpriseElements.set x.ID x)⟩)
    | none =>
      let enterpriseElements : GoMap Nat (InformationElement τ) := GoMap.empty
      let enterprises := r.enterpriseElementRegistry.set x.Pen enterpriseElements
      (none, ⟨names, enterprises.set x.Pen (enterpriseElements.set x.ID x)⟩)

/-- The function `ResolveInformationElement`: its result and the registry
after the call. -/
def ResolveInformationElement {τ : Type} (pen id : Nat) (r : Registry τ) :
    Go RegistryError (InformationElement τ) × Registry τ :=
  match r.enterpriseElementRegistry pen with
  | none => (.error (.noEnterprise pen), r)
  | some enterpriseElements =>
    match enterpriseElements id with
    | none => (.error (.noElement id pen), r)
    | some ret => (.ok ret, r)

/-- The function `GetInformationElement`: its result and the registry after
the call. -/
def GetInformationElement {τ : Type} (name : Bytes) (r : Registry τ) :
    Go RegistryError (InformationElement τ) × Registry τ :=
  match r.informationElementRegistry name with
  | none => (.error (.noName name), r)
  | some ret => (.ok ret, r)

/-- A sequence of `RegisterInformationElement` calls from the registry `r`:
the elements of the calls that returned `nil`, in call order, and the
registry at the end. -/
def registerAll {τ : Type} : List (InformationElement τ) → Registry τ →
    List (InformationElement τ) × Registry τ
  | [], r => ([], r)
  | x :: xs, r =>
    match RegisterInformationElement x r with
    | (none, r') => (x :: (registerAll xs r').1, (registerAll xs r').2)
    | (some _, r') => registerAll xs r'

/-- A returned error value that is not `nil`. -/
def Go.isError {ε α : Type} : Go ε α → Bool
  | .error _ => true
  | _ => false

/-- A pair (enterprise, id) is held by the enterprise index. -/
def Registry.holdsPair {τ : Type} (r : Registry τ) (pen id : Nat) : Prop :=
  ∃ m, r.enterpriseElementRegistry pen = some m ∧ (m id).isSome = true

/-! ## The message stream (`message.go`)

`buffer.go`, `set.go`, `template.go`, `record.go` and `errors.go` are not
among the sources. The scratch buffer, the set and the record are modelled
from the spec (sections 4.5 and 6); the serialization of templates and of data
values is a parameter (`Codec`). -/

/-- A Go `error` as `sendRecord` tells them apart: an `ipfixError` with its
two predicates `bufferFull()` and `recordTypeMismatch()`, or any other error. -/
inductive Error where
  | ipfix (bufferFull recordTypeMismatch : Bool)
  | other (msg : String)
  deriving DecidableEq, Repr

/-- Modelled from the spec: the BufferFull signal of section 4.5. -/
def Error.BufferFull : Error := .ipfix true false

/-- Modelled from the spec: the RecordTypeMismatch signal of section 4.5. -/
def Error.RecordTypeMismatch : Error := .ipfix false true

/-- The sink `io.Writer`, an external collaborator: the outcomes of its
coming `Write` calls (`none` is success; success once the list is used up),
the byte strings it has accepted, and the byte strings it has been handed,
accepted or not, in call order. -/
structure Writer where
  outcomes : List (Option Error)
  written : List Bytes
  handed : List Bytes
  deriving DecidableEq, Repr

/-- One call `w.Write(p)`. -/
def Writer.Write (w : Writer) (p : Bytes) : Option Error × Writer :=
  match w.outcomes with
  | [] => (none, ⟨[], w.written ++ [p], w.handed ++ [p]⟩)
  | none :: rest => (none, ⟨rest, w.written ++ [p], w.handed ++ [p]⟩)
  | some e :: rest => (some e, ⟨rest, w.written, w.handed ++ [p]⟩)

/-- The bytes of `binary.BigEndian.PutUint16`: the two bytes of a value, reduced mod 2^16. -/
def be16 (n : Nat) : Bytes := [(n / 256 % 256).toUInt8, (n % 256).toUInt8]

/-- The bytes of `binary.BigEndian.PutUint32`: the four bytes of a value, reduced mod 2^32. -/
def be32 (n : Nat) : Bytes :=
  [(n / 16777216 % 256).toUInt8, (n / 65536 % 256).toUInt8, (n / 256 % 256).toUInt8,
   (n % 256).toUInt8]

/-- Writing `bs` into a byte sequence from offset `off` on; a position past
the end is not written. -/
def patch : Bytes → Nat → Bytes → Bytes
  | data, _, [] => data
  | data, off, b :: bs => patch (data.set off b) (off + 1) bs

/-- Modelled from the spec: the scratch buffer of the absent `buffer.go`, a
growable region bounded by a configured maximum size, with reserve-and-write
and flush-to-sink. `data` holds the bytes committed so far. -/
structure scratchBuffer where
  data : Bytes
  max : Nat
  deriving DecidableEq, Repr

/-- Modelled from the spec: `makeBasicBuffer`, an empty buffer of the given
maximum size. -/
def makeBasicBuffer (l : Nat) : scratchBuffer := ⟨[], l⟩

/-- Modelled from the spec: `length`, the number of bytes committed. -/
def scratchBuffer.length (b : scratchBuffer) : Nat := b.data.length

/-- Modelled from the spec: `append`, the reservation of `num` more bytes. It
returns the offset of the reserved window and the buffer grown by it, or
`none`, the buffer untouched, when the remaining capacity (maximum size
minus bytes committed) is insufficient. -/
def scratchBuffer.append (b : scratchBuffer) (num : Nat) : Option (Nat × scratchBuffer) :=
  if b.data.length + num ≤ b.max then
    some (b.data.length, { b with data := b.data ++ List.replicate num 0 })
  else none

/-- A write through a slice of the buffer that starts at offset `off`. -/
def scratchBuffer.write (b : scratchBuffer) (off : Nat) (bs : Bytes) : scratchBuffer :=
  { b with data := patch b.data off bs }

/-- Modelled from the spec: `finalize`, the flush to the sink. The committed
bytes go to the sink in one `Write`, whose error is returned, and the buffer
is empty afterwards. -/
def scratchBuffer.finalize (b : scratchBuffer) (w : Writer) :
    Option Error × scratchBuffer × Writer :=
  ((w.Write b.data).1, { b with data := [] }, (w.Write b.data).2)

/-- Modelled from the spec: the role `record`, an encodable unit with an
identifying id; `encoding` is its encoded form or an encode-time failure. -/
structure record where
  id : Int
  encoding : Except Error Bytes

/-- Modelled from the spec: the set of the absent `set.go`. At most one set is
open at a time; an open set has the id of its records, the offset of its
4-byte header in the buffer, and its running length, header included. -/
structure set where
  isOpen : Bool
  id : Int
  start : Nat
  length : Nat
  deriving DecidableEq, Repr

/-- Modelled from the spec: `makeSet`, no set open. -/
def makeSet : set := ⟨false, 0, 0, 0⟩

/-- Modelled from the spec: `appendRecord` (section 4.5). A record of another
id than the open set gives RecordTypeMismatch; an encode-time failure is
passed on; the first record of a set reserves the 4-byte set header (set id,
length placeholder) with its own bytes; insufficient remaining capacity gives
BufferFull. No failure changes the set or the buffer. On success the bytes
are written into the reserved window and the running length grows. -/
def set.appendRecord (s : set) (b : scratchBuffer) (rec : record) :
    Option Error × set × scratchBuffer :=
  if s.isOpen = true ∧ s.id ≠ rec.id then (some .RecordTypeMismatch, s, b)
  else
    match rec.encoding with
    | .error e => (some e, s, b)
    | .ok bytes =>
      if s.isOpen = true then
        match b.append bytes.length with
        | none => (some .BufferFull, s, b)
        | some (off, b') =>
          (none, { s with length := s.length + bytes.length }, b'.write off bytes)
      else
        match b.append (4 + bytes.length) with
        | none => (some .BufferFull, s, b)
        | some (off, b') =>
          (none, ⟨true, rec.id, off, 4 + bytes.length⟩,
            b'.write off (be16 (toUint16 rec.id) ++ [0, 0] ++ bytes))

/-- Modelled from the spec: `finalize` of the set, the back-patch of the
length field of the open set, which is closed by it; nothing when no set is
open. -/
def set.finalize (s : set) (b : scratchBuffer) : set × scratchBuffer :=
  if s.isOpen = true then ({ s with isOpen := false }, b.write (s.start + 2) (be16 s.length))
  else (s, b)

/-- The struct `template`, as the literal `template{int16(id), elements}`
fills it. -/
structure template (τ : Type) where
  id : Int
  elements : List (InformationElement τ)

/-- Modelled from the spec: the reusable data record of the absent
`record.go`, the encoded values and the id of the owning template. -/
structure recordBuffer where
  buffer : Bytes
  template : Int
  deriving DecidableEq, Repr

/-- Modelled from the spec: `makeRecordBuffer`, an empty data record. -/
def makeRecordBuffer (_ : Nat) : recordBuffer := ⟨[], 0⟩

/-- The serialization of the absent `template.go`, over a type `δ` of data
values: the encoded Template Record (or an encode-time failure), and
`assignDataRecord`, the encoded data values, `none` for the fatal fault of a
programmer-contract violation. -/
structure Codec (τ δ : Type) where
  serializeTemplate : template τ → Except Error Bytes
  assignDataRecord : template τ → List δ → Option Bytes

/-- Modelled from the spec: a template is routed as a record of the Template
Set, id 2. -/
def templateRecord {τ δ : Type} (C : Codec τ δ) (t : template τ) : record :=
  ⟨2, C.serializeTemplate t⟩

/-- Modelled from the spec: the id of a data record is the id of its owning
template. -/
def dataRecord (r : recordBuffer) : record :=
  ⟨r.template, .ok r.buffer⟩

/-- Conversion of an `int` to `int16`. -/
def toInt16 (i : Int) : Int := (i + 32768) % 65536 - 32768

/-- The argument `now interface{}`: a `time.Time` (through its `Unix()`
seconds), one of the four IPFIX time types, or a value of any other type. -/
inductive Now where
  | time (unix : Int)
  | seconds (v : Nat)
  | milliseconds (v : Nat)
  | microseconds (v : Nat)
  | nanoseconds (v : Nat)
  | other
  deriving DecidableEq, Repr

/-- The struct `MessageStream`. The slices `length` and `time` are kept as
their offsets in the buffer; a `nil` entry of `templates` is `none`. -/
structure MessageStream (τ : Type) where
  w : Writer
  buffer : scratchBuffer
  length : Nat
  time : Nat
  sequence : Nat
  observationID : Nat
  templates : List (Option (template τ))
  currentSet : set
  currentDataRecord : recordBuffer
  dirty : Bool

/-- The function `MakeMessageStream`. -/
def MakeMessageStream {τ : Type} (w : Writer) (mtu observationID : Nat) : MessageStream τ :=
  let mtu := if mtu = 0 then 65535 else mtu
  { w := w
    buffer := makeBasicBuffer mtu
    length := 0
    time := 0
    sequence := 0
    observationID := observationID
    templates := []
    currentSet := makeSet
    currentDataRecord := makeRecordBuffer mtu
    dirty := false }

/-- The method `startMessage`; `none` is the panic of `b[15]` when the 16
bytes could not be reserved. -/
def MessageStream.startMessage {τ : Type} (m : MessageStream τ) : Option (MessageStream τ) :=
  match m.buffer.append 16 with
  | none => none
  | some (off, b) =>
    let b := b.write off [0, 0x0a]
    let b := b.write (off + 8) (be32 m.sequence)
    let b := b.write (off + 12) (be32 m.observationID)
    some { m with buffer := b, length := off + 2, time := off + 4, dirty := true }

/-- The seconds `Finalize` writes for each dynamic type of `now`; `none` when
no case of the type switch applies. -/
def exportTime : Now → Option Nat
  | .time unix => some (toUint32 unix)
  | .seconds v => some (v % 4294967296)
  | .milliseconds v => some (v / 1000 % 4294967296)
  | .microseconds v => some (v / 1000000 % 4294967296)
  | .nanoseconds v => some (v / 1000000000 % 4294967296)
  | .other => none

/-- The method `Finalize`: the returned error and the stream after the call. -/
def MessageStream.Finalize {τ : Type} (m : MessageStream τ) (now : Now) :
    Option Error × MessageStream τ :=
  if m.dirty = false then (none, m)
  else
    let sb := m.currentSet.finalize m.buffer
    let b := sb.2.write m.length (be16 (toUint16 sb.2.length))
    let b := match exportTime now with
      | some secs => b.write m.time (be32 secs)
      | none => b
    let r := b.finalize m.w
    (r.1, { m with currentSet := sb.1, buffer := r.2.1, w := r.2.2,
                   dirty := if r.1 = none then false else m.dirty })

/-- How a call ends: the fuel of a loop ran out, a panic, or a return. -/
inductive Outcome (α : Type) where
  | outOfFuel : Outcome α
  | panic : Outcome α
  | returns (a : α) : Outcome α
  deriving DecidableEq, Repr

/-- A function applied to what a call returned. -/
def Outcome.map {α β : Type} (f : α → β) : Outcome α → Outcome β
  | .outOfFuel => .outOfFuel
  | .panic => .panic
  | .returns a => .returns (f a)

/-- The `for` loop of `sendRecord`, one iteration for each unit of fuel. -/
def MessageStream.sendRecordLoop {τ : Type} :
    Nat → MessageStream τ → record → Now → Outcome (Option Error × MessageStream τ)
  | 0, _, _, _ => .outOfFuel
  | fuel + 1, m, rec, now =>
    let r := m.currentSet.appendRecord m.buffer rec
    let m := { m with currentSet := r.2.1, buffer := r.2.2 }
    match r.1 with
    | none =>
      .returns (none,
        if rec.id ≥ 256 then { m with sequence := (m.sequence + 1) % 4294967296 } else m)
    | some (.ipfix bufferFull recordTypeMismatch) =>
      if bufferFull = true then
        match (m.Finalize now).2.startMessage with
        | none => .panic
        | some m => sendRecordLoop fuel m rec now
      else if recordTypeMismatch = true then
        let sb := m.currentSet.finalize m.buffer
        sendRecordLoop fuel { m with currentSet := sb.1, buffer := sb.2 } rec now
      else .returns (some (.ipfix bufferFull recordTypeMismatch), m)
    | some err => .returns (some err, m)

/-- The method `sendRecord`. -/
def MessageStream.sendRecord {τ : Type} (fuel : Nat) (m : MessageStream τ) (rec : record)
    (now : Now) : Outcome (Option Error × MessageStream τ) :=
  if m.dirty = false then
    match m.startMessage with
    | none => .panic
    | some m => m.sendRecordLoop fuel rec now
  else m.sendRecordLoop fuel rec now

/-- The method `AddTemplate`: the returned id and error, and the stream
after the call. -/
def MessageStream.AddTemplate {τ δ : Type} (C : Codec τ δ) (fuel : Nat) (m : MessageStream τ)
    (now : Now) (elements : List (InformationElement τ)) :
    Outcome ((Int × Option Error) × MessageStream τ) :=
  let id : Int := m.templates.length + 256
  let newTemplate : template τ := ⟨toInt16 id, elements⟩
  match m.sendRecord fuel (templateRecord C newTemplate) now with
  | .outOfFuel => .outOfFuel
  | .panic => .panic
  | .returns (err, m) =>
    .returns ((id, err),
      if err = none then { m with templates := m.templates ++ [some newTemplate] } else m)

/-- The method `SendData`: the returned error and the stream after the call. -/
def MessageStream.SendData {τ δ : Type} (C : Codec τ δ) (fuel : Nat) (m : MessageStream τ)
    (now : Now) (template : Int) (data : List δ) : Outcome (Option Error × MessageStream τ) :=
  let id := template - 256
  if id < 0 ∨ id ≥ m.templates.length then .panic
  else
    match m.templates[id.toNat]? with
    | none => .panic
    | some none => .panic
    | some (some t) =>
      match C.assignDataRecord t data with
      | none => .panic
      | some bytes =>
        let m := { m with currentDataRecord := ⟨bytes, t.id⟩ }
        m.sendRecord fuel (dataRecord m.currentDataRecord) now

/-- One call on a stream. -/
inductive Call (τ δ : Type) where
  | addTemplate (now : Now) (elements : List (InformationElement τ))
  | sendData (now : Now) (template : Int) (data : List δ)
  | finalize (now : Now)

/-- What a call returned. -/
inductive Reply where
  | addTemplate (id : Int) (err : Option Error)
  | sendData (err : Option Error)
  | finalize (err : Option Error)
  deriving DecidableEq, Repr

/-- A sequence of calls on a stream, each loop with the given fuel: the
replies in call order and the stream at the end. -/
def MessageStream.run {τ δ : Type} (C : Codec τ δ) (fuel : Nat) :
    List (Call τ δ) → MessageStream τ → Outcome (List Reply × MessageStream τ)
  | [], m => .returns ([], m)
  | .addTemplate now elements :: calls, m =>
    match m.AddTemplate C fuel now elements with
    | .outOfFuel => .outOfFuel
    | .panic => .panic
    | .returns ((id, err), m) =>
      match run C fuel calls m with
      | .outOfFuel => .outOfFuel
      | .panic => .panic
      | .returns (replies, m) => .returns (.addTemplate id err :: replies, m)
  | .sendData now template data :: calls, m =>
    match m.SendData C fuel now template data with
    | .outOfFuel => .outOfFuel
    | .panic => .panic
    | .returns (err, m) =>
      match run C fuel calls m with
      | .outOfFuel => .outOfFuel
      | .panic => .panic
      | .returns (replies, m) => .returns (.sendData err :: replies, m)
  | .finalize now :: calls, m =>
    match run C fuel calls (m.Finalize now).2 with
    | .outOfFuel => .outOfFuel
    | .panic => .panic
    | .returns (replies, m') => .returns (.finalize (m.Finalize now).1 :: replies, m')

/-- The ids the successful `AddTemplate` calls returned, in call order. -/
def issuedIds : List Reply → List Int
  | [] => []
  | .addTemplate id none :: rs => id :: issuedIds rs
  | _ :: rs => issuedIds rs

/-- The number of `SendData` calls that returned `nil`. -/
def sentCount : List Reply → Nat
  | [] => 0
  | .sendData none :: rs => sentCount rs + 1
  | _ :: rs => sentCount rs

/-- Modelled from the spec: the Template Record of section 6, template id
(2 bytes), field count (2 bytes), and for each field the element id (2 bytes,
top bit set when enterprise-scoped), the length (2 bytes) and, when
enterprise-scoped, the enterprise number (4 bytes). -/
def serializeTemplate {τ : Type} (t : template τ) : Bytes :=
  be16 (toUint16 t.id) ++ be16 t.elements.length ++
    (t.elements.map fun e =>
      if e.Pen = 0 then be16 e.ID ++ be16 e.Length
      else be16 (32768 + e.ID % 32768) ++ be16 e.Length ++ be32 e.Pen).flatten

/-- A codec for the examples: the Template Record of section 6, and data
values that are byte strings already, written one after the other. -/
def bytesCodec (τ : Type) : Codec τ Bytes where
  serializeTemplate := fun t => .ok (serializeTemplate t)
  assignDataRecord := fun _ data => some data.flatten

/-! ### Predicates on streams and records used by the statements -/

/-- What `sendRecord` and the methods it calls leave alone. -/
structure MessageStream.SameTable {τ : Type} (m m' : MessageStream τ) : Prop where
  templates : m'.templates = m.templates
  currentDataRecord : m'.currentDataRecord = m.currentDataRecord
  observationID : m'.observationID = m.observationID
  max : m'.buffer.max = m.buffer.max

/-- The sequence counter after a call of `sendRecord` that returned. -/
def nextSequence (sequence : Nat) (err : Option Error) (rec : record) : Nat :=
  if err = none ∧ rec.id ≥ 256 then (sequence + 1) % 4294967296 else sequence

/-- A record whose bytes fit behind a message header and a set header. -/
def record.FitsIn (rec : record) (max : Nat) : Prop :=
  ∃ bytes, rec.encoding = .ok bytes ∧ 16 + 4 + bytes.length ≤ max

/-- The invariant of the dirty flag: while no message is open the buffer is
empty. -/
def MessageStream.Idle {τ : Type} (m : MessageStream τ) : Prop :=
  m.dirty = false → m.buffer.data = []

/-- The table of a stream holds, at every index `i`, a template whose id is
`int16(256 + i)`: what `AddTemplate` stores. -/
def MessageStream.TableOK {τ : Type} (m : MessageStream τ) : Prop :=
  ∀ i, i < m.templates.length →
    ∃ t, m.templates[i]? = some (some t) ∧ t.id = toInt16 (256 + (i : Int))

/-- The ids `n`, `n + 1`, ... , `k` of them. -/
def idsFrom (n : Int) (k : Nat) : List Int := (List.range k).map (fun (j : Nat) => n + (j : Int))


/-! ### Definitions used by the statements on framing -/

/-- The `n` bytes of `d` from offset `off` on. -/
def slice (d : Bytes) (off n : Nat) : Bytes := (d.drop off).take n

/-- The bytes `Finalize` hands to the sink on an open message: the buffer
after the open set is closed and the length and export-time fields are
back-patched. -/
def MessageStream.flushed {τ : Type} (m : MessageStream τ) (now : Now) : Bytes :=
  let sb := m.currentSet.finalize m.buffer
  let b := sb.2.write m.length (be16 (toUint16 sb.2.length))
  let b := match exportTime now with
    | some secs => b.write m.time (be32 secs)
    | none => b
  b.data

/-- The value of the two-byte big-endian field at offset 2 of a byte string,
256 times the byte at offset 2 plus the byte at offset 3; `none` for a string
of fewer than 4 bytes. -/
def declaredLength (msg : Bytes) : Option Nat :=
  match msg.drop 2 with
  | hi :: lo :: _ => some (256 * hi.toNat + lo.toNat)
  | _ => none

/-- A byte string whose length is a 16-bit value that does not exceed `max`
and that, unless it is empty, holds its own length in the field at offset 2. -/
def WellDeclared (max : Nat) (msg : Bytes) : Prop :=
  msg.length < 65536 ∧ msg.length ≤ max ∧ (msg = [] ∨ declaredLength msg = some msg.length)

/-- What holds of every stream that `MakeMessageStream` built with a 16-bit
maximum size and that was driven through its methods: the buffer is within
its maximum size, which is a 16-bit value; while no message is open the buffer
is empty; while one is open its length and export-time fields are at the
offsets 2 and 4; and the buffer is empty with no set open, or holds 4 bytes or
more. -/
def MessageStream.Framed {τ : Type} (m : MessageStream τ) : Prop :=
  m.buffer.data.length ≤ m.buffer.max ∧ m.buffer.max ≤ 65535 ∧ m.Idle ∧
    (m.dirty = true → m.length = 2 ∧ m.time = 4) ∧
    (m.buffer.data = [] ∧ m.currentSet.isOpen = false ∨ 4 ≤ m.buffer.data.length)

/-- A stream with the invariant `Framed` and the maximum size `max` whose sink
has been handed, since it held `handed`, only byte strings that declare their
own length. -/
def MessageStream.Sound {τ : Type} (m : MessageStream τ) (handed : List Bytes) (max : Nat) :
    Prop :=
  m.Framed ∧ m.buffer.max = max ∧
    ∃ msgs, m.w.handed = handed ++ msgs ∧ ∀ msg ∈ msgs, WellDeclared max msg

/-- Lines 99-106 of `message.go`, the statements of `SendData` before the
call of `assignDataRecord`: the template for the id, `none` where the panic
"Unknown template id" is raised, and the stream as these statements leave it.
They read `m.templates` and assign to no field of the stream. -/
def MessageStream.lookupTemplate {τ : Type} (m : MessageStream τ) (template : Int) :
    Option (Ipfix.template τ) × MessageStream τ :=
  let id := template - 256
  if id < 0 ∨ id ≥ m.templates.length then (none, m)
  else
    match m.templates[id.toNat]? with
    | some (some t) => (some t, m)
    | _ => (none, m)

/-- Modelled from the spec: a serialization that raises the fatal fault of
section 4.4 on a wrong argument count, one byte string for each field of the
template; the Template Record is the one of section 6. -/
def arityCodec (τ : Type) : Codec τ Bytes where
  serializeTemplate := fun t => .ok (serializeTemplate t)
  assignDataRecord := fun t data =>
    if data.length = t.elements.length then some data.flatten else none

/-- The index consistency of a registry: every sub-map of the enterprise
index holds an element, and every element `x` held under `(pen, id)` has
`x.Pen = pen` and `x.ID = id` and is what the name index holds under
`x.Name`. -/
def Registry.Consistent {τ : Type} (r : Registry τ) : Prop :=
  ∀ pen m, r.enterpriseElementRegistry pen = some m →
    (∃ id x, m id = some x) ∧
    ∀ id x, m id = some x →
      x.Pen = pen ∧ x.ID = id ∧ r.informationElementRegistry x.Name = some x

/-! ## Lemmas on the matcher -/

theorem mem_plusGreedy {p : UInt8 → Bool} {s a r : Bytes} :
    (a, r) ∈ plusGreedy p s ↔ a ≠ [] ∧ s = a ++ r ∧ ∀ c ∈ a, p c = true := by
  induction s generalizing a r with
  | nil =>
    simp only [plusGreedy, List.not_mem_nil, false_iff]
    rintro ⟨hne, heq, -⟩
    cases a with
    | nil => exact hne rfl
    | cons x xs => simp at heq
  | cons c cs ih =>
    unfold plusGreedy
    by_cases hc : p c = true
    · simp only [hc, if_true, List.mem_append, List.mem_map, List.mem_singleton, Prod.mk.injEq,
        Prod.exists]
      constructor
      · rintro (⟨a', r', hmem, rfl, rfl⟩ | ⟨rfl, rfl⟩)
        · obtain ⟨_, rfl, h3⟩ := ih.mp hmem
          refine ⟨by simp, by simp, ?_⟩
          intro x hx
          rcases List.mem_cons.mp hx with rfl | hx
          · exact hc
          · exact h3 x hx
        · refine ⟨by simp, by simp, ?_⟩
          intro x hx
          simp at hx
          subst hx
          exact hc
      · rintro ⟨hne, heq, hall⟩
        cases a with
        | nil => exact absurd rfl hne
        | cons x a' =>
          simp only [List.cons_append, List.cons.injEq] at heq
          obtain ⟨rfl, rfl⟩ := heq
          by_cases ha' : a' = []
          · subst ha'
            right
            simp
          · left
            refine ⟨a', r, ih.mpr ⟨ha', rfl, ?_⟩, rfl, rfl⟩
            intro y hy
            exact hall y (List.mem_cons_of_mem _ hy)
    · simp only [hc, Bool.false_eq_true, if_false, List.not_mem_nil, false_iff]
      rintro ⟨hne, heq, hall⟩
      cases a with
      | nil => exact hne rfl
      | cons x a' =>
        simp only [List.cons_append, List.cons.injEq] at heq
        obtain ⟨rfl, -⟩ := heq
        exact hc (hall c (List.mem_cons_self _ _))

/-- The candidates of a greedy repetition on `a ++ r`, where `a` is in the
class: those longer than `a` come first, then `a` itself. -/
theorem plusGreedy_append (p : UInt8 → Bool) (a r : Bytes) (hne : a ≠ [])
    (hall : ∀ c ∈ a, p c = true) :
    ∃ shorter, plusGreedy p (a ++ r)
      = (plusGreedy p r).map (fun br => (a ++ br.1, br.2)) ++ (a, r) :: shorter := by
  induction a with
  | nil => exact absurd rfl hne
  | cons c a' ih =>
    have hc : p c = true := hall c (List.mem_cons_self _ _)
    by_cases ha' : a' = []
    · subst ha'
      refine ⟨[], ?_⟩
      simp [plusGreedy, hc]
    · obtain ⟨sh, hsh⟩ := ih ha' (fun x hx => hall x (List.mem_cons_of_mem _ hx))
      refine ⟨sh.map (fun ar => (c :: ar.1, ar.2)) ++ [([c], a' ++ r)], ?_⟩
      rw [List.cons_append, plusGreedy, if_pos hc, hsh]
      simp [List.map_append, List.map_map, Function.comp_def]

/-- The first success of a search over the candidates of a greedy
repetition: the candidate `a` when every longer one fails. -/
theorem findSome_plusGreedy {β : Type} (p : UInt8 → Bool) (f : Bytes × Bytes → Option β)
    (a r : Bytes) (y : β) (hne : a ≠ []) (hall : ∀ c ∈ a, p c = true)
    (hlonger : ∀ b r', b ≠ [] → (∀ c ∈ b, p c = true) → r = b ++ r' → f (a ++ b, r') = none)
    (hy : f (a, r) = some y) :
    (plusGreedy p (a ++ r)).findSome? f = some y := by
  obtain ⟨sh, hsh⟩ := plusGreedy_append p a r hne hall
  rw [hsh, List.findSome?_append]
  have h1 : ((plusGreedy p r).map (fun br => (a ++ br.1, br.2))).findSome? f = none := by
    rw [List.findSome?_eq_none_iff]
    intro x hx
    obtain ⟨⟨b, r'⟩, hmem, rfl⟩ := List.mem_map.mp hx
    obtain ⟨hb, hr, hp⟩ := mem_plusGreedy.mp hmem
    exact hlonger b r' hb hp hr
  rw [h1]
  simp [List.findSome?_cons, hy]

/-- A run of class characters closed by a character outside the class is read
in one way only. -/
theorem split_unique (p : UInt8 → Bool) :
    ∀ (a a' : Bytes) (c c' : UInt8) (r r' : Bytes),
      (∀ x ∈ a, p x = true) → (∀ x ∈ a', p x = true) → p c = false → p c' = false →
      a ++ c :: r = a' ++ c' :: r' → a = a' ∧ c = c' ∧ r = r' := by
  intro a
  induction a with
  | nil =>
    intro a' c c' r r' _ ha' hc _ h
    cases a' with
    | nil => simpa using h
    | cons x xs =>
      simp only [List.nil_append, List.cons_append, List.cons.injEq] at h
      have := ha' x (List.mem_cons_self _ _)
      rw [← h.1, hc] at this
      exact absurd this (by simp)
  | cons y ys ih =>
    intro a' c c' r r' ha ha' hc hc' h
    cases a' with
    | nil =>
      simp only [List.nil_append, List.cons_append, List.cons.injEq] at h
      have := ha y (List.mem_cons_self _ _)
      rw [h.1, hc'] at this
      exact absurd this (by simp)
    | cons x xs =>
      simp only [List.cons_append, List.cons.injEq] at h
      obtain ⟨rfl, h2⟩ := h
      obtain ⟨h3, h4, h5⟩ := ih xs c c' r r' (fun z hz => ha z (List.mem_cons_of_mem _ hz))
        (fun z hz => ha' z (List.mem_cons_of_mem _ hz)) hc hc' h2
      exact ⟨by rw [h3], h4, h5⟩

theorem lit_cons_self (c : UInt8) (s : Bytes) : lit c (c :: s) = some s := by
  simp [lit]

theorem lit_eq_none_of_not_mem {c : UInt8} {s : Bytes} (h : c ∉ s) : lit c s = none := by
  cases s with
  | nil => rfl
  | cons x xs =>
    have : x ≠ c := fun e => h (e ▸ List.mem_cons_self _ _)
    simp [lit, this]

theorem lit_eq_some {c : UInt8} {s r : Bytes} (h : lit c s = some r) : s = c :: r := by
  cases s with
  | nil => simp [lit] at h
  | cons x xs =>
    by_cases hx : x = c
    · simp [lit, hx] at h
      rw [hx, h]
    · simp [lit, hx] at h

theorem isDot_of_ne {c : UInt8} (h : c ≠ 10) : isDot c = true := by
  simp [isDot, h]

theorem ne_of_isDot {c : UInt8} (h : isDot c = true) : c ≠ 10 := by
  simpa [isDot] using h

theorem isDigit_ne {c d : UInt8} (h : isDigit c = true) (hd : isDigit d = false) : c ≠ d := by
  intro e
  rw [e, hd] at h
  exact absurd h (by simp)

/-- A suffix of a list after a nonempty front lies within its tail. -/
theorem suffix_of_cons_eq {x : UInt8} {xs b r : Bytes} (hb : b ≠ []) (h : x :: xs = b ++ r) :
    ∀ c ∈ r, c ∈ xs := by
  cases b with
  | nil => exact absurd rfl hb
  | cons y ys =>
    simp only [List.cons_append, List.cons.injEq] at h
    intro c hc
    rw [h.2]
    exact List.mem_append_right _ hc

theorem matchLength_nil : matchLength [] = some none := by
  simp [matchLength, lit, atEOL]

theorem matchLength_some (l : Bytes) (hne : l ≠ []) (hl : ∀ c ∈ l, c ≠ 10) :
    matchLength (91 :: (l ++ [93])) = some (some l) := by
  unfold matchLength
  rw [lit_cons_self, Option.some_bind]
  rw [findSome_plusGreedy isDot _ l [93] (some l) hne (fun c hc => isDot_of_ne (hl c hc))]
  · intro b r' hb _ hr
    have hr' : r' = [] := by
      cases b with
      | nil => exact absurd rfl hb
      | cons y ys =>
        simp only [List.cons_append, List.cons.injEq] at hr
        have := hr.2.symm
        simp only [List.append_eq_nil] at this
        exact this.2
    simp [hr', lit]
  · simp [lit, atEOL]

theorem matchLength_lengthPart (len : Option Bytes)
    (h : ∀ l ∈ len, l ≠ [] ∧ ∀ c ∈ l, c ≠ 10 ∧ c ≠ 40 ∧ c ≠ 62) :
    matchLength (lengthPart len) = some len := by
  cases len with
  | none => exact matchLength_nil
  | some l =>
    obtain ⟨hne, hl⟩ := h l rfl
    exact matchLength_some l hne (fun c hc => (hl c hc).1)

theorem not_mem_lengthPart (len : Option Bytes) (d : UInt8) (h91 : d ≠ 91) (h93 : d ≠ 93)
    (h : ∀ l ∈ len, ∀ c ∈ l, c ≠ d) : d ∉ lengthPart len := by
  cases len with
  | none => simp [lengthPart]
  | some l =>
    simp only [lengthPart, List.mem_cons, List.mem_append, List.mem_singleton, not_or]
    refine ⟨h91, ?_, h93, List.not_mem_nil _⟩
    intro hd
    exact h l rfl d hd rfl

theorem matchID_iespec (x1 : Bytes) (x3 : Option Bytes) (id tn : Bytes) (len : Option Bytes)
    (hid : id ≠ [] ∧ ∀ c ∈ id, isDigit c = true)
    (htn : tn ≠ [] ∧ ∀ c ∈ tn, c ≠ 10 ∧ c ≠ 40)
    (hlen : ∀ l ∈ len, l ≠ [] ∧ ∀ c ∈ l, c ≠ 10 ∧ c ≠ 40 ∧ c ≠ 62) :
    matchID x1 x3 (id ++ 41 :: 60 :: (tn ++ 62 :: lengthPart len))
      = some ⟨x1, x3, id, tn, len⟩ := by
  unfold matchID
  apply findSome_plusGreedy isDigit _ id _ _ hid.1 hid.2
  · intro b r' hb hp hr
    cases b with
    | nil => exact absurd rfl hb
    | cons y ys =>
      simp only [List.cons_append, List.cons.injEq] at hr
      have := hp y (List.mem_cons_self _ _)
      rw [← hr.1] at this
      exact absurd this (by decide)
  · simp only [lit_cons_self, Option.some_bind]
    apply findSome_plusGreedy isDot _ tn _ _ htn.1 (fun c hc => isDot_of_ne (htn.2 c hc).1)
    · intro b r' hb _ hr
      have hmem := suffix_of_cons_eq hb hr
      have h62 : (62 : UInt8) ∉ r' := fun h =>
        not_mem_lengthPart len 62 (by decide) (by decide)
          (fun l hl c hc => (((hlen l hl).2 c hc).2.2)) (hmem 62 h)
      simp [lit_eq_none_of_not_mem h62]
    · simp [lit_cons_self, matchLength_lengthPart len hlen]

theorem matchPen_iespec (x1 : Bytes) (pen : Option Bytes) (id tn : Bytes) (len : Option Bytes)
    (hpen : ∀ p ∈ pen, p ≠ [] ∧ ∀ c ∈ p, isDigit c = true)
    (hid : id ≠ [] ∧ ∀ c ∈ id, isDigit c = true)
    (htn : tn ≠ [] ∧ ∀ c ∈ tn, c ≠ 10 ∧ c ≠ 40)
    (hlen : ∀ l ∈ len, l ≠ [] ∧ ∀ c ∈ l, c ≠ 10 ∧ c ≠ 40 ∧ c ≠ 62) :
    matchPen x1 (penPart pen ++ (id ++ 41 :: 60 :: (tn ++ 62 :: lengthPart len)))
      = some ⟨x1, pen, id, tn, len⟩ := by
  unfold matchPen
  cases pen with
  | some p =>
    obtain ⟨hne, hp⟩ := hpen p rfl
    have hfirst : (plusGreedy isDigit (penPart (some p) ++
        (id ++ 41 :: 60 :: (tn ++ 62 :: lengthPart len)))).findSome?
          (fun pr => (lit 47 pr.2).bind fun s1 => matchID x1 (some pr.1) s1)
        = some ⟨x1, some p, id, tn, len⟩ := by
      have e : penPart (some p) ++ (id ++ 41 :: 60 :: (tn ++ 62 :: lengthPart len))
          = p ++ 47 :: (id ++ 41 :: 60 :: (tn ++ 62 :: lengthPart len)) := by
        simp [penPart]
      rw [e]
      apply findSome_plusGreedy isDigit _ p _ _ hne hp
      · intro b r' hb hpb hr
        cases b with
        | nil => exact absurd rfl hb
        | cons y ys =>
          simp only [List.cons_append, List.cons.injEq] at hr
          have := hpb y (List.mem_cons_self _ _)
          rw [← hr.1] at this
          exact absurd this (by decide)
      · simp only [lit_cons_self, Option.some_bind]
        exact matchID_iespec x1 (some p) id tn len hid htn hlen
    rw [hfirst]
  | none =>
    have hnone : (plusGreedy isDigit (penPart none ++
        (id ++ 41 :: 60 :: (tn ++ 62 :: lengthPart len)))).findSome?
          (fun pr => (lit 47 pr.2).bind fun s1 => matchID x1 (some pr.1) s1) = none := by
      rw [List.findSome?_eq_none_iff]
      rintro ⟨a, r⟩ hmem
      obtain ⟨-, hs, ha⟩ := mem_plusGreedy.mp hmem
      cases hl : lit 47 r with
      | none => simp [hl]
      | some r2 =>
        exfalso
        have hr := lit_eq_some hl
        rw [hr] at hs
        simp only [penPart, List.nil_append] at hs
        have := split_unique isDigit id a 41 47 _ r2 hid.2 ha (by decide) (by decide) hs
        exact absurd this.2.1 (by decide)
    rw [hnone]
    simpa [penPart] using matchID_iespec x1 none id tn len hid htn hlen

theorem matchHere_iespec (name : Bytes) (pen : Option Bytes) (id tn : Bytes) (len : Option Bytes)
    (h : Tokens name pen id tn len) :
    matchHere (iespec name pen id tn len) = some ⟨name, pen, id, tn, len⟩ := by
  obtain ⟨hname, hpen, hid, htn, hlen⟩ := h
  unfold matchHere iespec
  apply findSome_plusGreedy isDot _ name _ _ hname.1 (fun c hc => isDot_of_ne (hname.2 c hc))
  · intro b r' hb _ hr
    have hmem := suffix_of_cons_eq hb hr
    have h40 : (40 : UInt8) ∉ r' := by
      intro h
      have h' := hmem 40 h
      simp only [List.mem_append, List.mem_cons] at h'
      rcases h' with h' | h' | h' | h' | h' | h' | h'
      · cases pen with
        | none => simp [penPart] at h'
        | some p =>
          simp only [penPart, List.mem_append, List.mem_singleton] at h'
          rcases h' with h' | h'
          · exact isDigit_ne ((hpen p rfl).2 40 h') (by decide) rfl
          · exact absurd h' (by decide)
      · exact isDigit_ne (hid.2 40 h') (by decide) rfl
      · exact absurd h' (by decide)
      · exact absurd h' (by decide)
      · exact (htn.2 40 h').2 rfl
      · exact absurd h' (by decide)
      · exact not_mem_lengthPart len 40 (by decide) (by decide)
          (fun l hl c hc => ((hlen l hl).2 c hc).2.1) h'
    simp [lit_eq_none_of_not_mem h40]
  · simp only [lit_cons_self, Option.some_bind]
    exact matchPen_iespec name pen id tn len hpen hid htn hlen

/-- The expression reads a well-formed iespec back into its tokens. -/
theorem FindSubmatch_iespec (name : Bytes) (pen : Option Bytes) (id tn : Bytes)
    (len : Option Bytes) (h : Tokens name pen id tn len) :
    FindSubmatch (iespec name pen id tn len) = some ⟨name, pen, id, tn, len⟩ := by
  have hm := matchHere_iespec name pen id tn len h
  obtain ⟨hname, -⟩ := h
  unfold FindSubmatch
  cases hs : iespec name pen id tn len with
  | nil =>
    exfalso
    unfold iespec at hs
    simp at hs
  | cons c cs =>
    rw [hs] at hm
    simp [findFrom, hm]

/-! ### Every match is a line of the input in iespec form -/

theorem atEOL_iff {s : Bytes} : atEOL s = true ↔ s = [] ∨ s.head? = some 10 := by
  cases s with
  | nil => simp [atEOL]
  | cons c cs => simp [atEOL]

theorem matchLength_sound {s : Bytes} {x7 : Option Bytes} (h : matchLength s = some x7) :
    ∃ post, s = lengthPart x7 ++ post ∧ atEOL post = true ∧
      ∀ l ∈ x7, l ≠ [] ∧ ∀ c ∈ l, c ≠ 10 := by
  unfold matchLength at h
  split at h
  · rename_i y hy
    cases h
    cases h1 : lit 91 s with
    | none => simp [h1] at hy
    | some s1 =>
      rw [h1, Option.some_bind] at hy
      obtain ⟨⟨a, r⟩, hmem, hf⟩ := List.exists_of_findSome?_eq_some hy
      obtain ⟨hne, hs1, ha⟩ := mem_plusGreedy.mp hmem
      cases h2 : lit 93 r with
      | none => simp [h2] at hf
      | some s2 =>
        simp only [h2, Option.some_bind] at hf
        by_cases he : atEOL s2 = true
        · simp only [he, if_true, Option.some.injEq] at hf
          subst hf
          refine ⟨s2, ?_, he, ?_⟩
          · rw [lit_eq_some h1, hs1, lit_eq_some h2]
            simp [lengthPart]
          · intro l hl
            cases hl
            exact ⟨hne, fun c hc => ne_of_isDot (ha c hc)⟩
        · simp [he] at hf
  · by_cases he : atEOL s = true
    · simp only [he, if_true, Option.some.injEq] at h
      subst h
      exact ⟨s, by simp [lengthPart], he, by simp⟩
    · simp [he] at h

theorem matchID_sound {x1 : Bytes} {x3 : Option Bytes} {s : Bytes} {x : Submatch}
    (h : matchID x1 x3 s = some x) :
    x.x1 = x1 ∧ x.x3 = x3 ∧
    ∃ post, s = x.x4 ++ 41 :: 60 :: (x.x5 ++ 62 :: lengthPart x.x7) ++ post ∧
      atEOL post = true ∧ (x.x4 ≠ [] ∧ ∀ c ∈ x.x4, isDigit c = true) ∧
      (x.x5 ≠ [] ∧ ∀ c ∈ x.x5, c ≠ 10) ∧ ∀ l ∈ x.x7, l ≠ [] ∧ ∀ c ∈ l, c ≠ 10 := by
  unfold matchID at h
  obtain ⟨⟨d, r⟩, hmem, hf⟩ := List.exists_of_findSome?_eq_some h
  obtain ⟨hdne, hs, hd⟩ := mem_plusGreedy.mp hmem
  cases h1 : lit 41 r with
  | none => simp [h1] at hf
  | some s1 =>
    simp only [h1, Option.some_bind] at hf
    cases h2 : lit 60 s1 with
    | none => simp [h2] at hf
    | some s2 =>
      simp only [h2, Option.some_bind] at hf
      obtain ⟨⟨t, r2⟩, hmem2, hg⟩ := List.exists_of_findSome?_eq_some hf
      obtain ⟨htne, hs2, ht⟩ := mem_plusGreedy.mp hmem2
      cases h3 : lit 62 r2 with
      | none => simp [h3] at hg
      | some s3 =>
        simp only [h3, Option.some_bind] at hg
        cases h4 : matchLength s3 with
        | none => simp [h4] at hg
        | some x7 =>
          simp only [h4, Option.map_some', Option.some.injEq] at hg
          subst hg
          obtain ⟨post, hs3, hpost, hx7⟩ := matchLength_sound h4
          refine ⟨rfl, rfl, post, ?_, hpost, ⟨hdne, hd⟩,
            ⟨htne, fun c hc => ne_of_isDot (ht c hc)⟩, hx7⟩
          rw [hs, lit_eq_some h1, lit_eq_some h2, hs2, lit_eq_some h3, hs3]
          simp

theorem matchPen_sound {x1 s : Bytes} {x : Submatch} (h : matchPen x1 s = some x) :
    x.x1 = x1 ∧
    ∃ post, s = penPart x.x3 ++ (x.x4 ++ 41 :: 60 :: (x.x5 ++ 62 :: lengthPart x.x7)) ++ post ∧
      atEOL post = true ∧ (∀ p ∈ x.x3, p ≠ [] ∧ ∀ c ∈ p, isDigit c = true) ∧
      (x.x4 ≠ [] ∧ ∀ c ∈ x.x4, isDigit c = true) ∧
      (x.x5 ≠ [] ∧ ∀ c ∈ x.x5, c ≠ 10) ∧ ∀ l ∈ x.x7, l ≠ [] ∧ ∀ c ∈ l, c ≠ 10 := by
  unfold matchPen at h
  split at h
  · rename_i y hy
    cases h
    obtain ⟨⟨p, r⟩, hmem, hf⟩ := List.exists_of_findSome?_eq_some hy
    obtain ⟨hpne, hs, hp⟩ := mem_plusGreedy.mp hmem
    cases h1 : lit 47 r with
    | none => simp [h1] at hf
    | some s1 =>
      simp only [h1, Option.some_bind] at hf
      obtain ⟨e1, e3, post, hs1, hpost, h4, h5, h7⟩ := matchID_sound hf
      refine ⟨e1, post, ?_, hpost, ?_, h4, h5, h7⟩
      · rw [hs, lit_eq_some h1, hs1, e3]
        simp [penPart]
      · intro q hq
        rw [e3] at hq
        cases hq
        exact ⟨hpne, hp⟩
  · obtain ⟨e1, e3, post, hs1, hpost, h4, h5, h7⟩ := matchID_sound h
    refine ⟨e1, post, ?_, hpost, ?_, h4, h5, h7⟩
    · rw [hs1, e3]
      simp [penPart]
    · intro q hq
      rw [e3] at hq
      cases hq

theorem matchHere_sound {s : Bytes} {x : Submatch} (h : matchHere s = some x) :
    ∃ post, s = iespec x.x1 x.x3 x.x4 x.x5 x.x7 ++ post ∧ atEOL post = true ∧ x.Sound := by
  unfold matchHere at h
  obtain ⟨⟨n, r⟩, hmem, hf⟩ := List.exists_of_findSome?_eq_some h
  obtain ⟨hnne, hs, hn⟩ := mem_plusGreedy.mp hmem
  cases h1 : lit 40 r with
  | none => simp [h1] at hf
  | some s1 =>
    simp only [h1, Option.some_bind] at hf
    obtain ⟨e1, post, hs1, hpost, h3, h4, h5, h7⟩ := matchPen_sound hf
    refine ⟨post, ?_, hpost, ⟨?_, ?_⟩, h3, h4, h5, h7⟩
    · rw [hs, lit_eq_some h1, hs1, e1]
      simp [iespec]
    · rw [e1]
      exact hnne
    · rw [e1]
      exact fun c hc => ne_of_isDot (hn c hc)

theorem findFrom_sound : ∀ (s : Bytes) (bol : Bool) (x : Submatch), findFrom bol s = some x →
    ∃ pre post, s = pre ++ iespec x.x1 x.x3 x.x4 x.x5 x.x7 ++ post ∧ atEOL post = true ∧
      ((pre = [] ∧ bol = true) ∨ pre.getLast? = some 10) ∧ x.Sound := by
  intro s
  induction s with
  | nil =>
    intro bol x h
    cases bol with
    | false => simp [findFrom] at h
    | true =>
      simp only [findFrom, if_true] at h
      obtain ⟨post, hs, hpost, hx⟩ := matchHere_sound h
      exact ⟨[], post, by simpa using hs, hpost, Or.inl ⟨rfl, rfl⟩, hx⟩
  | cons c cs ih =>
    intro bol x h
    unfold findFrom at h
    split at h
    · rename_i y hy
      cases h
      cases bol with
      | false => simp at hy
      | true =>
        simp only [if_true] at hy
        obtain ⟨post, hs, hpost, hx⟩ := matchHere_sound hy
        exact ⟨[], post, by simpa using hs, hpost, Or.inl ⟨rfl, rfl⟩, hx⟩
    · obtain ⟨pre, post, hs, hpost, hpre, hx⟩ := ih _ _ h
      refine ⟨c :: pre, post, by simp [hs], hpost, Or.inr ?_, hx⟩
      rcases hpre with ⟨rfl, hb⟩ | hpre
      · simp only [beq_iff_eq] at hb
        simp [hb]
      · cases pre with
        | nil => simp at hpre
        | cons p ps => simpa [List.getLast?_cons_cons] using hpre

theorem isDigit_ne_lf {c : UInt8} (h : isDigit c = true) : c ≠ 10 :=
  isDigit_ne h (by decide)

theorem iespec_no_lf {x : Submatch} (hx : x.Sound) :
    ∀ c ∈ iespec x.x1 x.x3 x.x4 x.x5 x.x7, c ≠ 10 := by
  obtain ⟨h1, h3, h4, h5, h7⟩ := hx
  intro c hc
  simp only [iespec, List.mem_append, List.mem_cons] at hc
  rcases hc with hc | hc | hc | hc | hc | hc | hc | hc | hc
  · exact h1.2 c hc
  · rw [hc]; decide
  · cases hp : x.x3 with
    | none => simp [hp, penPart] at hc
    | some p =>
      simp only [hp, penPart, List.mem_append, List.mem_singleton] at hc
      rcases hc with hc | hc
      · exact isDigit_ne_lf ((h3 p hp).2 c hc)
      · rw [hc]; decide
  · exact isDigit_ne_lf (h4.2 c hc)
  · rw [hc]; decide
  · rw [hc]; decide
  · exact h5.2 c hc
  · rw [hc]; decide
  · cases hl : x.x7 with
    | none => simp [hl, lengthPart] at hc
    | some l =>
      simp only [hl, lengthPart, List.mem_cons, List.mem_append, List.mem_singleton,
        List.not_mem_nil, or_false] at hc
      rcases hc with hc | hc | hc
      · rw [hc]; decide
      · exact (h7 l hl).2 c hc
      · rw [hc]; decide

/-- Every match of the expression is a line of the input that has the form
of an iespec, and its groups are the tokens of that line. -/
theorem FindSubmatch_sound {spec : Bytes} {x : Submatch} (h : FindSubmatch spec = some x) :
    x.Sound ∧ IsLine (iespec x.x1 x.x3 x.x4 x.x5 x.x7) spec ∧
      Iespec (iespec x.x1 x.x3 x.x4 x.x5 x.x7) := by
  obtain ⟨pre, post, hs, hpost, hpre, hx⟩ := findFrom_sound spec true x h
  refine ⟨hx, ⟨pre, post, hs, iespec_no_lf hx, ?_, atEOL_iff.mp hpost⟩, ?_⟩
  · rcases hpre with ⟨h1, -⟩ | h1
    · exact Or.inl h1
    · exact Or.inr h1
  · obtain ⟨h1, h3, h4, h5, h7⟩ := hx
    exact ⟨x.x1, x.x3, x.x4, x.x5, x.x7, h1.1, h3, h4.1, h4.2, h5.1,
      fun l hl => (h7 l hl).1, rfl⟩

/-! ### `Atoi` on a run of digits, and the parser on a well-formed iespec -/

theorem Atoi_digits (ds : Bytes) (hne : ds ≠ []) (hd : ∀ c ∈ ds, isDigit c = true)
    (hfit : digitsValue ds < 2 ^ 63) : Atoi ds = some (digitsValue ds : Int) := by
  cases ds with
  | nil => exact absurd rfl hne
  | cons c cs =>
    have hc := hd c (List.mem_cons_self _ _)
    have h43 : c ≠ 43 := isDigit_ne hc (by decide)
    have h45 : c ≠ 45 := isDigit_ne hc (by decide)
    have hall : (c :: cs).all isDigit = true := List.all_eq_true.mpr hd
    have hfit' : ((digitsValue (c :: cs) : Nat) : Int) ≤ 2 ^ 63 - 1 := by omega
    have hlow : -(2 : Int) ^ 63 ≤ ((digitsValue (c :: cs) : Nat) : Int) := by omega
    simp only [Atoi, List.head?_cons, Option.some.injEq, h43, h45, or_self, if_false,
      decide_False, Bool.false_eq_true, hall, intSize]
    rw [if_neg (by simp), if_pos (by constructor <;> omega)]

theorem Atoi_digits_overflow (ds : Bytes) (hne : ds ≠ []) (hd : ∀ c ∈ ds, isDigit c = true)
    (hfit : 2 ^ 63 ≤ digitsValue ds) : Atoi ds = none := by
  cases ds with
  | nil => exact absurd rfl hne
  | cons c cs =>
    have hc := hd c (List.mem_cons_self _ _)
    have h43 : c ≠ 43 := isDigit_ne hc (by decide)
    have h45 : c ≠ 45 := isDigit_ne hc (by decide)
    have hall : (c :: cs).all isDigit = true := List.all_eq_true.mpr hd
    have hfit' : ¬ ((digitsValue (c :: cs) : Nat) : Int) ≤ 2 ^ 63 - 1 := by omega
    simp only [Atoi, List.head?_cons, Option.some.injEq, h43, h45, or_self, if_false,
      decide_False, Bool.false_eq_true, hall, intSize]
    rw [if_neg (by simp), if_neg (by omega)]

theorem toUint16_natCast (n : Nat) : toUint16 (n : Int) = n % 65536 := by
  unfold toUint16
  omega

theorem toUint32_natCast (n : Nat) : toUint32 (n : Int) = n % 4294967296 := by
  unfold toUint32
  omega

/-- The parser on a well-formed iespec whose numbers fit the platform `int`
and whose type resolves: everything up to the length suffix is settled. -/
theorem MakeIEFromSpec_iespec {τ : Type} [DecidableEq τ] (T : Taxonomy τ)
    (name : Bytes) (pen : Option Bytes) (id tn : Bytes) (len : Option Bytes)
    (htok : Tokens name pen id tn len)
    (hpen : penValue pen < 2 ^ 63) (hid : digitsValue id < 2 ^ 63)
    (ht : T.NameToType tn ≠ T.IllegalType) :
    MakeIEFromSpec T (iespec name pen id tn len) =
      match suffixLength len with
      | .panic => .panic
      | .error e => .error e
      | .ok length =>
        match defaultLength T (T.NameToType tn) length with
        | .panic => .panic
        | .error e => .error e
        | .ok length =>
          .ok ⟨name, penValue pen % 4294967296, digitsValue id % 65536, T.NameToType tn,
            toUint16 length⟩ := by
  have hx := FindSubmatch_iespec name pen id tn len htok
  obtain ⟨-, hp, hi, -, -⟩ := htok
  have hpenA : enterprise pen = some (penValue pen : Int) := by
    cases pen with
    | none => rfl
    | some p => exact Atoi_digits p (hp p rfl).1 (hp p rfl).2 hpen
  have hidA := Atoi_digits id hi.1 hi.2 hid
  unfold MakeIEFromSpec
  simp only [hx, hpenA, hidA, ht, if_false, NewInformationElement, toUint16_natCast,
    toUint32_natCast]

theorem suffixLength_digits (l : Bytes) (hne : l ≠ []) (hd : ∀ c ∈ l, isDigit c = true)
    (hfit : digitsValue l < 2 ^ 63) : suffixLength (some l) = .ok (digitsValue l : Int) := by
  have hA := Atoi_digits l hne hd hfit
  cases l with
  | nil => exact absurd rfl hne
  | cons c cs =>
    have hc : c ≠ 118 := isDigit_ne (hd c (List.mem_cons_self _ _)) (by decide)
    simp [suffixLength, hc, hA]

theorem suffixLength_v (rest : Bytes) : suffixLength (some (118 :: rest)) = .ok 0 := by
  simp [suffixLength]

/-- The index `x[7][0]` is in range on every match. -/
theorem suffixLength_ne_panic {x7 : Option Bytes} (h : ∀ l ∈ x7, l ≠ []) :
    suffixLength x7 ≠ .panic := by
  cases x7 with
  | none => simp [suffixLength]
  | some l =>
    cases l with
    | nil => exact absurd rfl (h [] rfl)
    | cons c cs =>
      simp only [suffixLength, List.head?_cons]
      split
      · split <;> simp
      · simp

/-! ## Claims on `MakeIEFromSpec` -/

/-- C1, as stated, fails: the id token is narrowed to 16 bits, so
`testElement(65540)<unsigned32>`, which has the form NAME(ID)<TYPENAME> with
ID = 65540, yields id 4; and a NAME that holds a line feed is cut at it
(`a\nb(4)<unsigned32>` yields the name `b`). -/
theorem C1_id_narrowed_name_cut :
    (ascii "testElement(65540)<unsigned32>"
        = iespec (ascii "testElement") none (ascii "65540") (ascii "unsigned32") none
      ∧ digitsValue (ascii "65540") = 65540
      ∧ MakeIEFromSpec ipfixTaxonomy (ascii "testElement(65540)<unsigned32>")
        = .ok ⟨ascii "testElement", 0, 4, .unsigned32, 4⟩)
    ∧ (ascii "a\nb(4)<unsigned32>"
        = iespec (ascii "a\nb") none (ascii "4") (ascii "unsigned32") none
      ∧ MakeIEFromSpec ipfixTaxonomy (ascii "a\nb(4)<unsigned32>")
        = .ok ⟨ascii "b", 0, 4, .unsigned32, 4⟩) := by
  decide

/-- C1, amended: for every iespec NAME(ID)<TYPENAME> without enterprise prefix
and length suffix, where NAME is not empty and holds no line feed, ID is a run
of decimal digits of value below 2^16, and TYPENAME (not empty, no line feed,
no `(`) resolves to a legal type `t` with default width `w`, `MakeIEFromSpec`
succeeds with the descriptor {NAME, 0, ID, t, w}. -/
theorem MakeIEFromSpec_plain {τ : Type} [DecidableEq τ] (T : Taxonomy τ)
    (name id tn : Bytes) (w : Nat)
    (htok : Tokens name none id tn none) (hid : digitsValue id < 65536)
    (ht : T.NameToType tn ≠ T.IllegalType)
    (hw : T.DefaultSize (T.NameToType tn) = some w) :
    MakeIEFromSpec T (iespec name none id tn none)
      = .ok ⟨name, 0, digitsValue id, T.NameToType tn, w⟩ := by
  rw [MakeIEFromSpec_iespec T name none id tn none htok (by simp [penValue]) (by omega) ht]
  have hw' := T.size_lt _ _ hw
  simp [suffixLength, defaultLength, hw, penValue, toUint16_natCast,
    Nat.mod_eq_of_lt hid, Nat.mod_eq_of_lt hw']

/-- Witness of `MakeIEFromSpec_plain`: `testElement(4)<unsigned32>` gives
{testElement, 0, 4, unsigned32, 4}. -/
theorem MakeIEFromSpec_plain_witness :
    MakeIEFromSpec ipfixTaxonomy (ascii "testElement(4)<unsigned32>")
      = .ok ⟨ascii "testElement", 0, 4, .unsigned32, 4⟩ :=
  MakeIEFromSpec_plain ipfixTaxonomy (ascii "testElement") (ascii "4") (ascii "unsigned32") 4
    (by decide) (by decide) (by decide) (by decide)

/-- C2, as stated, fails: an explicit length 0 is replaced by the default
width (`testElement(4)<unsigned32>[0]` has length 4), and a length of 2^16 or
more is narrowed (`testElement(999/4)<octetArray>[65552]` has length 16). -/
theorem C2_length_zero_and_narrowed :
    (ascii "testElement(4)<unsigned32>[0]"
        = iespec (ascii "testElement") none (ascii "4") (ascii "unsigned32") (some (ascii "0"))
      ∧ MakeIEFromSpec ipfixTaxonomy (ascii "testElement(4)<unsigned32>[0]")
        = .ok ⟨ascii "testElement", 0, 4, .unsigned32, 4⟩)
    ∧ (digitsValue (ascii "65552") = 65552
      ∧ MakeIEFromSpec ipfixTaxonomy (ascii "testElement(999/4)<octetArray>[65552]")
        = .ok ⟨ascii "testElement", 999, 4, .octetArray, 16⟩) := by
  decide

/-- C2, amended: for every well-formed iespec with a length suffix [L], L a
run of decimal digits of value between 1 and 65535, whose enterprise and id
tokens fit the platform `int` and whose type resolves, `MakeIEFromSpec`
succeeds and the length of the descriptor is L, whatever the default width of
the type. -/
theorem MakeIEFromSpec_explicit_length {τ : Type} [DecidableEq τ] (T : Taxonomy τ)
    (name : Bytes) (pen : Option Bytes) (id tn L : Bytes)
    (htok : Tokens name pen id tn (some L)) (hL : ∀ c ∈ L, isDigit c = true)
    (hpos : 0 < digitsValue L) (hlt : digitsValue L < 65536)
    (hpen : penValue pen < 2 ^ 63) (hid : digitsValue id < 2 ^ 63)
    (ht : T.NameToType tn ≠ T.IllegalType) :
    MakeIEFromSpec T (iespec name pen id tn (some L))
      = .ok ⟨name, penValue pen % 4294967296, digitsValue id % 65536, T.NameToType tn,
          digitsValue L⟩ := by
  rw [MakeIEFromSpec_iespec T name pen id tn (some L) htok hpen hid ht]
  have hne : L ≠ [] := (htok.2.2.2.2 L rfl).1
  rw [suffixLength_digits L hne hL (by omega)]
  have h0 : ¬ ((digitsValue L : Nat) : Int) = 0 := by omega
  simp [defaultLength, h0, toUint16_natCast, Nat.mod_eq_of_lt hlt]

/-- Witness of `MakeIEFromSpec_explicit_length`:
`testElement(999/4)<octetArray>[16]` gives enterprise 999, id 4, type
octetArray, length 16. -/
theorem MakeIEFromSpec_explicit_length_witness :
    MakeIEFromSpec ipfixTaxonomy (ascii "testElement(999/4)<octetArray>[16]")
      = .ok ⟨ascii "testElement", 999, 4, .octetArray, 16⟩ :=
  MakeIEFromSpec_explicit_length ipfixTaxonomy (ascii "testElement") (some (ascii "999"))
    (ascii "4") (ascii "octetArray") (ascii "16")
    (by decide) (by decide) (by decide) (by decide) (by decide) (by decide) (by decide)

/-- C3, as stated, fails: `[v]` on a type of fixed width leaves the fixed
width. `testElement(4)<unsigned32>[v]` has length 4, the default width of
unsigned32, not the variable-length marker. -/
theorem C3_v_keeps_fixed_width :
    ascii "testElement(4)<unsigned32>[v]"
        = iespec (ascii "testElement") none (ascii "4") (ascii "unsigned32") (some (ascii "v"))
    ∧ NameToType (ascii "unsigned32") = .unsigned32
    ∧ MakeIEFromSpec ipfixTaxonomy (ascii "testElement(4)<unsigned32>[v]")
        = .ok ⟨ascii "testElement", 0, 4, .unsigned32, 4⟩
    ∧ 4 ≠ VariableLength := by
  decide

/-- C3, amended: for every well-formed iespec whose length suffix begins with
`v`, whose enterprise and id tokens fit the platform `int` and whose type
resolves to a legal type with default width `w`, `MakeIEFromSpec` succeeds
and the length of the descriptor is `w`: the suffix is ignored, and the length
is the variable-length marker exactly when that is the default of the type. -/
theorem MakeIEFromSpec_v_suffix {τ : Type} [DecidableEq τ] (T : Taxonomy τ)
    (name : Bytes) (pen : Option Bytes) (id tn rest : Bytes) (w : Nat)
    (htok : Tokens name pen id tn (some (118 :: rest)))
    (hpen : penValue pen < 2 ^ 63) (hid : digitsValue id < 2 ^ 63)
    (ht : T.NameToType tn ≠ T.IllegalType)
    (hw : T.DefaultSize (T.NameToType tn) = some w) :
    MakeIEFromSpec T (iespec name pen id tn (some (118 :: rest)))
      = .ok ⟨name, penValue pen % 4294967296, digitsValue id % 65536, T.NameToType tn, w⟩ := by
  rw [MakeIEFromSpec_iespec T name pen id tn _ htok hpen hid ht, suffixLength_v]
  have hw' := T.size_lt _ _ hw
  simp [defaultLength, hw, toUint16_natCast, Nat.mod_eq_of_lt hw']

/-- Witness of `MakeIEFromSpec_v_suffix`: `testElement(4)<string>[v]` has the
variable-length marker as its length, the default of string. -/
theorem MakeIEFromSpec_v_suffix_witness :
    MakeIEFromSpec ipfixTaxonomy (ascii "testElement(4)<string>[v]")
      = .ok ⟨ascii "testElement", 0, 4, .string, VariableLength⟩ :=
  MakeIEFromSpec_v_suffix ipfixTaxonomy (ascii "testElement") none (ascii "4") (ascii "string")
    [] VariableLength (by decide) (by decide) (by decide) (by decide) (by decide)

theorem getLast_iespec (name : Bytes) (pen : Option Bytes) (id tn : Bytes) (len : Option Bytes) :
    (iespec name pen id tn len).getLast? = some 62 ∨
      (iespec name pen id tn len).getLast? = some 93 := by
  cases len with
  | none =>
    left
    have e : iespec name pen id tn none
        = (name ++ 40 :: (penPart pen ++ (id ++ 41 :: 60 :: tn))) ++ [62] := by
      simp [iespec, lengthPart]
    rw [e, List.getLast?_append]
    simp
  | some l =>
    right
    have e : iespec name pen id tn (some l)
        = (name ++ 40 :: (penPart pen ++ (id ++ 41 :: 60 :: (tn ++ 62 :: 91 :: l)))) ++ [93] := by
      simp [iespec, lengthPart]
    rw [e, List.getLast?_append]
    simp

theorem Iespec.mem_paren {l : Bytes} (h : Iespec l) : (40 : UInt8) ∈ l := by
  obtain ⟨name, pen, id, tn, len, -, -, -, -, -, -, rfl⟩ := h
  simp [iespec]

theorem IsLine.subset {l spec : Bytes} (h : IsLine l spec) : ∀ c ∈ l, c ∈ spec := by
  obtain ⟨pre, post, rfl, -⟩ := h
  intro c hc
  simp [hc]

/-- C4, as stated, fails: under the flag `(?m)` the expression matches one
line of the input. `testElement(4)<unsigned32>` followed by a line feed ends
in neither `>` nor `]`, so it is not of the form
NAME(PEN/)?(ID)<TYPENAME>([LENGTH])?, and it is parsed without error. -/
theorem C4_line_of_input_accepted :
    ¬ Iespec (ascii "testElement(4)<unsigned32>\n")
    ∧ MakeIEFromSpec ipfixTaxonomy (ascii "testElement(4)<unsigned32>\n")
        = .ok ⟨ascii "testElement", 0, 4, .unsigned32, 4⟩ := by
  refine ⟨?_, by decide⟩
  rintro ⟨name, pen, id, tn, len, -, -, -, -, -, -, h⟩
  have hl := getLast_iespec name pen id tn len
  rw [← h] at hl
  revert hl
  decide

/-- C4, amended: when every legal type has a default size, `MakeIEFromSpec`
never faults, on any input: it returns a descriptor or an error (the index
`x[7][0]` is in range on every match). And on every input none of whose lines
has the form NAME(PEN/)?(ID)<TYPENAME>([LENGTH])? it returns the parse error. -/
theorem MakeIEFromSpec_total {τ : Type} [DecidableEq τ] (T : Taxonomy τ)
    (hT : ∀ x, T.NameToType x ≠ T.IllegalType → (T.DefaultSize (T.NameToType x)).isSome = true)
    (spec : Bytes) :
    MakeIEFromSpec T spec ≠ .panic ∧
    ((∀ l, IsLine l spec → ¬ Iespec l) →
      MakeIEFromSpec T spec = .error .couldNotParseIespec) := by
  constructor
  · unfold MakeIEFromSpec
    cases hx : FindSubmatch spec with
    | none => simp
    | some x =>
      obtain ⟨⟨-, -, -, -, h7⟩, -, -⟩ := FindSubmatch_sound hx
      have hs : suffixLength x.x7 ≠ .panic := suffixLength_ne_panic (fun l hl => (h7 l hl).1)
      simp only
      cases enterprise x.x3 with
      | none => simp
      | some pen =>
        cases Atoi x.x4 with
        | none => simp
        | some id =>
          by_cases ht : T.NameToType x.x5 = T.IllegalType
          · simp [ht]
          · simp only [ht, if_false]
            cases hl : suffixLength x.x7 with
            | panic => exact absurd hl hs
            | error e => simp
            | ok length =>
              obtain ⟨w, hw⟩ := Option.isSome_iff_exists.mp (hT _ ht)
              by_cases h0 : length = 0
              · simp [defaultLength, h0, hw]
              · simp [defaultLength, h0]
  · intro hno
    unfold MakeIEFromSpec
    cases hx : FindSubmatch spec with
    | none => rfl
    | some x =>
      obtain ⟨-, hline, hform⟩ := FindSubmatch_sound hx
      exact absurd hform (hno _ hline)

/-- Witness of `MakeIEFromSpec_total`: `not a valid spec` is a parse error
and no fault. -/
theorem MakeIEFromSpec_total_witness :
    MakeIEFromSpec ipfixTaxonomy (ascii "not a valid spec") ≠ .panic ∧
    MakeIEFromSpec ipfixTaxonomy (ascii "not a valid spec") = .error .couldNotParseIespec :=
  have h := MakeIEFromSpec_total ipfixTaxonomy (fun _ _ => rfl) (ascii "not a valid spec")
  ⟨h.1, h.2 (fun _ hl hi => absurd (hl.subset _ hi.mem_paren) (by decide))⟩

/-! ## Claims on the registry -/

theorem GoMap.set_self {κ ν : Type} [DecidableEq κ] (m : GoMap κ ν) (k : κ) (v : ν) :
    m.set k v k = some v := by
  simp [GoMap.set]

theorem GoMap.set_other {κ ν : Type} [DecidableEq κ] (m : GoMap κ ν) (k k' : κ) (v : ν)
    (h : k' ≠ k) : m.set k v k' = m k' := by
  simp [GoMap.set, h]

theorem GoMap.set_set {κ ν : Type} [DecidableEq κ] (m : GoMap κ ν) (k : κ) (v v' : ν) :
    (m.set k v).set k v' = m.set k v' := by
  funext k'
  by_cases h : k' = k <;> simp [GoMap.set, h]

theorem Get_ok_iff {τ : Type} (name : Bytes) (r : Registry τ) (x : InformationElement τ) :
    (GetInformationElement name r).1 = .ok x ↔ r.informationElementRegistry name = some x := by
  unfold GetInformationElement
  cases r.informationElementRegistry name <;> simp

theorem Resolve_ok_iff {τ : Type} (pen id : Nat) (r : Registry τ) (x : InformationElement τ) :
    (ResolveInformationElement pen id r).1 = .ok x ↔
      ∃ m, r.enterpriseElementRegistry pen = some m ∧ m id = some x := by
  unfold ResolveInformationElement
  cases r.enterpriseElementRegistry pen with
  | none => simp
  | some m => cases h : m id <;> simp [h]

theorem Get_error_iff {τ : Type} (name : Bytes) (r : Registry τ) :
    (GetInformationElement name r).1.isError = true ↔ r.informationElementRegistry name = none := by
  unfold GetInformationElement
  cases r.informationElementRegistry name <;> simp [Go.isError]

theorem Resolve_error_iff {τ : Type} (pen id : Nat) (r : Registry τ) :
    (ResolveInformationElement pen id r).1.isError = true ↔
      ∀ m, r.enterpriseElementRegistry pen = some m → m id = none := by
  unfold ResolveInformationElement
  cases r.enterpriseElementRegistry pen with
  | none => simp [Go.isError]
  | some m => cases h : m id <;> simp [h, Go.isError]

/-- The registry after a registration under a fresh name. -/
theorem Register_fresh {τ : Type} (y : InformationElement τ) (r : Registry τ)
    (h : r.informationElementRegistry y.Name = none) :
    RegisterInformationElement y r = (none,
      ⟨r.informationElementRegistry.set y.Name y,
       r.enterpriseElementRegistry.set y.Pen
        (((r.enterpriseElementRegistry y.Pen).getD GoMap.empty).set y.ID y)⟩) := by
  unfold RegisterInformationElement
  rw [h]
  cases he : r.enterpriseElementRegistry y.Pen <;> simp [GoMap.set_set]

/-- The registry after a registration under a name that is taken. -/
theorem Register_taken {τ : Type} (y z : InformationElement τ) (r : Registry τ)
    (h : r.informationElementRegistry y.Name = some z) :
    RegisterInformationElement y r = (some (.alreadyRegistered y.Name), r) := by
  unfold RegisterInformationElement
  rw [h]

/-- C5: `RegisterInformationElement x` returns an error exactly when the name
index already holds `x.Name`, and then the registry (both indices) is what it
was. -/
theorem RegisterInformationElement_error_iff {τ : Type} (x : InformationElement τ)
    (r : Registry τ) :
    ((RegisterInformationElement x r).1.isSome = true
        ↔ (r.informationElementRegistry x.Name).isSome = true) ∧
    ((RegisterInformationElement x r).1.isSome = true → (RegisterInformationElement x r).2 = r) := by
  cases hn : r.informationElementRegistry x.Name with
  | some y => simp [Register_taken x y r hn]
  | none => simp [Register_fresh x r hn]

/-- C5, the scenario of the claim: after name "x" is registered with id 1, a
second registration of name "x" with id 2 fails; the name "x" still gives the
first element and (0, 2) still does not resolve. -/
theorem RegisterInformationElement_error_iff_witness :
    (RegisterInformationElement (⟨ascii "x", 0, 1, IEType.unsigned32, 4⟩) Registry.init).1 = none ∧
    (RegisterInformationElement (⟨ascii "x", 0, 2, IEType.unsigned32, 4⟩)
      (RegisterInformationElement (⟨ascii "x", 0, 1, IEType.unsigned32, 4⟩) Registry.init).2).1
      = some (.alreadyRegistered (ascii "x")) ∧
    (RegisterInformationElement (⟨ascii "x", 0, 2, IEType.unsigned32, 4⟩)
      (RegisterInformationElement (⟨ascii "x", 0, 1, IEType.unsigned32, 4⟩) Registry.init).2).2
      = (RegisterInformationElement (⟨ascii "x", 0, 1, IEType.unsigned32, 4⟩) Registry.init).2 ∧
    (GetInformationElement (ascii "x")
      (RegisterInformationElement (⟨ascii "x", 0, 1, IEType.unsigned32, 4⟩) Registry.init).2).1
      = .ok ⟨ascii "x", 0, 1, IEType.unsigned32, 4⟩ ∧
    (ResolveInformationElement 0 2
      (RegisterInformationElement (⟨ascii "x", 0, 1, IEType.unsigned32, 4⟩) Registry.init).2).1
      = .error (.noElement 2 0) :=
  ⟨by decide, by decide,
    (RegisterInformationElement_error_iff (⟨ascii "x", 0, 2, IEType.unsigned32, 4⟩)
      (RegisterInformationElement (⟨ascii "x", 0, 1, IEType.unsigned32, 4⟩) Registry.init).2).2
      (by decide),
    by decide, by decide⟩

/-- C6: when the name of `x` is not yet registered, the registration of `x`
returns `nil`, and afterwards the lookup by `x.Name` and the lookup by
`(x.Pen, x.ID)` both return `x` without error. -/
theorem RegisterInformationElement_then_lookup {τ : Type} (x : InformationElement τ)
    (r : Registry τ) (hfresh : r.informationElementRegistry x.Name = none) :
    (RegisterInformationElement x r).1 = none ∧
    (GetInformationElement x.Name (RegisterInformationElement x r).2).1 = .ok x ∧
    (ResolveInformationElement x.Pen x.ID (RegisterInformationElement x r).2).1 = .ok x := by
  rw [Register_fresh x r hfresh]
  refine ⟨rfl, ?_, ?_⟩
  · rw [Get_ok_iff]
    exact GoMap.set_self _ _ _
  · rw [Resolve_ok_iff]
    exact ⟨_, GoMap.set_self _ _ _, GoMap.set_self _ _ _⟩

/-- Witness of `RegisterInformationElement_then_lookup` on the empty registry. -/
theorem RegisterInformationElement_then_lookup_witness :
    (RegisterInformationElement (⟨ascii "x", 999, 4, IEType.octetArray, 16⟩) Registry.init).1
      = none ∧
    (GetInformationElement (ascii "x")
      (RegisterInformationElement (⟨ascii "x", 999, 4, IEType.octetArray, 16⟩) Registry.init).2).1
      = .ok ⟨ascii "x", 999, 4, IEType.octetArray, 16⟩ ∧
    (ResolveInformationElement 999 4
      (RegisterInformationElement (⟨ascii "x", 999, 4, IEType.octetArray, 16⟩) Registry.init).2).1
      = .ok ⟨ascii "x", 999, 4, IEType.octetArray, 16⟩ :=
  RegisterInformationElement_then_lookup ⟨ascii "x", 999, 4, IEType.octetArray, 16⟩
    Registry.init rfl

/-- C7, as stated, fails: the pair (enterprise, id) is not unique. After
"a" and then "b" are registered, both with enterprise 0 and id 1, both calls
having succeeded, the pair (0, 1) that resolved to "a" resolves to "b". -/
theorem C7_pair_overwritten :
    (RegisterInformationElement (⟨ascii "a", 0, 1, IEType.unsigned32, 4⟩) Registry.init).1 = none ∧
    (ResolveInformationElement 0 1
      (RegisterInformationElement (⟨ascii "a", 0, 1, IEType.unsigned32, 4⟩) Registry.init).2).1
      = .ok ⟨ascii "a", 0, 1, IEType.unsigned32, 4⟩ ∧
    (RegisterInformationElement (⟨ascii "b", 0, 1, IEType.unsigned32, 4⟩)
      (RegisterInformationElement (⟨ascii "a", 0, 1, IEType.unsigned32, 4⟩) Registry.init).2).1
      = none ∧
    (ResolveInformationElement 0 1
      (RegisterInformationElement (⟨ascii "b", 0, 1, IEType.unsigned32, 4⟩)
        (RegisterInformationElement (⟨ascii "a", 0, 1, IEType.unsigned32, 4⟩) Registry.init).2).2).1
      = .ok ⟨ascii "b", 0, 1, IEType.unsigned32, 4⟩ := by
  decide

/-- C7, amended: for every registry state and every element `y`, after
`RegisterInformationElement y`, whether it succeeds or fails, every name that
resolved to `x` before still resolves to the same `x`; every pair
(enterprise, id) that resolved before still resolves, to the same `x` when the
pair is not `(y.Pen, y.ID)` or the call failed, and to `y` when the pair is
`(y.Pen, y.ID)` and the call succeeded. -/
theorem RegisterInformationElement_append_only {τ : Type} (y : InformationElement τ)
    (r : Registry τ) :
    (∀ name x, (GetInformationElement name r).1 = .ok x →
      (GetInformationElement name (RegisterInformationElement y r).2).1 = .ok x) ∧
    (∀ pen id x, (ResolveInformationElement pen id r).1 = .ok x →
      (ResolveInformationElement pen id (RegisterInformationElement y r).2).1
        = if (RegisterInformationElement y r).1 = none ∧ pen = y.Pen ∧ id = y.ID
          then .ok y else .ok x) := by
  cases hn : r.informationElementRegistry y.Name with
  | some z =>
    rw [Register_taken y z r hn]
    simp
  | none =>
    rw [Register_fresh y r hn]
    constructor
    · intro name x hx
      rw [Get_ok_iff] at hx ⊢
      have hne : name ≠ y.Name := by
        rintro rfl
        rw [hn] at hx
        cases hx
      simpa [GoMap.set_other _ _ _ _ hne] using hx
    · intro pen id x hx
      obtain ⟨m, hm, hmx⟩ := (Resolve_ok_iff _ _ _ _).mp hx
      clear hx
      by_cases hp : pen = y.Pen
      · subst hp
        by_cases hi : id = y.ID
        · subst hi
          simp only [and_self, if_true, Resolve_ok_iff]
          exact ⟨_, GoMap.set_self _ _ _, GoMap.set_self _ _ _⟩
        · simp only [hi, and_false, if_false, Resolve_ok_iff]
          refine ⟨_, GoMap.set_self _ _ _, ?_⟩
          rw [GoMap.set_other _ _ _ _ hi, hm]
          exact hmx
      · simp only [hp, false_and, and_false, if_false, Resolve_ok_iff]
        exact ⟨m, by rw [GoMap.set_other _ _ _ _ hp]; exact hm, hmx⟩

/-- Witness of `RegisterInformationElement_append_only`: on the registry that
holds "a" under (0, 1), the registration of "b" under (0, 2) keeps both
lookups of "a". -/
theorem RegisterInformationElement_append_only_witness :
    (GetInformationElement (ascii "a")
      (RegisterInformationElement (⟨ascii "b", 0, 2, IEType.unsigned32, 4⟩)
        (RegisterInformationElement (⟨ascii "a", 0, 1, IEType.unsigned32, 4⟩) Registry.init).2).2).1
      = .ok ⟨ascii "a", 0, 1, IEType.unsigned32, 4⟩ ∧
    (ResolveInformationElement 0 1
      (RegisterInformationElement (⟨ascii "b", 0, 2, IEType.unsigned32, 4⟩)
        (RegisterInformationElement (⟨ascii "a", 0, 1, IEType.unsigned32, 4⟩) Registry.init).2).2).1
      = .ok ⟨ascii "a", 0, 1, IEType.unsigned32, 4⟩ :=
  have h := RegisterInformationElement_append_only (⟨ascii "b", 0, 2, IEType.unsigned32, 4⟩)
    (RegisterInformationElement (⟨ascii "a", 0, 1, IEType.unsigned32, 4⟩) Registry.init).2
  ⟨h.1 (ascii "a") ⟨ascii "a", 0, 1, IEType.unsigned32, 4⟩ (by decide),
    (h.2 0 1 ⟨ascii "a", 0, 1, IEType.unsigned32, 4⟩ (by decide)).trans (by decide)⟩

theorem holdsPair_register_fresh {τ : Type} (y : InformationElement τ) (r : Registry τ)
    (h : r.informationElementRegistry y.Name = none) (pen id : Nat) :
    (RegisterInformationElement y r).2.holdsPair pen id ↔
      r.holdsPair pen id ∨ (y.Pen = pen ∧ y.ID = id) := by
  rw [Register_fresh y r h]
  unfold Registry.holdsPair
  by_cases hp : pen = y.Pen
  · subst hp
    simp only [GoMap.set_self, Option.some.injEq, exists_eq_left', true_and]
    by_cases hi : id = y.ID
    · subst hi
      simp [GoMap.set_self]
    · rw [GoMap.set_other _ _ _ _ hi]
      have hi' : ¬ y.ID = id := fun e => hi e.symm
      cases he : r.enterpriseElementRegistry y.Pen <;> simp [hi', GoMap.empty]
  · have hp' : ¬ y.Pen = pen := fun e => hp e.symm
    simp [GoMap.set_other _ _ _ _ hp, hp']

theorem registerAll_pairs {τ : Type} (pen id : Nat) :
    ∀ (xs : List (InformationElement τ)) (r : Registry τ),
      (registerAll xs r).2.holdsPair pen id ↔
        r.holdsPair pen id ∨ ∃ x ∈ (registerAll xs r).1, x.Pen = pen ∧ x.ID = id := by
  intro xs
  induction xs with
  | nil => intro r; simp [registerAll]
  | cons y ys ih =>
    intro r
    cases hn : r.informationElementRegistry y.Name with
    | some z =>
      simp only [registerAll, Register_taken y z r hn]
      exact ih r
    | none =>
      have hf := holdsPair_register_fresh y r hn pen id
      have e := Register_fresh y r hn
      simp only [registerAll, e] at hf ⊢
      rw [ih, hf]
      simp only [List.mem_cons, exists_eq_or_imp]
      tauto

theorem registerAll_names {τ : Type} (name : Bytes) :
    ∀ (xs : List (InformationElement τ)) (r : Registry τ),
      (((registerAll xs r).2.informationElementRegistry name).isSome = true ↔
        (r.informationElementRegistry name).isSome = true ∨ ∃ x ∈ xs, x.Name = name) ∧
      (((registerAll xs r).2.informationElementRegistry name).isSome = true ↔
        (r.informationElementRegistry name).isSome = true ∨
          ∃ x ∈ (registerAll xs r).1, x.Name = name) := by
  intro xs
  induction xs with
  | nil => intro r; simp [registerAll]
  | cons y ys ih =>
    intro r
    cases hn : r.informationElementRegistry y.Name with
    | some z =>
      simp only [registerAll, Register_taken y z r hn]
      refine ⟨?_, (ih r).2⟩
      rw [(ih r).1]
      simp only [List.mem_cons, exists_eq_or_imp]
      constructor
      · rintro (h | h)
        · exact Or.inl h
        · exact Or.inr (Or.inr h)
      · rintro (h | h | h)
        · exact Or.inl h
        · left
          rw [← h, hn]
          rfl
        · exact Or.inr h
    | none =>
      have e := Register_fresh y r hn
      have hset : ∀ n, ((r.informationElementRegistry.set y.Name y) n).isSome = true ↔
          (r.informationElementRegistry n).isSome = true ∨ y.Name = n := by
        intro n
        by_cases hq : n = y.Name
        · subst hq
          simp [GoMap.set_self]
        · have hq' : ¬ y.Name = n := fun e => hq e.symm
          simp [GoMap.set_other _ _ _ _ hq, hq']
      simp only [registerAll, e]
      constructor
      · rw [(ih _).1, hset]
        simp only [List.mem_cons, exists_eq_or_imp]
        tauto
      · rw [(ih _).2, hset]
        simp only [List.mem_cons, exists_eq_or_imp]
        tauto

theorem Resolve_error_iff_not_holds {τ : Type} (pen id : Nat) (r : Registry τ) :
    (ResolveInformationElement pen id r).1.isError = true ↔ ¬ r.holdsPair pen id := by
  rw [Resolve_error_iff]
  unfold Registry.holdsPair
  constructor
  · rintro h ⟨m, hm, hs⟩
    rw [h m hm] at hs
    exact absurd hs (by simp)
  · intro h m hm
    cases hmi : m id with
    | none => rfl
    | some x => exact absurd ⟨m, hm, by simp [hmi]⟩ h

theorem Resolve_snd {τ : Type} (pen id : Nat) (r : Registry τ) :
    (ResolveInformationElement pen id r).2 = r := by
  unfold ResolveInformationElement
  cases h : r.enterpriseElementRegistry pen with
  | none => rfl
  | some m => cases h' : m id <;> simp [h']

theorem Get_snd {τ : Type} (name : Bytes) (r : Registry τ) :
    (GetInformationElement name r).2 = r := by
  unfold GetInformationElement
  cases h : r.informationElementRegistry name <;> rfl

/-- C8: in the registry reached from the empty one by any sequence `xs` of
`RegisterInformationElement` calls, the lookup by (pen, id) returns an error
exactly when no successful call stored an element with that enterprise number
and id, and the lookup by name returns an error exactly when no call, and no
successful call, had an element of that name; on the empty registry both
lookups return an error; and both lookups return the registry as it was. -/
theorem lookup_error_iff {τ : Type} (xs : List (InformationElement τ)) (pen id : Nat)
    (name : Bytes) :
    ((ResolveInformationElement pen id (registerAll xs Registry.init).2).1.isError = true ↔
      ¬ ∃ x ∈ (registerAll xs Registry.init).1, x.Pen = pen ∧ x.ID = id) ∧
    ((GetInformationElement name (registerAll xs Registry.init).2).1.isError = true ↔
      ¬ ∃ x ∈ xs, x.Name = name) ∧
    ((GetInformationElement name (registerAll xs Registry.init).2).1.isError = true ↔
      ¬ ∃ x ∈ (registerAll xs Registry.init).1, x.Name = name) ∧
    (ResolveInformationElement pen id (Registry.init : Registry τ)).1.isError = true ∧
    (GetInformationElement name (Registry.init : Registry τ)).1.isError = true ∧
    (ResolveInformationElement pen id (registerAll xs Registry.init).2).2
      = (registerAll xs Registry.init).2 ∧
    (GetInformationElement name (registerAll xs Registry.init).2).2
      = (registerAll xs Registry.init).2 := by
  have hinitP : ¬ (Registry.init : Registry τ).holdsPair pen id := by
    rintro ⟨m, hm, -⟩
    simp [Registry.init, GoMap.empty] at hm
  have hinitN : ((Registry.init : Registry τ).informationElementRegistry name).isSome = false := by
    simp [Registry.init, GoMap.empty]
  have hN := registerAll_names name xs (Registry.init : Registry τ)
  have hget : ∀ r : Registry τ, (GetInformationElement name r).1.isError = true ↔
      ¬ (r.informationElementRegistry name).isSome = true := by
    intro r
    rw [Get_error_iff]
    cases r.informationElementRegistry name <;> simp
  refine ⟨?_, ?_, ?_, ?_, ?_, ?_, ?_⟩
  · rw [Resolve_error_iff_not_holds, registerAll_pairs]
    simp [hinitP]
  · rw [hget, hN.1]
    simp [hinitN]
  · rw [hget, hN.2]
    simp [hinitN]
  · rw [Resolve_error_iff_not_holds]
    exact hinitP
  · rw [hget]
    simp [hinitN]
  · exact Resolve_snd _ _ _
  · exact Get_snd _ _

/-! ## Lemmas on the message stream -/

theorem MessageStream.SameTable.refl {τ : Type} (m : MessageStream τ) : m.SameTable m :=
  ⟨rfl, rfl, rfl, rfl⟩

theorem MessageStream.SameTable.trans {τ : Type} {a b c : MessageStream τ}
    (h1 : a.SameTable b) (h2 : b.SameTable c) : a.SameTable c :=
  ⟨h2.templates.trans h1.templates, h2.currentDataRecord.trans h1.currentDataRecord,
    h2.observationID.trans h1.observationID, h2.max.trans h1.max⟩

theorem patch_length : ∀ (bs data : Bytes) (off : Nat), (patch data off bs).length = data.length := by
  intro bs
  induction bs with
  | nil => intro data off; rfl
  | cons b bs ih =>
    intro data off
    simp [patch, ih]

theorem scratchBuffer.write_max (b : scratchBuffer) (off : Nat) (bs : Bytes) :
    (b.write off bs).max = b.max := rfl

theorem scratchBuffer.write_length (b : scratchBuffer) (off : Nat) (bs : Bytes) :
    (b.write off bs).data.length = b.data.length := by
  simp [scratchBuffer.write, patch_length]

theorem scratchBuffer.append_some {b b' : scratchBuffer} {num off : Nat}
    (h : b.append num = some (off, b')) :
    b.data.length + num ≤ b.max ∧ off = b.data.length ∧ b'.max = b.max ∧
      b'.data.length = b.data.length + num := by
  unfold scratchBuffer.append at h
  split at h
  · rename_i hle
    simp only [Option.some.injEq, Prod.mk.injEq] at h
    obtain ⟨rfl, rfl⟩ := h
    simp [hle]
  · cases h

theorem scratchBuffer.append_of_le (b : scratchBuffer) (num : Nat)
    (h : b.data.length + num ≤ b.max) :
    b.append num = some (b.data.length, { b with data := b.data ++ List.replicate num 0 }) := by
  simp [scratchBuffer.append, h]

theorem set.finalize_max (s : set) (b : scratchBuffer) : (s.finalize b).2.max = b.max := by
  unfold set.finalize
  split <;> rfl

theorem set.finalize_length (s : set) (b : scratchBuffer) :
    (s.finalize b).2.data.length = b.data.length := by
  unfold set.finalize
  split
  · exact scratchBuffer.write_length _ _ _
  · rfl

theorem set.finalize_isOpen (s : set) (b : scratchBuffer) : (s.finalize b).1.isOpen = false := by
  unfold set.finalize
  split
  · rfl
  · rename_i h
    simpa using h

theorem set.appendRecord_max (s : set) (b : scratchBuffer) (rec : record) :
    (s.appendRecord b rec).2.2.max = b.max := by
  unfold set.appendRecord
  split
  · rfl
  · split
    · rfl
    · split
      · split
        · rfl
        · rename_i h
          exact (scratchBuffer.append_some h).2.2.1
      · split
        · rfl
        · rename_i h
          exact (scratchBuffer.append_some h).2.2.1

theorem MessageStream.Finalize_same {τ : Type} (m : MessageStream τ) (now : Now) :
    m.SameTable (m.Finalize now).2 ∧ (m.Finalize now).2.sequence = m.sequence := by
  unfold MessageStream.Finalize
  split
  · exact ⟨SameTable.refl m, rfl⟩
  · refine ⟨⟨rfl, rfl, rfl, ?_⟩, rfl⟩
    simp [scratchBuffer.finalize]
    split <;> simp [scratchBuffer.write_max, set.finalize_max]

/-- After `Finalize` on an open message the buffer is empty and no set is
open. -/
theorem MessageStream.Finalize_dirty {τ : Type} (m : MessageStream τ) (now : Now)
    (h : m.dirty = true) :
    (m.Finalize now).2.buffer.data = [] ∧ (m.Finalize now).2.currentSet.isOpen = false := by
  unfold MessageStream.Finalize
  simp [h, scratchBuffer.finalize, set.finalize_isOpen]

theorem MessageStream.startMessage_some {τ : Type} {m m' : MessageStream τ}
    (h : m.startMessage = some m') :
    m.SameTable m' ∧ m'.sequence = m.sequence ∧ m'.dirty = true ∧
      m'.currentSet = m.currentSet ∧ m'.buffer.data.length = m.buffer.data.length + 16 := by
  unfold MessageStream.startMessage at h
  split at h
  · cases h
  · rename_i off b hb
    obtain ⟨-, -, hmax, hlen⟩ := scratchBuffer.append_some hb
    simp only [Option.some.injEq] at h
    subst h
    refine ⟨⟨rfl, rfl, rfl, ?_⟩, rfl, rfl, rfl, ?_⟩
    · simp [scratchBuffer.write_max, hmax]
    · simp [scratchBuffer.write_length, hlen]

theorem MessageStream.startMessage_of_le {τ : Type} (m : MessageStream τ)
    (h : m.buffer.data.length + 16 ≤ m.buffer.max) : ∃ m', m.startMessage = some m' := by
  unfold MessageStream.startMessage
  rw [scratchBuffer.append_of_le _ _ h]
  exact ⟨_, rfl⟩

theorem MessageStream.sendRecordLoop_returns {τ : Type} (rec : record) (now : Now) :
    ∀ (fuel : Nat) (m : MessageStream τ) (err : Option Error) (m' : MessageStream τ),
      m.sendRecordLoop fuel rec now = .returns (err, m') →
      m.SameTable m' ∧ m'.sequence = nextSequence m.sequence err rec := by
  intro fuel
  induction fuel with
  | zero =>
    intro m err m' h
    simp [MessageStream.sendRecordLoop] at h
  | succ fuel ih =>
    intro m err m' h
    have hmax := set.appendRecord_max m.currentSet m.buffer rec
    simp only [MessageStream.sendRecordLoop] at h
    split at h
    · simp only [Outcome.returns.injEq, Prod.mk.injEq] at h
      obtain ⟨rfl, rfl⟩ := h
      by_cases hid : rec.id ≥ 256
      · simp only [hid, if_true]
        exact ⟨⟨rfl, rfl, rfl, hmax⟩, by simp [nextSequence, hid]⟩
      · simp only [hid, if_false]
        exact ⟨⟨rfl, rfl, rfl, hmax⟩, by simp [nextSequence, hid]⟩
    · rename_i bf mm _
      split at h
      · split at h
        · cases h
        · rename_i m3 hs
          obtain ⟨h3, hseq3, -⟩ := startMessage_some hs
          obtain ⟨h4, hseq4⟩ := ih m3 err m' h
          have hF := Finalize_same
            ({ m with currentSet := (m.currentSet.appendRecord m.buffer rec).2.1,
                      buffer := (m.currentSet.appendRecord m.buffer rec).2.2 }) now
          have hA : m.SameTable
              ({ m with currentSet := (m.currentSet.appendRecord m.buffer rec).2.1,
                        buffer := (m.currentSet.appendRecord m.buffer rec).2.2 }) :=
            ⟨rfl, rfl, rfl, hmax⟩
          refine ⟨SameTable.trans (SameTable.trans hA hF.1) (SameTable.trans h3 h4), ?_⟩
          rw [hseq4, hseq3, hF.2]
      · split at h
        · obtain ⟨h4, hseq4⟩ := ih _ err m' h
          have hA : m.SameTable
              ({ m with
                 currentSet := ((m.currentSet.appendRecord m.buffer rec).2.1.finalize
                   (m.currentSet.appendRecord m.buffer rec).2.2).1,
                 buffer := ((m.currentSet.appendRecord m.buffer rec).2.1.finalize
                   (m.currentSet.appendRecord m.buffer rec).2.2).2 }) :=
            ⟨rfl, rfl, rfl, by simp [set.finalize_max, hmax]⟩
          exact ⟨SameTable.trans hA h4, hseq4⟩
        · simp only [Outcome.returns.injEq, Prod.mk.injEq] at h
          obtain ⟨rfl, rfl⟩ := h
          exact ⟨⟨rfl, rfl, rfl, hmax⟩, by simp [nextSequence]⟩
    · simp only [Outcome.returns.injEq, Prod.mk.injEq] at h
      obtain ⟨rfl, rfl⟩ := h
      exact ⟨⟨rfl, rfl, rfl, hmax⟩, by simp [nextSequence]⟩

theorem MessageStream.sendRecord_returns {τ : Type} (rec : record) (now : Now) (fuel : Nat)
    (m : MessageStream τ) (err : Option Error) (m' : MessageStream τ)
    (h : m.sendRecord fuel rec now = .returns (err, m')) :
    m.SameTable m' ∧ m'.sequence = nextSequence m.sequence err rec := by
  unfold MessageStream.sendRecord at h
  split at h
  · split at h
    · cases h
    · rename_i m1 hs
      obtain ⟨h1, hseq1, -⟩ := startMessage_some hs
      obtain ⟨h2, hseq2⟩ := sendRecordLoop_returns rec now fuel m1 err m' h
      exact ⟨SameTable.trans h1 h2, by rw [hseq2, hseq1]⟩
  · exact sendRecordLoop_returns rec now fuel m err m' h

/-! ### One iteration of the loop, by the answer of `appendRecord` -/

theorem set.appendRecord_mismatch (s : set) (b : scratchBuffer) (rec : record)
    (ho : s.isOpen = true) (hid : s.id ≠ rec.id) :
    s.appendRecord b rec = (some .RecordTypeMismatch, s, b) := by
  simp [set.appendRecord, ho, hid]

theorem set.appendRecord_closed (s : set) (b : scratchBuffer) (rec : record) (bytes : Bytes)
    (ho : s.isOpen = false) (henc : rec.encoding = .ok bytes) :
    s.appendRecord b rec =
      if b.data.length + (4 + bytes.length) ≤ b.max then
        (none, ⟨true, rec.id, b.data.length, 4 + bytes.length⟩,
          (scratchBuffer.mk (b.data ++ List.replicate (4 + bytes.length) 0) b.max).write
            b.data.length (be16 (toUint16 rec.id) ++ [0, 0] ++ bytes))
      else (some .BufferFull, s, b) := by
  unfold set.appendRecord
  rw [if_neg (by simp [ho])]
  by_cases hroom : b.data.length + (4 + bytes.length) ≤ b.max <;>
    simp [henc, ho, scratchBuffer.append, hroom]

theorem set.appendRecord_open (s : set) (b : scratchBuffer) (rec : record) (bytes : Bytes)
    (ho : s.isOpen = true) (hid : s.id = rec.id) (henc : rec.encoding = .ok bytes) :
    s.appendRecord b rec =
      if b.data.length + bytes.length ≤ b.max then
        (none, { s with length := s.length + bytes.length },
          (scratchBuffer.mk (b.data ++ List.replicate bytes.length 0) b.max).write
            b.data.length bytes)
      else (some .BufferFull, s, b) := by
  unfold set.appendRecord
  rw [if_neg (by simp [hid])]
  by_cases hroom : b.data.length + bytes.length ≤ b.max <;>
    simp [henc, ho, scratchBuffer.append, hroom]

theorem MessageStream.loop_of_ok {τ : Type} (m : MessageStream τ) (rec : record) (now : Now)
    (fuel : Nat) (h : (m.currentSet.appendRecord m.buffer rec).1 = none) :
    ∃ m', m.sendRecordLoop (fuel + 1) rec now = .returns (none, m') ∧ m'.dirty = m.dirty := by
  simp only [MessageStream.sendRecordLoop, h]
  by_cases hid : rec.id ≥ 256
  · simp only [hid, if_true]
    exact ⟨_, rfl, rfl⟩
  · simp only [hid, if_false]
    exact ⟨_, rfl, rfl⟩

theorem MessageStream.loop_of_full {τ : Type} (m : MessageStream τ) (rec : record) (now : Now)
    (fuel : Nat)
    (h : m.currentSet.appendRecord m.buffer rec = (some .BufferFull, m.currentSet, m.buffer)) :
    m.sendRecordLoop (fuel + 1) rec now =
      match (m.Finalize now).2.startMessage with
      | none => .panic
      | some m3 => m3.sendRecordLoop fuel rec now := by
  simp only [MessageStream.sendRecordLoop, h, Error.BufferFull, if_true]

theorem MessageStream.loop_of_mismatch {τ : Type} (m : MessageStream τ) (rec : record)
    (now : Now) (fuel : Nat)
    (h : m.currentSet.appendRecord m.buffer rec
      = (some .RecordTypeMismatch, m.currentSet, m.buffer)) :
    m.sendRecordLoop (fuel + 1) rec now =
      MessageStream.sendRecordLoop fuel
        { m with currentSet := (m.currentSet.finalize m.buffer).1,
                 buffer := (m.currentSet.finalize m.buffer).2 } rec now := by
  simp [MessageStream.sendRecordLoop, h, Error.RecordTypeMismatch]

/-- With no set open and room for a set header and the record, the first
iteration places the record. -/
theorem MessageStream.loop_closed_fit {τ : Type} (m : MessageStream τ) (rec : record)
    (now : Now) (fuel : Nat) (bytes : Bytes) (henc : rec.encoding = .ok bytes)
    (ho : m.currentSet.isOpen = false)
    (hfit : m.buffer.data.length + (4 + bytes.length) ≤ m.buffer.max) :
    ∃ m', m.sendRecordLoop (fuel + 1) rec now = .returns (none, m') ∧ m'.dirty = m.dirty := by
  apply loop_of_ok
  rw [set.appendRecord_closed _ _ _ bytes ho henc, if_pos hfit]

/-- After BufferFull on an open message, the rollover and the second attempt
place a record that fits. -/
theorem MessageStream.loop_after_full {τ : Type} (m : MessageStream τ) (rec : record)
    (now : Now) (fuel : Nat) (hd : m.dirty = true) (hfit : rec.FitsIn m.buffer.max) :
    ∃ m', (match (m.Finalize now).2.startMessage with
      | none => Outcome.panic
      | some m3 => m3.sendRecordLoop (fuel + 1) rec now) = .returns (none, m') ∧
      m'.dirty = true := by
  obtain ⟨bytes, henc, hle⟩ := hfit
  obtain ⟨hdata, hclosed⟩ := Finalize_dirty m now hd
  have hmax := (Finalize_same m now).1.max
  obtain ⟨m3, hs⟩ := startMessage_of_le (m.Finalize now).2 (by rw [hdata, hmax]; simp; omega)
  obtain ⟨h3, -, hd3, hset3, hlen3⟩ := startMessage_some hs
  rw [hs]
  obtain ⟨m', hm', hd'⟩ := loop_closed_fit m3 rec now fuel bytes henc (by rw [hset3, hclosed])
    (by rw [hlen3, hdata, h3.max, hmax]; simp; omega)
  exact ⟨m', hm', by rw [hd', hd3]⟩

/-- On an open message whose set is closed or has the id of the record, a
record that fits is placed within two iterations. -/
theorem MessageStream.loop_same_id {τ : Type} (m : MessageStream τ) (rec : record)
    (now : Now) (fuel : Nat) (hd : m.dirty = true) (hfit : rec.FitsIn m.buffer.max)
    (hset : m.currentSet.isOpen = false ∨ m.currentSet.id = rec.id) :
    ∃ m', m.sendRecordLoop (fuel + 2) rec now = .returns (none, m') ∧ m'.dirty = true := by
  obtain ⟨bytes, henc, hle⟩ := hfit
  by_cases ho : m.currentSet.isOpen = true
  · have hid : m.currentSet.id = rec.id := by
      rcases hset with h | h
      · rw [ho] at h; cases h
      · exact h
    have ha := set.appendRecord_open m.currentSet m.buffer rec bytes ho hid henc
    by_cases hroom : m.buffer.data.length + bytes.length ≤ m.buffer.max
    · rw [if_pos hroom] at ha
      obtain ⟨m', hm', hd'⟩ := loop_of_ok m rec now (fuel + 1) (by rw [ha])
      exact ⟨m', hm', by rw [hd', hd]⟩
    · rw [if_neg hroom] at ha
      rw [loop_of_full m rec now (fuel + 1) ha]
      exact loop_after_full m rec now fuel hd ⟨bytes, henc, hle⟩
  · have ho' : m.currentSet.isOpen = false := by simpa using ho
    have ha := set.appendRecord_closed m.currentSet m.buffer rec bytes ho' henc
    by_cases hroom : m.buffer.data.length + (4 + bytes.length) ≤ m.buffer.max
    · rw [if_pos hroom] at ha
      obtain ⟨m', hm', hd'⟩ := loop_of_ok m rec now (fuel + 1) (by rw [ha])
      exact ⟨m', hm', by rw [hd', hd]⟩
    · rw [if_neg hroom] at ha
      rw [loop_of_full m rec now (fuel + 1) ha]
      exact loop_after_full m rec now fuel hd ⟨bytes, henc, hle⟩

/-- On an open message a record that fits is placed within three iterations:
at most one set finalize and one message rollover. -/
theorem MessageStream.loop_places {τ : Type} (m : MessageStream τ) (rec : record)
    (now : Now) (fuel : Nat) (hd : m.dirty = true) (hfit : rec.FitsIn m.buffer.max) :
    ∃ m', m.sendRecordLoop (fuel + 3) rec now = .returns (none, m') ∧ m'.dirty = true := by
  by_cases hmis : m.currentSet.isOpen = true ∧ m.currentSet.id ≠ rec.id
  · rw [loop_of_mismatch m rec now (fuel + 2)
      (set.appendRecord_mismatch _ _ _ hmis.1 hmis.2)]
    refine loop_same_id
      ({ m with currentSet := (m.currentSet.finalize m.buffer).1,
                buffer := (m.currentSet.finalize m.buffer).2 }) rec now fuel hd ?_ ?_
    · simpa [set.finalize_max] using hfit
    · left
      exact set.finalize_isOpen _ _
  · have hset : m.currentSet.isOpen = false ∨ m.currentSet.id = rec.id := by
      by_cases ho : m.currentSet.isOpen = true
      · right
        by_contra hne
        exact hmis ⟨ho, hne⟩
      · left
        simpa using ho
    exact loop_same_id m rec now (fuel + 1) hd hfit hset

/-- From a state in which a closed message left the buffer empty, `sendRecord`
returns `nil` for every record that fits, with three units of fuel or more. -/
theorem MessageStream.sendRecord_places {τ : Type} (m : MessageStream τ) (rec : record)
    (now : Now) (fuel : Nat) (hidle : m.Idle) (hfit : rec.FitsIn m.buffer.max) :
    ∃ m', m.sendRecord (fuel + 3) rec now = .returns (none, m') ∧ m'.dirty = true := by
  unfold MessageStream.sendRecord
  by_cases hd : m.dirty = true
  · simp only [hd, Bool.true_eq_false, if_false]
    exact loop_places m rec now fuel hd hfit
  · have hd' : m.dirty = false := by simpa using hd
    simp only [hd', if_true]
    obtain ⟨bytes, henc, hle⟩ := hfit
    obtain ⟨m1, hs⟩ := startMessage_of_le m (by rw [hidle hd']; simp; omega)
    obtain ⟨h1, -, hd1, -, -⟩ := startMessage_some hs
    rw [hs]
    exact loop_places m1 rec now fuel hd1 ⟨bytes, henc, by rw [h1.max]; exact hle⟩

/-! ### `AddTemplate`, `SendData` and sequences of calls -/

theorem nextSequence_templateRecord {τ δ : Type} (C : Codec τ δ) (t : template τ)
    (sequence : Nat) (err : Option Error) :
    nextSequence sequence err (templateRecord C t) = sequence := by
  simp [nextSequence, templateRecord]

theorem MessageStream.AddTemplate_returns {τ δ : Type} (C : Codec τ δ) (fuel : Nat)
    (m : MessageStream τ) (now : Now) (elements : List (InformationElement τ)) (id : Int)
    (err : Option Error) (m' : MessageStream τ)
    (h : m.AddTemplate C fuel now elements = .returns ((id, err), m')) :
    id = 256 + m.templates.length ∧
    m'.templates = (if err = none then m.templates ++ [some ⟨toInt16 id, elements⟩]
      else m.templates) ∧
    m'.sequence = m.sequence ∧ m'.buffer.max = m.buffer.max := by
  unfold MessageStream.AddTemplate at h
  simp only at h
  split at h
  · cases h
  · cases h
  · rename_i err1 m1 hs
    obtain ⟨hsame, hseq⟩ := sendRecord_returns _ now fuel m err1 m1 hs
    rw [nextSequence_templateRecord] at hseq
    simp only [Outcome.returns.injEq, Prod.mk.injEq] at h
    obtain ⟨⟨rfl, rfl⟩, rfl⟩ := h
    refine ⟨by omega, ?_, ?_, ?_⟩
    · by_cases he : err1 = none
      · simp [he, hsame.templates]
      · simp [he, hsame.templates]
    · by_cases he : err1 = none
      · simp [he, hseq]
      · simp [he, hseq]
    · by_cases he : err1 = none
      · simp [he, hsame.max]
      · simp [he, hsame.max]

theorem MessageStream.SendData_returns {τ δ : Type} (C : Codec τ δ) (fuel : Nat)
    (m : MessageStream τ) (now : Now) (template : Int) (data : List δ)
    (err : Option Error) (m' : MessageStream τ)
    (h : m.SendData C fuel now template data = .returns (err, m')) :
    ∃ t, 256 ≤ template ∧ template < 256 + m.templates.length ∧
      m.templates[(template - 256).toNat]? = some (some t) ∧
      m'.templates = m.templates ∧ m'.buffer.max = m.buffer.max ∧
      m'.sequence = (if err = none ∧ t.id ≥ 256 then (m.sequence + 1) % 4294967296
        else m.sequence) := by
  unfold MessageStream.SendData at h
  simp only at h
  split at h
  · cases h
  · rename_i hrange
    split at h
    · cases h
    · cases h
    · rename_i t ht
      split at h
      · cases h
      · rename_i bytes hb
        obtain ⟨hsame, hseq⟩ := sendRecord_returns _ now fuel _ err m' h
        refine ⟨t, by omega, by omega, ht, hsame.templates, hsame.max, ?_⟩
        rw [hseq]
        simp [nextSequence, dataRecord]

theorem MessageStream.TableOK_append {τ : Type} (m m' : MessageStream τ)
    (elements : List (InformationElement τ)) (h : m.TableOK)
    (ht : m'.templates = m.templates ++ [some ⟨toInt16 (256 + m.templates.length), elements⟩]) :
    m'.TableOK := by
  intro i hi
  rw [ht] at hi ⊢
  simp only [List.length_append, List.length_singleton] at hi
  by_cases hlt : i < m.templates.length
  · rw [List.getElem?_append_left hlt]
    exact h i hlt
  · have hi' : i = m.templates.length := by omega
    subst hi'
    rw [List.getElem?_concat_length]
    exact ⟨_, rfl, rfl⟩

theorem MessageStream.run_nil {τ δ : Type} (C : Codec τ δ) (fuel : Nat) (m : MessageStream τ) :
    m.run C fuel [] = .returns ([], m) := rfl

/-- A sequence of calls that returned, taken apart at its first call. -/
theorem MessageStream.run_cons_returns {τ δ : Type} (C : Codec τ δ) (fuel : Nat)
    (c : Call τ δ) (calls : List (Call τ δ)) (m : MessageStream τ) (replies : List Reply)
    (m' : MessageStream τ) (h : m.run C fuel (c :: calls) = .returns (replies, m')) :
    (∃ now elements id err m1 rest, c = .addTemplate now elements ∧
      m.AddTemplate C fuel now elements = .returns ((id, err), m1) ∧
      m1.run C fuel calls = .returns (rest, m') ∧ replies = .addTemplate id err :: rest) ∨
    (∃ now template data err m1 rest, c = .sendData now template data ∧
      m.SendData C fuel now template data = .returns (err, m1) ∧
      m1.run C fuel calls = .returns (rest, m') ∧ replies = .sendData err :: rest) ∨
    (∃ now rest, c = .finalize now ∧
      (m.Finalize now).2.run C fuel calls = .returns (rest, m') ∧
      replies = .finalize (m.Finalize now).1 :: rest) := by
  cases c with
  | finalize now =>
    right
    right
    simp only [MessageStream.run] at h
    split at h
    · cases h
    · cases h
    · rename_i rest m2 h2
      simp only [Outcome.returns.injEq, Prod.mk.injEq] at h
      obtain ⟨rfl, rfl⟩ := h
      exact ⟨now, rest, rfl, h2, rfl⟩
  | addTemplate now elements =>
    left
    simp only [MessageStream.run] at h
    split at h
    · cases h
    · cases h
    · rename_i id err m1 h1
      split at h
      · cases h
      · cases h
      · rename_i rest m2 h2
        simp only [Outcome.returns.injEq, Prod.mk.injEq] at h
        obtain ⟨rfl, rfl⟩ := h
        exact ⟨now, elements, id, err, m1, rest, rfl, h1, h2, rfl⟩
  | sendData now template data =>
    right
    left
    simp only [MessageStream.run] at h
    split at h
    · cases h
    · cases h
    · rename_i err m1 h1
      split at h
      · cases h
      · cases h
      · rename_i rest m2 h2
        simp only [Outcome.returns.injEq, Prod.mk.injEq] at h
        obtain ⟨rfl, rfl⟩ := h
        exact ⟨now, template, data, err, m1, rest, rfl, h1, h2, rfl⟩

theorem idsFrom_succ (n : Int) (k : Nat) : idsFrom n (k + 1) = n :: idsFrom (n + 1) k := by
  rw [idsFrom, List.range_succ_eq_map, List.map_cons, List.map_map, idsFrom]
  congr 1
  · simp
  · apply List.map_congr_left
    intro j _
    simp only [Function.comp, Nat.succ_eq_add_one, Nat.cast_add, Nat.cast_one]
    omega

/-- The ids of the successful `AddTemplate` calls of a sequence of calls are
consecutive from `256 + (templates in the table at the start)`, and the table
grows by exactly these calls. -/
theorem MessageStream.run_issuedIds {τ δ : Type} (C : Codec τ δ) (fuel : Nat) :
    ∀ (calls : List (Call τ δ)) (m : MessageStream τ) (replies : List Reply)
      (m' : MessageStream τ), m.run C fuel calls = .returns (replies, m') →
      issuedIds replies = idsFrom (256 + m.templates.length) (issuedIds replies).length ∧
      m'.templates.length = m.templates.length + (issuedIds replies).length ∧
      m'.buffer.max = m.buffer.max ∧ (m.TableOK → m'.TableOK) := by
  intro calls
  induction calls with
  | nil =>
    intro m replies m' h
    simp only [run_nil, Outcome.returns.injEq, Prod.mk.injEq] at h
    obtain ⟨rfl, rfl⟩ := h
    simp [issuedIds, idsFrom]
  | cons c calls ih =>
    intro m replies m' h
    rcases run_cons_returns C fuel c calls m replies m' h with
      ⟨now, elements, id, err, m1, rest, -, h1, h2, rfl⟩ |
      ⟨now, template, data, err, m1, rest, -, h1, h2, rfl⟩ |
      ⟨now, rest, -, h2, rfl⟩
    · obtain ⟨hid, ht, -, hmax⟩ := AddTemplate_returns C fuel m now elements id err m1 h1
      obtain ⟨i1, i2, i3, i4⟩ := ih m1 rest m' h2
      cases err with
      | none =>
        simp only [if_true] at ht
        have hlen : m1.templates.length = m.templates.length + 1 := by simp [ht]
        refine ⟨?_, ?_, by rw [i3, hmax], ?_⟩
        · simp only [issuedIds, List.length_cons]
          rw [idsFrom_succ, hid]
          congr 1
          have e : (256 : Int) + (m1.templates.length : Int)
              = 256 + (m.templates.length : Int) + 1 := by
            rw [hlen]
            push_cast
            omega
          rw [e] at i1
          exact i1
        · simp only [issuedIds, List.length_cons]
          omega
        · intro hok
          exact i4 (TableOK_append m m1 elements hok (by rw [ht, hid]))
      | some e =>
        simp only [reduceCtorEq, if_false] at ht
        refine ⟨?_, ?_, by rw [i3, hmax], ?_⟩
        · simp only [issuedIds]
          rw [ht] at i1
          exact i1
        · simp only [issuedIds]
          rw [i2, ht]
        · intro hok
          apply i4
          intro i hi
          rw [ht] at hi ⊢
          exact hok i hi
    · obtain ⟨t, -, -, -, ht, hmax, -⟩ := SendData_returns C fuel m now template data err m1 h1
      obtain ⟨i1, i2, i3, i4⟩ := ih m1 rest m' h2
      have hiss : issuedIds (Reply.sendData err :: rest) = issuedIds rest := by
        cases err <;> rfl
      refine ⟨?_, ?_, by rw [i3, hmax], ?_⟩
      · rw [hiss]
        rw [ht] at i1
        exact i1
      · rw [hiss, i2, ht]
      · intro hok
        apply i4
        intro i hi
        rw [ht] at hi ⊢
        exact hok i hi
    · obtain ⟨hsame, -⟩ := Finalize_same m now
      obtain ⟨i1, i2, i3, i4⟩ := ih (m.Finalize now).2 rest m' h2
      have hiss : issuedIds (Reply.finalize (m.Finalize now).1 :: rest) = issuedIds rest := rfl
      refine ⟨?_, ?_, by rw [i3, hsame.max], ?_⟩
      · rw [hiss]
        rw [hsame.templates] at i1
        exact i1
      · rw [hiss, i2, hsame.templates]
      · intro hok
        apply i4
        intro i hi
        rw [hsame.templates] at hi ⊢
        exact hok i hi

theorem MessageStream.AddTemplate_places {τ δ : Type} (C : Codec τ δ) (fuel : Nat)
    (m : MessageStream τ) (now : Now) (elements : List (InformationElement τ))
    (hidle : m.Idle)
    (hfit : (templateRecord C ⟨toInt16 (m.templates.length + 256), elements⟩).FitsIn
      m.buffer.max) :
    ∃ m', m.AddTemplate C (fuel + 3) now elements
        = .returns ((256 + m.templates.length, none), m') ∧ m'.dirty = true := by
  obtain ⟨m1, h1, hd1⟩ := sendRecord_places m _ now fuel hidle hfit
  unfold MessageStream.AddTemplate
  simp only [h1, if_true]
  refine ⟨{ m1 with templates := m1.templates ++
    [some ⟨toInt16 (m.templates.length + 256), elements⟩] }, ?_, hd1⟩
  congr 3
  omega

theorem MessageStream.SendData_places {τ δ : Type} (C : Codec τ δ) (fuel : Nat)
    (m : MessageStream τ) (now : Now) (template : Int) (data : List δ) (t : Ipfix.template τ)
    (bytes : Bytes) (hlo : 256 ≤ template)
    (ht : m.templates[(template - 256).toNat]? = some (some t))
    (hb : C.assignDataRecord t data = some bytes) (hidle : m.Idle)
    (hfit : 16 + 4 + bytes.length ≤ m.buffer.max) :
    ∃ m', m.SendData C (fuel + 3) now template data = .returns (none, m') ∧
      m'.dirty = true := by
  have hlt : (template - 256).toNat < m.templates.length := by
    by_contra hge
    rw [List.getElem?_eq_none (by omega)] at ht
    cases ht
  unfold MessageStream.SendData
  simp only
  rw [if_neg (by omega)]
  simp only [ht, hb]
  exact sendRecord_places _ _ now fuel hidle ⟨bytes, rfl, hfit⟩

/-! ## Claims on the message stream -/

/-- C9: whenever `AddTemplate` returns, the id it returns is 256 plus the
number of templates in the table, the template is appended to the table when
the returned error is `nil`, and the table is unchanged otherwise; it does
return, with `nil`, from every state in which a closed message left the buffer
empty, for every template whose record fits in a message, with three
iterations of the loop or more; and over every sequence of calls on a fresh
stream the ids returned by the successful `AddTemplate` calls are 256, 257,
258, ... in call order, as many as the table holds at the end. -/
theorem AddTemplate_ids {τ δ : Type} (C : Codec τ δ) :
    (∀ (fuel : Nat) (m : MessageStream τ) (now : Now) (elements : List (InformationElement τ))
        (id : Int) (err : Option Error) (m' : MessageStream τ),
      m.AddTemplate C fuel now elements = .returns ((id, err), m') →
        id = 256 + m.templates.length ∧
        (err = none → m'.templates = m.templates ++ [some ⟨toInt16 id, elements⟩]) ∧
        (err ≠ none → m'.templates = m.templates)) ∧
    (∀ (fuel : Nat) (m : MessageStream τ) (now : Now) (elements : List (InformationElement τ)),
      m.Idle →
      (templateRecord C ⟨toInt16 (m.templates.length + 256), elements⟩).FitsIn m.buffer.max →
        ∃ m', m.AddTemplate C (fuel + 3) now elements
          = .returns ((256 + m.templates.length, none), m')) ∧
    (∀ (fuel : Nat) (calls : List (Call τ δ)) (w : Writer) (mtu observationID : Nat)
        (replies : List Reply) (m' : MessageStream τ),
      (MakeMessageStream w mtu observationID : MessageStream τ).run C fuel calls
          = .returns (replies, m') →
        issuedIds replies = idsFrom 256 (issuedIds replies).length ∧
        m'.templates.length = (issuedIds replies).length) := by
  refine ⟨?_, ?_, ?_⟩
  · intro fuel m now elements id err m' h
    obtain ⟨hid, ht, -, -⟩ := MessageStream.AddTemplate_returns C fuel m now elements id err m' h
    refine ⟨hid, ?_, ?_⟩
    · intro he
      rw [ht, if_pos he]
    · intro he
      rw [ht, if_neg he]
  · intro fuel m now elements hidle hfit
    obtain ⟨m', h, -⟩ := MessageStream.AddTemplate_places C fuel m now elements hidle hfit
    exact ⟨m', h⟩
  · intro fuel calls w mtu observationID replies m' h
    obtain ⟨h1, h2, -, -⟩ := MessageStream.run_issuedIds C fuel calls _ replies m' h
    simp only [MakeMessageStream, List.length_nil, Nat.cast_zero, add_zero, zero_add] at h1 h2
    exact ⟨h1, h2⟩

/-- Witness of `AddTemplate_ids`: on a fresh stream of maximum size 64, two
templates with a data record in between get the ids 256 and 257. -/
theorem AddTemplate_ids_witness :
    ∃ replies m',
      (MakeMessageStream ⟨[], [], []⟩ 64 7 : MessageStream IEType).run (bytesCodec IEType) 3
        [.addTemplate (.seconds 5) [⟨ascii "a", 0, 1, .unsigned32, 4⟩],
         .sendData (.seconds 6) 256 [[1, 2, 3, 4]],
         .addTemplate (.seconds 7) [⟨ascii "b", 9, 2, .unsigned8, 1⟩]]
        = .returns (replies, m') ∧
      issuedIds replies = [256, 257] := by
  have hlen : ((MakeMessageStream ⟨[], [], []⟩ 64 7 : MessageStream IEType).run (bytesCodec IEType) 3
        [.addTemplate (.seconds 5) [⟨ascii "a", 0, 1, .unsigned32, 4⟩],
         .sendData (.seconds 6) 256 [[1, 2, 3, 4]],
         .addTemplate (.seconds 7) [⟨ascii "b", 9, 2, .unsigned8, 1⟩]]).map
      (fun r => (issuedIds r.1).length) = .returns 2 := by
    decide
  match h : (MakeMessageStream ⟨[], [], []⟩ 64 7 : MessageStream IEType).run (bytesCodec IEType) 3
        [.addTemplate (.seconds 5) [⟨ascii "a", 0, 1, .unsigned32, 4⟩],
         .sendData (.seconds 6) 256 [[1, 2, 3, 4]],
         .addTemplate (.seconds 7) [⟨ascii "b", 9, 2, .unsigned8, 1⟩]] with
  | .outOfFuel =>
    rw [h] at hlen
    cases hlen
  | .panic =>
    rw [h] at hlen
    cases hlen
  | .returns (replies, m') =>
    rw [h] at hlen
    have hk : (issuedIds replies).length = 2 := by
      simpa [Outcome.map] using hlen
    have hids := ((AddTemplate_ids (bytesCodec IEType)).2.2 3 _ _ _ _ replies m' h).1
    rw [hk] at hids
    exact ⟨replies, m', rfl, hids⟩

theorem toInt16_small (i : Nat) (h : 256 + i < 32768) : toInt16 (256 + (i : Int)) = 256 + (i : Int) := by
  unfold toInt16
  omega

/-- While the ids of the table fit `int16` (at most 32512 templates at the
end), the sequence counter after a sequence of calls is its initial value
plus the number of successful `SendData` calls, mod 2^32. -/
theorem MessageStream.run_sequence {τ δ : Type} (C : Codec τ δ) (fuel : Nat) :
    ∀ (calls : List (Call τ δ)) (m : MessageStream τ) (replies : List Reply)
      (m' : MessageStream τ), m.TableOK → m.sequence < 4294967296 →
      m.run C fuel calls = .returns (replies, m') → m'.templates.length ≤ 32512 →
      m'.sequence = (m.sequence + sentCount replies) % 4294967296 := by
  intro calls
  induction calls with
  | nil =>
    intro m replies m' _ hseq h _
    simp only [run_nil, Outcome.returns.injEq, Prod.mk.injEq] at h
    obtain ⟨rfl, rfl⟩ := h
    simp only [sentCount, add_zero]
    omega
  | cons c calls ih =>
    intro m replies m' hok hseq h hlen
    rcases run_cons_returns C fuel c calls m replies m' h with
      ⟨now, elements, id, err, m1, rest, -, h1, h2, rfl⟩ |
      ⟨now, template, data, err, m1, rest, -, h1, h2, rfl⟩ |
      ⟨now, rest, -, h2, rfl⟩
    · obtain ⟨hid, ht, hs1, -⟩ := AddTemplate_returns C fuel m now elements id err m1 h1
      have hok1 : m1.TableOK := by
        cases err with
        | none =>
          simp only [if_true] at ht
          exact TableOK_append m m1 elements hok (by rw [ht, hid])
        | some e =>
          simp only [reduceCtorEq, if_false] at ht
          intro i hi
          rw [ht] at hi ⊢
          exact hok i hi
      have := ih m1 rest m' hok1 (by rw [hs1]; exact hseq) h2 hlen
      rw [this, hs1]
      cases err <;> rfl
    · obtain ⟨t, hlo, hhi, ht, htab, -, hs1⟩ :=
        SendData_returns C fuel m now template data err m1 h1
      obtain ⟨-, hgrow, -, -⟩ := run_issuedIds C fuel calls m1 rest m' h2
      have hi : (template - 256).toNat < m.templates.length := by omega
      obtain ⟨t', ht', hid'⟩ := hok _ hi
      rw [ht] at ht'
      simp only [Option.some.injEq] at ht'
      subst ht'
      have hbig : t.id ≥ 256 := by
        rw [hid', toInt16_small _ (by rw [htab] at hgrow; omega)]
        omega
      have hok1 : m1.TableOK := by
        intro i hi
        rw [htab] at hi ⊢
        exact hok i hi
      cases err with
      | none =>
        simp only [hbig, and_self, if_true] at hs1
        have := ih m1 rest m' hok1 (by rw [hs1]; omega) h2 hlen
        rw [this, hs1]
        simp only [sentCount]
        omega
      | some e =>
        simp only [reduceCtorEq, false_and, if_false] at hs1
        have := ih m1 rest m' hok1 (by rw [hs1]; exact hseq) h2 hlen
        rw [this, hs1]
        rfl
    · obtain ⟨hsame, hs1⟩ := Finalize_same m now
      have hok1 : (m.Finalize now).2.TableOK := by
        intro i hi
        rw [hsame.templates] at hi ⊢
        exact hok i hi
      have := ih (m.Finalize now).2 rest m' hok1 (by rw [hs1]; exact hseq) h2 hlen
      rw [this, hs1]
      rfl

theorem MessageStream.run_append_returns {τ δ : Type} (C : Codec τ δ) (fuel : Nat) :
    ∀ (xs ys : List (Call τ δ)) (m m1 m2 : MessageStream τ) (r1 r2 : List Reply),
      m.run C fuel xs = .returns (r1, m1) → m1.run C fuel ys = .returns (r2, m2) →
      m.run C fuel (xs ++ ys) = .returns (r1 ++ r2, m2) := by
  intro xs
  induction xs with
  | nil =>
    intro ys m m1 m2 r1 r2 h1 h2
    simp only [run_nil, Outcome.returns.injEq, Prod.mk.injEq] at h1
    obtain ⟨rfl, rfl⟩ := h1
    simpa using h2
  | cons c xs ih =>
    intro ys m m1 m2 r1 r2 h1 h2
    rcases run_cons_returns C fuel c xs m r1 m1 h1 with
      ⟨now, elements, id, err, m0, rest, rfl, ha, hb, rfl⟩ |
      ⟨now, template, data, err, m0, rest, rfl, ha, hb, rfl⟩ |
      ⟨now, rest, rfl, hb, rfl⟩
    · have h3 : MessageStream.run C fuel (xs.append ys) m0 = .returns (rest ++ r2, m2) :=
        ih ys m0 m1 m2 rest r2 hb h2
      simp only [List.cons_append, MessageStream.run, ha, h3]
    · have h3 : MessageStream.run C fuel (xs.append ys) m0 = .returns (rest ++ r2, m2) :=
        ih ys m0 m1 m2 rest r2 hb h2
      simp only [List.cons_append, MessageStream.run, ha, h3]
    · have h3 : MessageStream.run C fuel (xs.append ys) (m.Finalize now).2
          = .returns (rest ++ r2, m2) :=
        ih ys _ m1 m2 rest r2 hb h2
      simp only [List.cons_append, MessageStream.run, h3]

/-- A run of `n` equal `AddTemplate` calls whose template record fits: every
call returns `nil`. -/
theorem MessageStream.run_addTemplates {τ δ : Type} (C : Codec τ δ) (fuel : Nat) (now : Now)
    (elements : List (InformationElement τ)) :
    ∀ (n : Nat) (m : MessageStream τ), m.Idle →
      (∀ id, (templateRecord C ⟨id, elements⟩).FitsIn m.buffer.max) →
      ∃ replies m', m.run C (fuel + 3) (List.replicate n (.addTemplate now elements))
          = .returns (replies, m') ∧
        m'.Idle ∧ (issuedIds replies).length = n ∧ sentCount replies = 0 ∧
        m'.sequence = m.sequence := by
  intro n
  induction n with
  | zero =>
    intro m hidle _
    exact ⟨[], m, rfl, hidle, rfl, rfl, rfl⟩
  | succ n ih =>
    intro m hidle hfit
    obtain ⟨m1, h1, hd1⟩ := AddTemplate_places C fuel m now elements hidle (hfit _)
    obtain ⟨-, -, hs1, hmax1⟩ := AddTemplate_returns C _ m now elements _ _ m1 h1
    obtain ⟨rest, m', h2, hidle', hk, hsent, hseq⟩ := ih m1
      (fun hd => by rw [hd1] at hd; cases hd) (by rw [hmax1]; exact hfit)
    refine ⟨.addTemplate (256 + m.templates.length) none :: rest, m', ?_, hidle', ?_, ?_, ?_⟩
    · simp only [List.replicate_succ, MessageStream.run, h1, h2]
    · simp [issuedIds, hk]
    · simpa [sentCount] using hsent
    · rw [hseq, hs1]

theorem issuedIds_append_sendData (rs : List Reply) (err : Option Error) :
    issuedIds (rs ++ [Reply.sendData err]) = issuedIds rs := by
  induction rs with
  | nil => cases err <;> rfl
  | cons r rs ih =>
    cases r with
    | addTemplate id e => cases e <;> simp [issuedIds, ih]
    | sendData e => cases e <;> simp [issuedIds, ih]
    | finalize e => cases e <;> simp [issuedIds, ih]

theorem sentCount_append_sendData (rs : List Reply) :
    sentCount (rs ++ [Reply.sendData none]) = sentCount rs + 1 := by
  induction rs with
  | nil => rfl
  | cons r rs ih =>
    cases r with
    | addTemplate id e => cases e <;> simp [sentCount, ih]
    | sendData e => cases e <;> simp [sentCount, ih]
    | finalize e => cases e <;> simp [sentCount, ih]

/-- C10 fails on the code past the range of `int16`. On a fresh stream of
maximum size 64, 32513 `AddTemplate` calls succeed; the last one returns the
id 32768 and stores a template of id `int16(32768) = -32768`. The `SendData`
call for the id 32768 then returns `nil`, one successful call, and the
sequence counter is still 0: the data record carries the id -32768 and
`rec.id() >= 256` is false. -/
theorem sequence_stuck_past_int16 :
    ∃ replies m',
      (MakeMessageStream ⟨[], [], []⟩ 64 0 : MessageStream IEType).run (bytesCodec IEType) 3
        (List.replicate 32513 (.addTemplate .other []) ++ [.sendData .other 32768 []])
        = .returns (replies, m') ∧
      (issuedIds replies).length = 32513 ∧ sentCount replies = 1 ∧ m'.sequence = 0 := by
  have hfit : ∀ id, (templateRecord (bytesCodec IEType) ⟨id, []⟩).FitsIn 64 := by
    intro id
    exact ⟨_, rfl, by simp [serializeTemplate, be16]⟩
  obtain ⟨r1, m1, h1, hidle1, hk1, hsent1, hseq1⟩ :=
    MessageStream.run_addTemplates (bytesCodec IEType) 0 .other [] 32513
      (MakeMessageStream ⟨[], [], []⟩ 64 0) (fun _ => rfl) hfit
  obtain ⟨-, hlen1, hmax1, hok1⟩ := MessageStream.run_issuedIds _ _ _ _ r1 m1 h1
  have hlen : m1.templates.length = 32513 := by
    rw [hlen1, hk1]
    rfl
  obtain ⟨t, ht, hid⟩ := hok1 (fun i hi => by simp [MakeMessageStream] at hi) 32512
    (by rw [hlen]; omega)
  have hidv : t.id = -32768 := by
    rw [hid]
    decide
  have hmax : m1.buffer.max = 64 := by
    rw [hmax1]
    rfl
  obtain ⟨m2, h2, -⟩ := MessageStream.SendData_places (bytesCodec IEType) 0 m1 .other 32768 []
    t [] (by omega) ht rfl hidle1 (by rw [hmax]; simp)
  obtain ⟨t', -, -, ht', -, -, hseq2⟩ :=
    MessageStream.SendData_returns (bytesCodec IEType) _ m1 .other 32768 [] none m2 h2
  have htt : t' = t := by
    have e : ((32768 : Int) - 256).toNat = 32512 := by decide
    rw [e] at ht'
    rw [ht] at ht'
    simp only [Option.some.injEq] at ht'
    exact ht'.symm
  subst htt
  have hsmall : ¬ t'.id ≥ 256 := by
    rw [hidv]
    omega
  simp only [hsmall, and_false, if_false] at hseq2
  refine ⟨r1 ++ [.sendData none], m2, ?_, ?_, ?_, ?_⟩
  · exact MessageStream.run_append_returns _ _ _ _ _ m1 m2 r1 [.sendData none] h1
      (by simp only [MessageStream.run, h2])
  · rw [issuedIds_append_sendData, hk1]
  · rw [sentCount_append_sendData, hsent1]
  · rw [hseq2, hseq1]
    rfl

/-! ## Bytes of the buffer -/

theorem patch_getElem? : ∀ (bs d : Bytes) (off i : Nat),
    (patch d off bs)[i]? =
      if off ≤ i ∧ i < off + bs.length ∧ i < d.length then bs[i - off]? else d[i]? := by
  intro bs
  induction bs with
  | nil =>
    intro d off i
    simp only [patch, List.length_nil, add_zero]
    rw [if_neg (by omega)]
  | cons b bs ih =>
    intro d off i
    simp only [patch, ih, List.length_set, List.getElem?_set, List.length_cons]
    by_cases h1 : off = i
    · subst h1
      by_cases h2 : off < d.length
      · rw [if_neg (by omega), if_pos rfl, if_pos h2, if_pos (by omega)]
        simp
      · rw [if_neg (by omega), if_pos rfl, if_neg h2, if_neg (by omega)]
        rw [List.getElem?_eq_none (by omega)]
    · by_cases h3 : off + 1 ≤ i ∧ i < off + 1 + bs.length ∧ i < d.length
      · rw [if_pos h3, if_pos (by omega)]
        have e : i - off = (i - (off + 1)) + 1 := by omega
        rw [e, List.getElem?_cons_succ]
      · rw [if_neg h3, if_neg h1, if_neg (by omega)]

/-- A patch that lies within the data is read back from the place it was
written to. -/
theorem slice_patch_self (d bs : Bytes) (off : Nat) (h : off + bs.length ≤ d.length) :
    slice (patch d off bs) off bs.length = bs := by
  apply List.ext_getElem?
  intro i
  simp only [slice, List.getElem?_take, List.getElem?_drop, patch_getElem?]
  by_cases hi : i < bs.length
  · rw [if_pos hi, if_pos (by omega)]
    congr 1
    omega
  · rw [if_neg hi, List.getElem?_eq_none (by omega)]

/-- A patch leaves the bytes outside its range alone. -/
theorem slice_patch_other (d bs : Bytes) (off a n : Nat)
    (h : a + n ≤ off ∨ off + bs.length ≤ a) :
    slice (patch d off bs) a n = slice d a n := by
  apply List.ext_getElem?
  intro i
  simp only [slice, List.getElem?_take, List.getElem?_drop, patch_getElem?]
  by_cases hi : i < n
  · rw [if_pos hi, if_pos hi, if_neg (by omega)]
  · rw [if_neg hi, if_neg hi]

theorem slice_length (d : Bytes) (off n : Nat) (h : off + n ≤ d.length) :
    (slice d off n).length = n := by
  simp only [slice, List.length_take, List.length_drop]
  omega

theorem be16_length (n : Nat) : (be16 n).length = 2 := rfl

theorem be32_length (n : Nat) : (be32 n).length = 4 := rfl

/-! ## Claims on `startMessage` and `Finalize` -/

/-- C11: on a stream whose buffer is empty and has room for 16 bytes,
`startMessage` does not panic; afterwards the buffer holds exactly 16 bytes,
bytes 0-1 are 0x00 0x0a, the length and export-time slices are the bytes 2-3
and 4-7, bytes 8-11 are the big-endian sequence counter and bytes 12-15 the
big-endian observation domain id; the dirty flag is set, the sequence counter
and the observation domain id are what they were, and the observation domain
id of a stream is the one given to `MakeMessageStream`. -/
theorem startMessage_header {τ : Type} (m : MessageStream τ)
    (hempty : m.buffer.data = []) (hroom : 16 ≤ m.buffer.max) :
    (∃ m', m.startMessage = some m' ∧
      m'.buffer.data.length = 16 ∧
      slice m'.buffer.data 0 2 = [0x00, 0x0a] ∧
      m'.length = 2 ∧ m'.time = 4 ∧
      slice m'.buffer.data 8 4 = be32 m.sequence ∧
      slice m'.buffer.data 12 4 = be32 m.observationID ∧
      m'.dirty = true ∧ m'.sequence = m.sequence ∧ m'.observationID = m.observationID) ∧
    (∀ (w : Writer) (mtu observationID : Nat),
      (MakeMessageStream w mtu observationID : MessageStream τ).observationID
        = observationID) := by
  refine ⟨?_, fun _ _ _ => rfl⟩
  have happ : m.buffer.append 16
      = some (0, { m.buffer with data := List.replicate 16 0 }) := by
    rw [scratchBuffer.append_of_le _ _ (by rw [hempty]; simpa using hroom), hempty]
    rfl
  unfold MessageStream.startMessage
  rw [happ]
  refine ⟨_, rfl, ?_, ?_, rfl, rfl, ?_, ?_, rfl, rfl, rfl⟩
  · simp [scratchBuffer.write, patch_length]
  · simp only [scratchBuffer.write, Nat.zero_add]
    rw [slice_patch_other _ _ _ _ _ (Or.inl (by omega)),
      slice_patch_other _ _ _ _ _ (Or.inl (by omega))]
    exact slice_patch_self (List.replicate 16 0) [0x00, 0x0a] 0 (by simp)
  · simp only [scratchBuffer.write, Nat.zero_add]
    rw [slice_patch_other _ _ _ _ _ (Or.inl (by omega))]
    exact slice_patch_self _ (be32 m.sequence) 8 (by simp [patch_length, be32_length])
  · simp only [scratchBuffer.write, Nat.zero_add]
    exact slice_patch_self _ (be32 m.observationID) 12 (by simp [patch_length, be32_length])

/-- Witness of `startMessage_header`: the fresh stream of maximum size 64 and
observation domain id 7. -/
theorem startMessage_header_witness :
    ∃ m', (MakeMessageStream ⟨[], [], []⟩ 64 7 : MessageStream IEType).startMessage = some m' ∧
      m'.buffer.data.length = 16 ∧
      slice m'.buffer.data 0 2 = [0x00, 0x0a] ∧
      m'.length = 2 ∧ m'.time = 4 ∧
      slice m'.buffer.data 8 4 = [0, 0, 0, 0] ∧
      slice m'.buffer.data 12 4 = [0, 0, 0, 7] ∧
      m'.dirty = true ∧ m'.sequence = 0 ∧ m'.observationID = 7 :=
  (startMessage_header (MakeMessageStream ⟨[], [], []⟩ 64 7 : MessageStream IEType)
    rfl (by decide)).1

theorem MessageStream.Finalize_of_dirty {τ : Type} (m : MessageStream τ) (now : Now)
    (hd : m.dirty = true) :
    m.Finalize now =
      ((m.w.Write (m.flushed now)).1,
        { m with currentSet := (m.currentSet.finalize m.buffer).1
                 buffer := ⟨[], m.buffer.max⟩
                 w := (m.w.Write (m.flushed now)).2
                 dirty := if (m.w.Write (m.flushed now)).1 = none then false else true }) := by
  unfold MessageStream.Finalize MessageStream.flushed
  rw [if_neg (by simp [hd])]
  simp only [scratchBuffer.finalize, hd]
  congr 2
  cases exportTime now <;> simp [scratchBuffer.write, set.finalize_max]

/-- C12: on a stream with an open message `Finalize` returns exactly what the
one `Write` of the sink returned; when that is an error the dirty flag is
still true, and when it is `nil` the dirty flag is cleared. -/
theorem Finalize_sink_error {τ : Type} (m : MessageStream τ) (now : Now)
    (hd : m.dirty = true) :
    (m.Finalize now).1 = (m.w.Write (m.flushed now)).1 ∧
    (m.Finalize now).2.w = (m.w.Write (m.flushed now)).2 ∧
    (∀ e, (m.w.Write (m.flushed now)).1 = some e →
      (m.Finalize now).1 = some e ∧ (m.Finalize now).2.dirty = true) ∧
    ((m.w.Write (m.flushed now)).1 = none →
      (m.Finalize now).1 = none ∧ (m.Finalize now).2.dirty = false) := by
  rw [MessageStream.Finalize_of_dirty m now hd]
  refine ⟨rfl, rfl, ?_, ?_⟩
  · intro e he
    simp [he]
  · intro he
    simp [he]

/-- C13: on a stream with no open message `Finalize` returns `nil` and the
stream as it was, the sink included, whatever `now` is; and a `Finalize` that
returned `nil` is followed by a `Finalize` that does nothing. -/
theorem Finalize_noop {τ : Type} (m : MessageStream τ) (now now' : Now) :
    (m.dirty = false → m.Finalize now = (none, m)) ∧
    ((m.Finalize now).1 = none →
      (m.Finalize now).2.Finalize now' = (none, (m.Finalize now).2) ∧
      ((m.Finalize now).2.Finalize now').2.w.written = (m.Finalize now).2.w.written) := by
  have h1 : ∀ (x : MessageStream τ) (t : Now), x.dirty = false → x.Finalize t = (none, x) := by
    intro x t hx
    unfold MessageStream.Finalize
    rw [if_pos hx]
  refine ⟨h1 m now, ?_⟩
  intro hnone
  have hclean : (m.Finalize now).2.dirty = false := by
    by_cases hd : m.dirty = true
    · rw [MessageStream.Finalize_of_dirty m now hd] at hnone ⊢
      simp only at hnone
      simp [hnone]
    · have hd' : m.dirty = false := by simpa using hd
      rw [h1 m now hd']
      exact hd'
  rw [h1 _ now' hclean]
  exact ⟨rfl, rfl⟩

/-- Witness of `Finalize_sink_error`: an open message of 16 bytes and a sink
whose next `Write` fails. -/
theorem Finalize_sink_error_witness :
    ((⟨⟨[some (.other "sink")], [], []⟩, ⟨[0, 10, 0, 0, 0, 0, 0, 0, 0, 0, 0, 0, 0, 0, 0, 7], 64⟩,
        2, 4, 0, 7, [], makeSet, ⟨[], 0⟩, true⟩ : MessageStream IEType).Finalize .other).1
      = some (.other "sink") ∧
    ((⟨⟨[some (.other "sink")], [], []⟩, ⟨[0, 10, 0, 0, 0, 0, 0, 0, 0, 0, 0, 0, 0, 0, 0, 7], 64⟩,
        2, 4, 0, 7, [], makeSet, ⟨[], 0⟩, true⟩ : MessageStream IEType).Finalize .other).2.dirty
      = true :=
  (Finalize_sink_error
    (⟨⟨[some (.other "sink")], [], []⟩, ⟨[0, 10, 0, 0, 0, 0, 0, 0, 0, 0, 0, 0, 0, 0, 0, 7], 64⟩,
        2, 4, 0, 7, [], makeSet, ⟨[], 0⟩, true⟩ : MessageStream IEType) .other rfl).2.2.1
    (.other "sink") rfl

/-- Witness of `Finalize_noop`: `Finalize` on the fresh stream. -/
theorem Finalize_noop_witness :
    (MakeMessageStream ⟨[], [], []⟩ 64 7 : MessageStream IEType).Finalize (.seconds 5)
      = (none, MakeMessageStream ⟨[], [], []⟩ 64 7) :=
  (Finalize_noop (MakeMessageStream ⟨[], [], []⟩ 64 7 : MessageStream IEType) (.seconds 5)
    (.seconds 6)).1 rfl

theorem MessageStream.flushed_length {τ : Type} (m : MessageStream τ) (now : Now) :
    (m.flushed now).length = m.buffer.data.length := by
  unfold MessageStream.flushed
  cases exportTime now <;>
    simp [scratchBuffer.write, patch_length, set.finalize_length]

/-- C14: on an open message whose export-time slice lies within the buffer,
the four bytes of that slice (bytes 4-7 of the header `startMessage` wrote) in
what `Finalize` hands to the sink are the big-endian seconds since the epoch
reduced mod 2^32: `v.Unix()` for a `time.Time`, `v` for DateTimeSeconds,
`v / 10^3` for DateTimeMilliseconds, `v / 10^6` for DateTimeMicroseconds and
`v / 10^9` for DateTimeNanoseconds, rounded down, for every `v`. -/
theorem Finalize_export_time {τ : Type} (m : MessageStream τ)
    (hd : m.dirty = true) (ht : m.time + 4 ≤ m.buffer.data.length) :
    (∀ now, (m.Finalize now).1 = (m.w.Write (m.flushed now)).1 ∧
      (m.Finalize now).2.w = (m.w.Write (m.flushed now)).2) ∧
    (∀ unix : Int, slice (m.flushed (.time unix)) m.time 4 = be32 (toUint32 unix)) ∧
    (∀ v : Nat, slice (m.flushed (.seconds v)) m.time 4 = be32 (v % 4294967296)) ∧
    (∀ v : Nat, slice (m.flushed (.milliseconds v)) m.time 4
      = be32 (v / 1000 % 4294967296)) ∧
    (∀ v : Nat, slice (m.flushed (.microseconds v)) m.time 4
      = be32 (v / 1000000 % 4294967296)) ∧
    (∀ v : Nat, slice (m.flushed (.nanoseconds v)) m.time 4
      = be32 (v / 1000000000 % 4294967296)) := by
  have key : ∀ now secs, exportTime now = some secs →
      slice (m.flushed now) m.time 4 = be32 secs := by
    intro now secs hs
    unfold MessageStream.flushed
    simp only [hs, scratchBuffer.write]
    exact slice_patch_self _ (be32 secs) m.time
      (by simp [patch_length, set.finalize_length, be32_length]; omega)
  refine ⟨?_, fun v => key _ _ rfl, fun v => key _ _ rfl, fun v => key _ _ rfl,
    fun v => key _ _ rfl, fun v => key _ _ rfl⟩
  intro now
  rw [MessageStream.Finalize_of_dirty m now hd]
  exact ⟨rfl, rfl⟩

/-- Witness of `Finalize_export_time`: an open message of 16 bytes finalized
at 5000 milliseconds carries the seconds 5 in the bytes 4-7. -/
theorem Finalize_export_time_witness :
    slice ((⟨⟨[], [], []⟩, ⟨[0, 10, 0, 0, 0, 0, 0, 0, 0, 0, 0, 0, 0, 0, 0, 7], 64⟩,
        2, 4, 0, 7, [], makeSet, ⟨[], 0⟩, true⟩ : MessageStream IEType).flushed
          (.milliseconds 5000)) 4 4 = [0, 0, 0, 5] :=
  (Finalize_export_time
    (⟨⟨[], [], []⟩, ⟨[0, 10, 0, 0, 0, 0, 0, 0, 0, 0, 0, 0, 0, 0, 0, 7], 64⟩,
        2, 4, 0, 7, [], makeSet, ⟨[], 0⟩, true⟩ : MessageStream IEType)
    rfl (by decide)).2.2.2.1 5000

/-! ## The invariant `Framed` and the byte strings handed to the sink -/

theorem set.appendRecord_length (s : set) (b : scratchBuffer) (rec : record)
    (h : b.data.length ≤ b.max) :
    (s.appendRecord b rec).2.2.data.length ≤ b.max ∧
      b.data.length ≤ (s.appendRecord b rec).2.2.data.length := by
  unfold set.appendRecord
  split
  · exact ⟨h, le_refl _⟩
  · split
    · exact ⟨h, le_refl _⟩
    · split
      · split
        · exact ⟨h, le_refl _⟩
        · rename_i hb
          obtain ⟨h1, -, -, h4⟩ := scratchBuffer.append_some hb
          simp only [scratchBuffer.write_length, h4]
          omega
      · split
        · exact ⟨h, le_refl _⟩
        · rename_i hb
          obtain ⟨h1, -, -, h4⟩ := scratchBuffer.append_some hb
          simp only [scratchBuffer.write_length, h4]
          omega

theorem set.appendRecord_floor (s : set) (b : scratchBuffer) (rec : record)
    (h : b.data = [] ∧ s.isOpen = false ∨ 4 ≤ b.data.length) :
    (s.appendRecord b rec).2.2.data = [] ∧ (s.appendRecord b rec).2.1.isOpen = false ∨
      4 ≤ (s.appendRecord b rec).2.2.data.length := by
  unfold set.appendRecord
  split
  · exact h
  · split
    · exact h
    · split
      · rename_i ho
        split
        · exact h
        · rename_i hb
          obtain ⟨-, -, -, h4⟩ := scratchBuffer.append_some hb
          right
          simp only [scratchBuffer.write_length, h4]
          rcases h with ⟨-, hc⟩ | h
          · rw [ho] at hc
            cases hc
          · omega
      · split
        · exact h
        · rename_i hb
          obtain ⟨-, -, -, h4⟩ := scratchBuffer.append_some hb
          right
          simp only [scratchBuffer.write_length, h4]
          omega

theorem set.finalize_floor (s : set) (b : scratchBuffer)
    (h : b.data = [] ∧ s.isOpen = false ∨ 4 ≤ b.data.length) :
    (s.finalize b).2.data = [] ∧ (s.finalize b).1.isOpen = false ∨
      4 ≤ (s.finalize b).2.data.length := by
  rcases h with ⟨he, -⟩ | h
  · left
    refine ⟨List.eq_nil_of_length_eq_zero ?_, set.finalize_isOpen _ _⟩
    rw [set.finalize_length, he]
    rfl
  · right
    rw [set.finalize_length]
    exact h

theorem Writer.Write_handed (w : Writer) (p : Bytes) :
    (w.Write p).2.handed = w.handed ++ [p] := by
  unfold Writer.Write
  split <;> rfl

theorem toUInt8_toNat (k : Nat) (h : k < 256) : k.toUInt8.toNat = k := by
  unfold Nat.toUInt8 UInt8.toNat UInt8.ofNat
  exact Nat.mod_eq_of_lt h

/-- A byte string whose two bytes at offset 2 are the big-endian bytes of a
16-bit value declares that value. -/
theorem declaredLength_of_slice (msg : Bytes) (n : Nat) (hn : n < 65536)
    (h : slice msg 2 2 = be16 n) : declaredLength msg = some n := by
  unfold slice at h
  unfold declaredLength
  match hm : msg.drop 2 with
  | [] =>
    rw [hm] at h
    simp [be16] at h
  | [a] =>
    rw [hm] at h
    simp [be16] at h
  | a :: b :: rest =>
    rw [hm] at h
    simp only [be16, List.take_succ_cons, List.take_zero, List.cons.injEq, and_true] at h
    obtain ⟨ha, hb⟩ := h
    subst ha
    subst hb
    simp only [Option.some.injEq]
    rw [toUInt8_toNat _ (by omega), toUInt8_toNat _ (by omega)]
    omega

theorem MessageStream.startMessage_offsets {τ : Type} {m m' : MessageStream τ}
    (h : m.startMessage = some m') :
    m'.length = m.buffer.data.length + 2 ∧ m'.time = m.buffer.data.length + 4 ∧
      m'.buffer.data.length ≤ m'.buffer.max ∧ m'.w = m.w := by
  unfold MessageStream.startMessage at h
  split at h
  · cases h
  · rename_i off b hb
    obtain ⟨h1, h2, h3, h4⟩ := scratchBuffer.append_some hb
    simp only [Option.some.injEq] at h
    subst h
    refine ⟨by simp [h2], by simp [h2], ?_, rfl⟩
    simp only [scratchBuffer.write_length, scratchBuffer.write_max, h3, h4]
    exact h1

theorem MessageStream.startMessage_framed {τ : Type} {m m' : MessageStream τ}
    (hmax : m.buffer.max ≤ 65535) (hempty : m.buffer.data = [])
    (h : m.startMessage = some m') : m'.Framed ∧ m'.dirty = true := by
  obtain ⟨hs, -, hd, -, hlen⟩ := startMessage_some h
  obtain ⟨h1, h2, h3, -⟩ := startMessage_offsets h
  rw [hempty] at h1 h2
  have hidle : m'.Idle := fun hf => by
    rw [hd] at hf
    cases hf
  exact ⟨⟨h3, (by rw [hs.max]; exact hmax), hidle,
    fun _ => ⟨(by simpa using h1), (by simpa using h2)⟩, Or.inr (by rw [hlen]; omega)⟩, hd⟩

/-- The bytes `Finalize` hands to the sink on an open message of a stream with
the invariant declare their own length. -/
theorem MessageStream.flushed_declared {τ : Type} (m : MessageStream τ) (now : Now)
    (hf : m.Framed) (hd : m.dirty = true) : WellDeclared m.buffer.max (m.flushed now) := by
  obtain ⟨f1, f2, -, f4, f5⟩ := hf
  obtain ⟨hl, ht⟩ := f4 hd
  have hfl := MessageStream.flushed_length m now
  refine ⟨by omega, by omega, ?_⟩
  rcases f5 with ⟨he, -⟩ | h4
  · left
    apply List.eq_nil_of_length_eq_zero
    rw [hfl, he]
    rfl
  · right
    rw [hfl]
    apply declaredLength_of_slice _ _ (by omega)
    unfold MessageStream.flushed
    have hu : toUint16 ((m.currentSet.finalize m.buffer).2.length : Int)
        = m.buffer.data.length := by
      simp only [scratchBuffer.length, set.finalize_length, toUint16_natCast]
      omega
    simp only [hu, hl, ht, scratchBuffer.write]
    have hself : slice (patch (m.currentSet.finalize m.buffer).2.data 2
        (be16 m.buffer.data.length)) 2 2 = be16 m.buffer.data.length :=
      slice_patch_self _ (be16 m.buffer.data.length) 2
        (by simp [set.finalize_length, be16_length]; omega)
    cases exportTime now with
    | none => exact hself
    | some secs =>
      simp only
      rw [slice_patch_other _ _ _ _ _ (Or.inl (by omega))]
      exact hself

/-- A stream with an open message that differs from a sound one with an open
message in its set and its buffer only is sound, when its buffer is within
the maximum size and is empty with no set open or holds 4 bytes or more. -/
theorem MessageStream.Sound.step {τ : Type} {m m' : MessageStream τ} {handed : List Bytes}
    {max : Nat} (h : m.Sound handed max) (hd : m.dirty = true) (hd' : m'.dirty = true)
    (hw : m'.w = m.w) (hmax : m'.buffer.max = m.buffer.max)
    (hlen : m'.buffer.data.length ≤ m.buffer.max)
    (hl : m'.length = m.length) (ht : m'.time = m.time)
    (hk : m'.buffer.data = [] ∧ m'.currentSet.isOpen = false ∨ 4 ≤ m'.buffer.data.length) :
    m'.Sound handed max := by
  obtain ⟨⟨-, f2, -, f4, -⟩, hm, msgs, hmsgs, hall⟩ := h
  refine ⟨⟨by rw [hmax]; exact hlen, by rw [hmax]; exact f2, ?_, ?_, hk⟩, by rw [hmax, hm],
    msgs, by rw [hw, hmsgs], hall⟩
  · intro hc
    rw [hd'] at hc
    cases hc
  · intro _
    rw [hl, ht]
    exact f4 hd

theorem MessageStream.Finalize_sound {τ : Type} (m : MessageStream τ) (now : Now)
    (handed : List Bytes) (max : Nat) (h : m.Sound handed max) :
    (m.Finalize now).2.Sound handed max := by
  by_cases hd : m.dirty = true
  · obtain ⟨hf, hm, msgs, hmsgs, hall⟩ := h
    have hfl := MessageStream.flushed_declared m now hf hd
    rw [hm] at hfl
    rw [MessageStream.Finalize_of_dirty m now hd]
    refine ⟨⟨by simp, hf.2.1, fun _ => rfl, fun _ => hf.2.2.2.1 hd,
      Or.inl ⟨rfl, set.finalize_isOpen _ _⟩⟩, hm, msgs ++ [m.flushed now], ?_, ?_⟩
    · simp only [Writer.Write_handed, hmsgs, List.append_assoc]
    · intro msg hmem
      rcases List.mem_append.1 hmem with h1 | h1
      · exact hall msg h1
      · rw [List.mem_singleton] at h1
        rw [h1]
        exact hfl
  · have hd' : m.dirty = false := by simpa using hd
    have e : m.Finalize now = (none, m) := by
      unfold MessageStream.Finalize
      rw [if_pos hd']
    rw [e]
    exact h

theorem MessageStream.startMessage_sound {τ : Type} {m m' : MessageStream τ}
    (handed : List Bytes) (max : Nat) (h : m.Sound handed max) (hempty : m.buffer.data = [])
    (hs : m.startMessage = some m') : m'.Sound handed max ∧ m'.dirty = true := by
  obtain ⟨hf, hm, msgs, hmsgs, hall⟩ := h
  obtain ⟨hf', hd'⟩ := startMessage_framed hf.2.1 hempty hs
  obtain ⟨hsame, -⟩ := startMessage_some hs
  obtain ⟨-, -, -, hw⟩ := startMessage_offsets hs
  exact ⟨⟨hf', by rw [hsame.max, hm], msgs, by rw [hw, hmsgs], hall⟩, hd'⟩

theorem MessageStream.sendRecordLoop_sound {τ : Type} (rec : record) (now : Now)
    (handed : List Bytes) (max : Nat) :
    ∀ (fuel : Nat) (m : MessageStream τ) (err : Option Error) (m' : MessageStream τ),
      m.Sound handed max → m.dirty = true → m.sendRecordLoop fuel rec now = .returns (err, m') →
      m'.Sound handed max ∧ m'.dirty = true := by
  intro fuel
  induction fuel with
  | zero =>
    intro m err m' _ _ h
    simp [MessageStream.sendRecordLoop] at h
  | succ fuel ih =>
    intro m err m' hs hd h
    have hmax := set.appendRecord_max m.currentSet m.buffer rec
    have hlen := (set.appendRecord_length m.currentSet m.buffer rec hs.1.1).1
    have hk := set.appendRecord_floor m.currentSet m.buffer rec hs.1.2.2.2.2
    have hA : MessageStream.Sound
        ({ m with currentSet := (m.currentSet.appendRecord m.buffer rec).2.1,
                  buffer := (m.currentSet.appendRecord m.buffer rec).2.2 }) handed max :=
      MessageStream.Sound.step hs hd hd rfl hmax hlen rfl rfl hk
    simp only [MessageStream.sendRecordLoop] at h
    split at h
    · simp only [Outcome.returns.injEq, Prod.mk.injEq] at h
      obtain ⟨rfl, rfl⟩ := h
      by_cases hid : rec.id ≥ 256
      · simp only [hid, if_true]
        exact ⟨hA, hd⟩
      · simp only [hid, if_false]
        exact ⟨hA, hd⟩
    · rename_i bf mm _
      split at h
      · split at h
        · cases h
        · rename_i m3 hst
          have hF := MessageStream.Finalize_sound _ now handed max hA
          have hE := (MessageStream.Finalize_dirty
            ({ m with currentSet := (m.currentSet.appendRecord m.buffer rec).2.1,
                      buffer := (m.currentSet.appendRecord m.buffer rec).2.2 }) now hd).1
          obtain ⟨hs3, hd3⟩ := MessageStream.startMessage_sound handed max hF hE hst
          exact ih m3 err m' hs3 hd3 h
      · split at h
        · have hB : MessageStream.Sound
              ({ m with
                 currentSet := ((m.currentSet.appendRecord m.buffer rec).2.1.finalize
                   (m.currentSet.appendRecord m.buffer rec).2.2).1,
                 buffer := ((m.currentSet.appendRecord m.buffer rec).2.1.finalize
                   (m.currentSet.appendRecord m.buffer rec).2.2).2 }) handed max :=
            MessageStream.Sound.step hs hd hd rfl
              (by simp only [set.finalize_max, hmax])
              (by simpa only [set.finalize_length] using hlen) rfl rfl
              (set.finalize_floor _ _ hk)
          exact ih _ err m' hB hd h
        · simp only [Outcome.returns.injEq, Prod.mk.injEq] at h
          obtain ⟨rfl, rfl⟩ := h
          exact ⟨hA, hd⟩
    · simp only [Outcome.returns.injEq, Prod.mk.injEq] at h
      obtain ⟨rfl, rfl⟩ := h
      exact ⟨hA, hd⟩

theorem MessageStream.sendRecord_sound {τ : Type} (rec : record) (now : Now) (fuel : Nat)
    (handed : List Bytes) (max : Nat)
    (m : MessageStream τ) (err : Option Error) (m' : MessageStream τ) (hs : m.Sound handed max)
    (h : m.sendRecord fuel rec now = .returns (err, m')) :
    m'.Sound handed max ∧ m'.dirty = true := by
  unfold MessageStream.sendRecord at h
  split at h
  · rename_i hd
    split at h
    · cases h
    · rename_i m1 hst
      obtain ⟨hs1, hd1⟩ := MessageStream.startMessage_sound handed max hs (hs.1.2.2.1 hd) hst
      exact sendRecordLoop_sound rec now handed max fuel m1 err m' hs1 hd1 h
  · rename_i hd
    exact sendRecordLoop_sound rec now handed max fuel m err m' hs (by simpa using hd) h

theorem MessageStream.run_sound {τ δ : Type} (C : Codec τ δ) (fuel : Nat)
    (handed : List Bytes) (max : Nat) :
    ∀ (calls : List (Call τ δ)) (m : MessageStream τ) (replies : List Reply)
      (m' : MessageStream τ), m.Sound handed max →
      m.run C fuel calls = .returns (replies, m') → m'.Sound handed max := by
  intro calls
  induction calls with
  | nil =>
    intro m replies m' hs h
    simp only [run_nil, Outcome.returns.injEq, Prod.mk.injEq] at h
    obtain ⟨-, rfl⟩ := h
    exact hs
  | cons c calls ih =>
    intro m replies m' hs h
    rcases run_cons_returns C fuel c calls m replies m' h with
      ⟨now, elements, id, err, m1, rest, -, h1, h2, -⟩ |
      ⟨now, template, data, err, m1, rest, -, h1, h2, -⟩ |
      ⟨now, rest, -, h2, -⟩
    · refine ih m1 rest m' ?_ h2
      unfold MessageStream.AddTemplate at h1
      simp only at h1
      split at h1
      · cases h1
      · cases h1
      · rename_i err1 m0 hst
        obtain ⟨hs0, hd0⟩ := sendRecord_sound _ now fuel handed max m err1 m0 hs hst
        simp only [Outcome.returns.injEq, Prod.mk.injEq] at h1
        obtain ⟨-, rfl⟩ := h1
        by_cases he : err1 = none
        · simp only [he, if_true]
          exact hs0
        · simp only [he, if_false]
          exact hs0
    · refine ih m1 rest m' ?_ h2
      unfold MessageStream.SendData at h1
      simp only at h1
      split at h1
      · cases h1
      · split at h1
        · cases h1
        · cases h1
        · split at h1
          · cases h1
          · rename_i t _ _ bytes _
            have hC : MessageStream.Sound
                ({ m with currentDataRecord := ⟨bytes, t.id⟩ }) handed max := hs
            exact (sendRecord_sound _ now fuel handed max _ err m1 hC h1).1
    · exact ih _ rest m' (MessageStream.Finalize_sound m now handed max hs) h2

theorem MakeMessageStream_sound {τ : Type} (w : Writer) (mtu observationID : Nat)
    (hmtu : mtu < 65536) :
    (MakeMessageStream w mtu observationID : MessageStream τ).Sound w.handed
      (if mtu = 0 then 65535 else mtu) := by
  refine ⟨⟨(by simp [MakeMessageStream, makeBasicBuffer]), ?_, fun _ => rfl, fun h => by
    simp [MakeMessageStream] at h, Or.inl ⟨rfl, rfl⟩⟩, rfl, [], by simp [MakeMessageStream], ?_⟩
  · simp only [MakeMessageStream, makeBasicBuffer]
    split <;> omega
  · intro msg hmem
    cases hmem

theorem Outcome.exists_of_map {α β : Type} (o : Outcome α) (f : α → β) (b : β)
    (h : o.map f = .returns b) : ∃ a, o = .returns a ∧ f a = b := by
  cases o with
  | outOfFuel => cases h
  | panic => cases h
  | returns a =>
    simp only [Outcome.map, Outcome.returns.injEq] at h
    exact ⟨a, rfl, h⟩

/-- C15: on every stream that `MakeMessageStream` built with a 16-bit maximum
size (0 meaning 65535), after every sequence of `AddTemplate`, `SendData` and
`Finalize` calls that returned, every byte string the sink has been handed,
accepted or not, by a `Finalize` call of the caller or by the `Finalize` of a
rollover inside `sendRecord`, has fewer than 2^16 bytes, no more bytes than the
maximum message size, and, unless it is empty, the two bytes at its offset 2
are its number of bytes, big-endian (256 times the first plus the second); and
`Finalize` on the open message of the stream reached hands the sink exactly
one more byte string, the buffer in full, of which the same holds, and the
value it writes into the length field (line 118, `uint16(m.buffer.length())`)
is the number of bytes of that byte string. -/
theorem Finalize_declared_length {τ δ : Type} (C : Codec τ δ) (fuel : Nat)
    (calls : List (Call τ δ)) (w : Writer) (mtu observationID : Nat)
    (replies : List Reply) (m : MessageStream τ)
    (hmtu : mtu < 65536)
    (hrun : (MakeMessageStream w mtu observationID : MessageStream τ).run C fuel calls
      = .returns (replies, m)) :
    (∃ msgs, m.w.handed = w.handed ++ msgs ∧
      ∀ msg ∈ msgs, msg.length < 65536 ∧ msg.length ≤ (if mtu = 0 then 65535 else mtu) ∧
        (msg = [] ∨ declaredLength msg = some msg.length)) ∧
    (∀ now, m.dirty = true →
      (m.Finalize now).2.w.handed = m.w.handed ++ [m.flushed now] ∧
      (m.flushed now).length = m.buffer.data.length ∧
      toUint16 ((m.currentSet.finalize m.buffer).2.length : Int) = (m.flushed now).length ∧
      (m.flushed now).length < 65536 ∧
      (m.flushed now).length ≤ (if mtu = 0 then 65535 else mtu) ∧
      (m.flushed now = [] ∨ declaredLength (m.flushed now) = some (m.flushed now).length)) := by
  have hs := MessageStream.run_sound C fuel w.handed _ calls _ replies m
    (MakeMessageStream_sound w mtu observationID hmtu) hrun
  refine ⟨hs.2.2, ?_⟩
  intro now hd
  have hfl := MessageStream.flushed_declared m now hs.1 hd
  rw [hs.2.1] at hfl
  refine ⟨?_, MessageStream.flushed_length m now, ?_, hfl⟩
  · rw [MessageStream.Finalize_of_dirty m now hd]
    exact Writer.Write_handed _ _
  · have h1 := hfl.1
    rw [MessageStream.flushed_length] at h1 ⊢
    simp only [scratchBuffer.length, set.finalize_length, toUint16_natCast]
    omega

/-- Witness of `Finalize_declared_length`: on a stream of maximum size 28
whose sink fails the first `Write`, a template fills the first message, the
data record rolls it over and `Finalize` flushes the second. The sink has been
handed the message of 28 bytes, which it refused, and the message of 24 bytes;
the bytes 2-3 of the one are 0, 28 and of the other 0, 24. -/
theorem Finalize_declared_length_witness :
    ∃ replies m,
      (MakeMessageStream ⟨[some (.other "sink")], [], []⟩ 28 7 : MessageStream IEType).run
        (bytesCodec IEType) 3
        [.addTemplate (.seconds 5) [⟨ascii "a", 0, 1, .unsigned32, 4⟩],
         .sendData (.seconds 6) 256 [[1, 2, 3, 4]],
         .finalize (.seconds 9)] = .returns (replies, m) ∧
      m.w.handed =
        [[0, 10, 0, 28, 0, 0, 0, 6, 0, 0, 0, 0, 0, 0, 0, 7, 0, 2, 0, 12, 1, 0, 0, 1, 0, 1, 0, 4],
         [0, 10, 0, 24, 0, 0, 0, 9, 0, 0, 0, 0, 0, 0, 0, 7, 1, 0, 0, 8, 1, 2, 3, 4]] ∧
      ∃ msgs, m.w.handed = [] ++ msgs ∧
        ∀ msg ∈ msgs, msg.length < 65536 ∧ msg.length ≤ 28 ∧
          (msg = [] ∨ declaredLength msg = some msg.length) := by
  obtain ⟨⟨replies, m⟩, hrun, hp⟩ := Outcome.exists_of_map
    ((MakeMessageStream ⟨[some (.other "sink")], [], []⟩ 28 7 : MessageStream IEType).run
        (bytesCodec IEType) 3
        [.addTemplate (.seconds 5) [⟨ascii "a", 0, 1, .unsigned32, 4⟩],
         .sendData (.seconds 6) 256 [[1, 2, 3, 4]],
         .finalize (.seconds 9)])
    (fun r => r.2.w.handed)
    [[0, 10, 0, 28, 0, 0, 0, 6, 0, 0, 0, 0, 0, 0, 0, 7, 0, 2, 0, 12, 1, 0, 0, 1, 0, 1, 0, 4],
     [0, 10, 0, 24, 0, 0, 0, 9, 0, 0, 0, 0, 0, 0, 0, 7, 1, 0, 0, 8, 1, 2, 3, 4]] (by decide)
  exact ⟨replies, m, hrun, hp,
    (Finalize_declared_length (bytesCodec IEType) 3 _ ⟨[some (.other "sink")], [], []⟩ 28 7
      replies m (by decide) hrun).1⟩

/-! ## Claims on `SendData` and the retry loop -/

/-- The method `SendData` is the lookup of lines 99-106 followed by
`assignDataRecord` and `sendRecord` on the stream the lookup left. -/
theorem MessageStream.SendData_lookup {τ δ : Type} (C : Codec τ δ) (fuel : Nat)
    (m : MessageStream τ) (now : Now) (template : Int) (data : List δ) :
    m.SendData C fuel now template data =
      match m.lookupTemplate template with
      | (none, _) => .panic
      | (some t, m1) =>
        match C.assignDataRecord t data with
        | none => .panic
        | some bytes =>
          MessageStream.sendRecord fuel { m1 with currentDataRecord := ⟨bytes, t.id⟩ }
            (dataRecord ⟨bytes, t.id⟩) now := by
  unfold MessageStream.SendData MessageStream.lookupTemplate
  simp only
  split
  · rfl
  · split <;> simp_all

theorem MessageStream.lookupTemplate_snd {τ : Type} (m : MessageStream τ) (template : Int) :
    (m.lookupTemplate template).2 = m := by
  unfold MessageStream.lookupTemplate
  simp only
  split
  · rfl
  · split <;> rfl

theorem MessageStream.lookupTemplate_none_iff {τ : Type} (m : MessageStream τ)
    (template : Int) (hok : m.TableOK) :
    (m.lookupTemplate template).1 = none ↔
      template < 256 ∨ template ≥ 256 + m.templates.length := by
  unfold MessageStream.lookupTemplate
  simp only
  constructor
  · intro h
    by_contra hin
    have hi : (template - 256).toNat < m.templates.length := by omega
    obtain ⟨t, ht, -⟩ := hok _ hi
    rw [if_neg (by omega), ht] at h
    cases h
  · intro h
    rw [if_pos (by omega)]

theorem mem_idsFrom (n x : Int) (k : Nat) : x ∈ idsFrom n k ↔ n ≤ x ∧ x < n + k := by
  simp only [idsFrom, List.mem_map, List.mem_range]
  constructor
  · rintro ⟨j, hj, rfl⟩
    omega
  · rintro ⟨h1, h2⟩
    exact ⟨(x - n).toNat, by omega, by omega⟩

/-- C16, as stated, fails: a fault is also raised for an issued id. With a
serialization that raises the fatal fault of the spec on a wrong argument
count, `AddTemplate` with one element returns the id 256 and `nil`, and
`SendData` for the id 256 with no value panics. -/
theorem C16_issued_id_faults :
    ((MakeMessageStream ⟨[], [], []⟩ 64 7 : MessageStream IEType).run (arityCodec IEType) 3
        [.addTemplate (.seconds 5) [⟨ascii "a", 0, 1, .unsigned32, 4⟩]]).map
      (fun r => (r.1, (r.2.SendData (arityCodec IEType) 3 (.seconds 6) 256 []).map
        (fun x => x.1)))
      = .returns ([.addTemplate 256 none], .panic) := by
  decide

/-- C16, amended: on every stream reached from a fresh one by any sequence of
`AddTemplate`, `SendData` and `Finalize` calls, the ids issued by the
successful `AddTemplate` calls are those from 256 to 255 + (number of
templates in the table). `SendData` is the lookup of lines 99-106 followed by
`assignDataRecord` and `sendRecord`. The lookup raises its fault exactly for
the ids that were not issued, template < 256 or template >= 256 + (number of
templates), and `SendData` then panics; whether the lookup raises the fault or
not, the stream it leaves is the stream of the call, every field of it: no
stream state has been modified when the fault is raised. For an issued id the
lookup raises no fault and yields the table entry of that id (no table entry
is nil), and `SendData` goes on to `assignDataRecord`, whose fault is a panic
of `SendData` too, and to `sendRecord`. -/
theorem SendData_unknown_template {τ δ : Type} (C : Codec τ δ) (fuel : Nat)
    (calls : List (Call τ δ)) (w : Writer) (mtu observationID : Nat)
    (replies : List Reply) (m : MessageStream τ)
    (hrun : (MakeMessageStream w mtu observationID : MessageStream τ).run C fuel calls
      = .returns (replies, m))
    (fuel' : Nat) (now : Now) (template : Int) (data : List δ) :
    (template ∈ issuedIds replies ↔ 256 ≤ template ∧ template < 256 + m.templates.length) ∧
    (m.SendData C fuel' now template data =
      match m.lookupTemplate template with
      | (none, _) => .panic
      | (some t, m1) =>
        match C.assignDataRecord t data with
        | none => .panic
        | some bytes =>
          MessageStream.sendRecord fuel' { m1 with currentDataRecord := ⟨bytes, t.id⟩ }
            (dataRecord ⟨bytes, t.id⟩) now) ∧
    (template < 256 ∨ template ≥ 256 + m.templates.length ↔
      m.lookupTemplate template = (none, m)) ∧
    (template < 256 ∨ template ≥ 256 + m.templates.length →
      m.SendData C fuel' now template data = .panic) ∧
    (256 ≤ template ∧ template < 256 + m.templates.length ↔
      ∃ t, m.lookupTemplate template = (some t, m) ∧
        m.templates[(template - 256).toNat]? = some (some t)) := by
  obtain ⟨hids, hlen, -, hok⟩ := MessageStream.run_issuedIds C fuel calls _ replies m hrun
  have hok' : m.TableOK := hok (fun i hi => by simp [MakeMessageStream] at hi)
  simp only [MakeMessageStream, List.length_nil, Nat.cast_zero, add_zero, zero_add] at hids hlen
  have hnone := MessageStream.lookupTemplate_none_iff m template hok'
  have hsnd := MessageStream.lookupTemplate_snd m template
  have hpair : ∀ o, m.lookupTemplate template = (o, m) ↔ (m.lookupTemplate template).1 = o := by
    intro o
    constructor
    · intro h
      rw [h]
    · intro h
      subst h
      exact Prod.ext rfl hsnd
  refine ⟨?_, MessageStream.SendData_lookup C fuel' m now template data, ?_, ?_, ?_⟩
  · rw [hids, mem_idsFrom, hlen]
  · rw [hpair, hnone]
  · intro h
    rw [MessageStream.SendData_lookup, (hpair none).2 (hnone.2 h)]
  · constructor
    · intro hin
      have hi : (template - 256).toNat < m.templates.length := by omega
      obtain ⟨t, ht, -⟩ := hok' _ hi
      refine ⟨t, ?_, ht⟩
      unfold MessageStream.lookupTemplate
      simp only
      rw [if_neg (by omega), ht]
    · rintro ⟨t, ht, -⟩
      by_contra hout
      have hn : (m.lookupTemplate template).1 = none := hnone.2 (by omega)
      rw [ht] at hn
      cases hn

/-- Witness of `SendData_unknown_template`: after one successful `AddTemplate`
on a fresh stream, the lookup of the id 257 raises the fault on the unchanged
stream and `SendData` for the id 257 panics. -/
theorem SendData_unknown_template_witness :
    ∃ replies m,
      (MakeMessageStream ⟨[], [], []⟩ 64 7 : MessageStream IEType).run (bytesCodec IEType) 3
        [.addTemplate (.seconds 5) [⟨ascii "a", 0, 1, .unsigned32, 4⟩]]
        = .returns (replies, m) ∧
      m.lookupTemplate 257 = (none, m) ∧
      m.SendData (bytesCodec IEType) 3 (.seconds 6) 257 [[1, 2, 3, 4]] = .panic := by
  obtain ⟨⟨replies, m⟩, hrun, hp⟩ := Outcome.exists_of_map
    ((MakeMessageStream ⟨[], [], []⟩ 64 7 : MessageStream IEType).run (bytesCodec IEType) 3
        [.addTemplate (.seconds 5) [⟨ascii "a", 0, 1, .unsigned32, 4⟩]])
    (fun r => r.2.templates.length) 1 (by decide)
  have h := SendData_unknown_template (bytesCodec IEType) 3 _ ⟨[], [], []⟩ 64 7 replies m hrun
    3 (.seconds 6) 257 [[1, 2, 3, 4]]
  have hout : (257 : Int) < 256 ∨ (257 : Int) ≥ 256 + m.templates.length :=
    Or.inr (by rw [hp]; decide)
  exact ⟨replies, m, hrun, h.2.2.1.1 hout, h.2.2.2.1 hout⟩

/-- C17 fails on the code: `sendRecord` calls `m.Finalize(now)` on BufferFull
and drops its result. On a stream of maximum size 28 whose sink fails the
first `Write`, `AddTemplate` fills the message; `SendData` finds the buffer
full, the flush of that message fails at the sink, and `SendData` returns
`nil`: both calls returned `nil`, the failing `Write` has been used up, and
the sink, which was handed the message of 28 bytes, has accepted nothing. -/
theorem sink_error_dropped :
    ((MakeMessageStream ⟨[some (.other "sink")], [], []⟩ 28 7 : MessageStream IEType).run
        (bytesCodec IEType) 3
        [.addTemplate (.seconds 5) [⟨ascii "a", 0, 1, .unsigned32, 4⟩],
         .sendData (.seconds 6) 256 [[1, 2, 3, 4]]]).map
      (fun r => (r.1, r.2.w))
      = .returns ([.addTemplate 256 none, .sendData none],
          ⟨[], [], [[0, 10, 0, 28, 0, 0, 0, 6, 0, 0, 0, 0, 0, 0, 0, 7,
                     0, 2, 0, 12, 1, 0, 0, 1, 0, 1, 0, 4]]⟩) := by
  decide

/-- A record that does not fit behind a message header and a set header is
never placed: on an open message that holds its header, every iteration ends
in RecordTypeMismatch or BufferFull, whatever the fuel. -/
theorem MessageStream.loop_never_returns {τ : Type} (rec : record) (now : Now) (bytes : Bytes)
    (henc : rec.encoding = .ok bytes) :
    ∀ (fuel : Nat) (m : MessageStream τ), m.dirty = true → 16 ≤ m.buffer.max →
      m.buffer.max < 16 + 4 + bytes.length → 16 ≤ m.buffer.data.length →
      (m.currentSet.isOpen = true → 20 ≤ m.buffer.data.length) →
      m.sendRecordLoop fuel rec now = .outOfFuel := by
  intro fuel
  induction fuel with
  | zero =>
    intro m _ _ _ _ _
    rfl
  | succ fuel ih =>
    intro m hd h16 hbig hlen hopen
    have hroll : (match (m.Finalize now).2.startMessage with
        | none => Outcome.panic
        | some m3 => m3.sendRecordLoop fuel rec now) = .outOfFuel := by
      obtain ⟨hdata, hclosed⟩ := Finalize_dirty m now hd
      have hmax := (Finalize_same m now).1.max
      obtain ⟨m3, hs⟩ := startMessage_of_le (m.Finalize now).2
        (by rw [hdata, hmax]; simpa using h16)
      obtain ⟨h3, -, hd3, hset3, hlen3⟩ := startMessage_some hs
      rw [hs]
      refine ih m3 hd3 (by rw [h3.max, hmax]; exact h16) (by rw [h3.max, hmax]; exact hbig)
        (by rw [hlen3, hdata]; simp) ?_
      intro ho
      rw [hset3, hclosed] at ho
      cases ho
    by_cases hmis : m.currentSet.isOpen = true ∧ m.currentSet.id ≠ rec.id
    · rw [loop_of_mismatch m rec now fuel (set.appendRecord_mismatch _ _ _ hmis.1 hmis.2)]
      refine ih ({ m with currentSet := (m.currentSet.finalize m.buffer).1,
                          buffer := (m.currentSet.finalize m.buffer).2 }) hd
        (by simpa [set.finalize_max] using h16) (by simpa [set.finalize_max] using hbig)
        (by simpa [set.finalize_length] using hlen) ?_
      intro ho
      have := set.finalize_isOpen m.currentSet m.buffer
      rw [this] at ho
      cases ho
    · by_cases ho : m.currentSet.isOpen = true
      · have hid : m.currentSet.id = rec.id := by
          by_contra hne
          exact hmis ⟨ho, hne⟩
        have ha := set.appendRecord_open m.currentSet m.buffer rec bytes ho hid henc
        rw [if_neg (by have := hopen ho; omega)] at ha
        rw [loop_of_full m rec now fuel ha]
        exact hroll
      · have ho' : m.currentSet.isOpen = false := by simpa using ho
        have ha := set.appendRecord_closed m.currentSet m.buffer rec bytes ho' henc
        rw [if_neg (by omega)] at ha
        rw [loop_of_full m rec now fuel ha]
        exact hroll

/-- From a stream with no open message, `sendRecord` never returns for a
record that does not fit in a message, whatever the fuel. -/
theorem MessageStream.sendRecord_never_returns {τ : Type} (m : MessageStream τ) (rec : record)
    (now : Now) (bytes : Bytes) (henc : rec.encoding = .ok bytes)
    (hd : m.dirty = false) (hempty : m.buffer.data = [])
    (hclosed : m.currentSet.isOpen = false) (h16 : 16 ≤ m.buffer.max)
    (hbig : m.buffer.max < 16 + 4 + bytes.length) (fuel : Nat) :
    m.sendRecord fuel rec now = .outOfFuel := by
  unfold MessageStream.sendRecord
  rw [if_pos hd]
  obtain ⟨m1, hs⟩ := startMessage_of_le m (by rw [hempty]; simpa using h16)
  obtain ⟨h1, -, hd1, hset1, hlen1⟩ := startMessage_some hs
  rw [hs]
  refine loop_never_returns rec now bytes henc fuel m1 hd1 (by rw [h1.max]; exact h16)
    (by rw [h1.max]; exact hbig) (by rw [hlen1]; omega) ?_
  intro ho
  rw [hset1, hclosed] at ho
  cases ho

/-- C18 fails on the code: `sendRecord` has no exit for a record that does
not fit in a message. On a fresh stream of maximum size 24, `AddTemplate`
with two elements (a Template Record of 12 bytes, 32 with the message and set
headers) does not return within any number of iterations: each one ends in
BufferFull, flushes a message that holds a header only, and tries again. -/
theorem AddTemplate_oversize_never_returns :
    ∀ fuel : Nat,
      (MakeMessageStream ⟨[], [], []⟩ 24 7 : MessageStream IEType).AddTemplate (bytesCodec IEType)
        fuel (.seconds 5)
        [⟨ascii "a", 0, 1, .unsigned32, 4⟩, ⟨ascii "b", 0, 2, .unsigned32, 4⟩]
      = .outOfFuel := by
  intro fuel
  unfold MessageStream.AddTemplate
  simp only
  rw [MessageStream.sendRecord_never_returns _ _ _
    (serializeTemplate ⟨toInt16 ((0 : Nat) + 256),
      [⟨ascii "a", 0, 1, IEType.unsigned32, 4⟩, ⟨ascii "b", 0, 2, IEType.unsigned32, 4⟩]⟩)
    rfl rfl rfl rfl (by decide) (by decide)]

/-! ## The index consistency of the registry -/

theorem Registry.Consistent_register {τ : Type} (y : InformationElement τ) (r : Registry τ)
    (h : r.Consistent) : (RegisterInformationElement y r).2.Consistent := by
  cases hn : r.informationElementRegistry y.Name with
  | some z =>
    rw [Register_taken y z r hn]
    exact h
  | none =>
    rw [Register_fresh y r hn]
    have hname : ∀ x : InformationElement τ, r.informationElementRegistry x.Name = some x →
        (r.informationElementRegistry.set y.Name y) x.Name = some x := by
      intro x hx
      have hne : x.Name ≠ y.Name := by
        intro e
        rw [e, hn] at hx
        cases hx
      rw [GoMap.set_other _ _ _ _ hne]
      exact hx
    intro pen m hm
    simp only at hm
    by_cases hp : pen = y.Pen
    · subst hp
      rw [GoMap.set_self] at hm
      simp only [Option.some.injEq] at hm
      subst hm
      refine ⟨⟨y.ID, y, GoMap.set_self _ _ _⟩, ?_⟩
      intro id x hx
      by_cases hi : id = y.ID
      · subst hi
        rw [GoMap.set_self] at hx
        simp only [Option.some.injEq] at hx
        subst hx
        exact ⟨rfl, rfl, GoMap.set_self _ _ _⟩
      · rw [GoMap.set_other _ _ _ _ hi] at hx
        cases he : r.enterpriseElementRegistry y.Pen with
        | none =>
          rw [he] at hx
          simp [GoMap.empty] at hx
        | some m0 =>
          rw [he] at hx
          obtain ⟨h1, h2, h3⟩ := (h y.Pen m0 he).2 id x hx
          exact ⟨h1, h2, hname x h3⟩
    · rw [GoMap.set_other _ _ _ _ hp] at hm
      obtain ⟨hne, hall⟩ := h pen m hm
      refine ⟨hne, ?_⟩
      intro id x hx
      obtain ⟨h1, h2, h3⟩ := hall id x hx
      exact ⟨h1, h2, hname x h3⟩

theorem registerAll_consistent {τ : Type} :
    ∀ (xs : List (InformationElement τ)) (r : Registry τ), r.Consistent →
      (registerAll xs r).2.Consistent := by
  intro xs
  induction xs with
  | nil => intro r h; exact h
  | cons y ys ih =>
    intro r h
    have hy := Registry.Consistent_register y r h
    cases hn : r.informationElementRegistry y.Name with
    | some z =>
      rw [Register_taken y z r hn] at hy
      simp only [registerAll, Register_taken y z r hn]
      exact ih r hy
    | none =>
      rw [Register_fresh y r hn] at hy
      simp only [registerAll, Register_fresh y r hn]
      exact ih _ hy

/-- C19: in the registry reached from the empty one by any sequence `xs` of
`RegisterInformationElement` calls, every sub-map of the enterprise index
holds an element, and every element `x` the enterprise index holds under
`(pen, id)` has `x.Pen = pen` and `x.ID = id`, and the name index holds that
same `x` under `x.Name`, so that both lookups return it. -/
theorem registry_index_consistent {τ : Type} (xs : List (InformationElement τ)) (pen id : Nat)
    (m : GoMap Nat (InformationElement τ)) (x : InformationElement τ) :
    ((registerAll xs Registry.init).2.enterpriseElementRegistry pen = some m →
      ∃ id' x', m id' = some x') ∧
    ((registerAll xs Registry.init).2.enterpriseElementRegistry pen = some m →
      m id = some x →
        x.Pen = pen ∧ x.ID = id ∧
        (registerAll xs Registry.init).2.informationElementRegistry x.Name = some x ∧
        (ResolveInformationElement pen id (registerAll xs Registry.init).2).1 = .ok x ∧
        (GetInformationElement x.Name (registerAll xs Registry.init).2).1 = .ok x) := by
  have hinit : (Registry.init : Registry τ).Consistent := by
    intro p m0 hm0
    simp [Registry.init, GoMap.empty] at hm0
  have hc := registerAll_consistent xs Registry.init hinit
  refine ⟨fun hm => (hc pen m hm).1, ?_⟩
  intro hm hx
  obtain ⟨h1, h2, h3⟩ := (hc pen m hm).2 id x hx
  exact ⟨h1, h2, h3, (Resolve_ok_iff _ _ _ _).mpr ⟨m, hm, hx⟩, (Get_ok_iff _ _ _).mpr h3⟩

/-- Witness of `registry_index_consistent`: after "a" and then "b" are
registered under (0, 1), the pair (0, 1) holds "b", whose fields are 0 and 1
and whose name resolves to it. -/
theorem registry_index_consistent_witness :
    (ResolveInformationElement 0 1
      (registerAll [(⟨ascii "a", 0, 1, IEType.unsigned32, 4⟩ : InformationElement IEType),
        ⟨ascii "b", 0, 1, IEType.unsigned32, 4⟩] Registry.init).2).1
      = .ok ⟨ascii "b", 0, 1, IEType.unsigned32, 4⟩ ∧
    (GetInformationElement (ascii "b")
      (registerAll [(⟨ascii "a", 0, 1, IEType.unsigned32, 4⟩ : InformationElement IEType),
        ⟨ascii "b", 0, 1, IEType.unsigned32, 4⟩] Registry.init).2).1
      = .ok ⟨ascii "b", 0, 1, IEType.unsigned32, 4⟩ := by
  obtain ⟨m, hm, hx⟩ := (Resolve_ok_iff 0 1
    (registerAll [(⟨ascii "a", 0, 1, IEType.unsigned32, 4⟩ : InformationElement IEType),
        ⟨ascii "b", 0, 1, IEType.unsigned32, 4⟩] Registry.init).2
    ⟨ascii "b", 0, 1, IEType.unsigned32, 4⟩).mp (by decide)
  have h := (registry_index_consistent
    [(⟨ascii "a", 0, 1, IEType.unsigned32, 4⟩ : InformationElement IEType),
        ⟨ascii "b", 0, 1, IEType.unsigned32, 4⟩] 0 1 m
    ⟨ascii "b", 0, 1, IEType.unsigned32, 4⟩).2 hm hx
  exact ⟨h.2.2.2.1, h.2.2.2.2⟩

/-! ## Narrowing of the numeric tokens -/

/-- C20: for every well-formed iespec whose enterprise, id and length tokens
are runs of decimal digits that fit the platform `int` and whose type resolves
to a legal type with default width `w`, `MakeIEFromSpec` succeeds; the id of
the descriptor is the value of the id token mod 2^16, its enterprise the
value of the enterprise token mod 2^32 (0 without the token), and its length
the value of the length token mod 2^16, with `w` in place of an explicit
length of 0 and of a missing length. -/
theorem MakeIEFromSpec_narrowing {τ : Type} [DecidableEq τ] (T : Taxonomy τ)
    (name : Bytes) (pen : Option Bytes) (id tn : Bytes) (len : Option Bytes) (w : Nat)
    (htok : Tokens name pen id tn len)
    (hdig : ∀ l ∈ len, ∀ c ∈ l, isDigit c = true)
    (hpen : penValue pen < 2 ^ 63) (hid : digitsValue id < 2 ^ 63)
    (hlen : ∀ l ∈ len, digitsValue l < 2 ^ 63)
    (ht : T.NameToType tn ≠ T.IllegalType)
    (hw : T.DefaultSize (T.NameToType tn) = some w) :
    MakeIEFromSpec T (iespec name pen id tn len) =
      .ok ⟨name, penValue pen % 4294967296, digitsValue id % 65536, T.NameToType tn,
        match len with
        | none => w
        | some l => if digitsValue l = 0 then w else digitsValue l % 65536⟩ := by
  rw [MakeIEFromSpec_iespec T name pen id tn len htok hpen hid ht]
  have hw' := T.size_lt _ _ hw
  cases len with
  | none =>
    simp [suffixLength, defaultLength, hw, toUint16_natCast, Nat.mod_eq_of_lt hw']
  | some l =>
    have hne : l ≠ [] := (htok.2.2.2.2 l rfl).1
    rw [suffixLength_digits l hne (hdig l rfl) (hlen l rfl)]
    by_cases h0 : digitsValue l = 0
    · simp [defaultLength, h0, hw, toUint16_natCast, Nat.mod_eq_of_lt hw']
    · have h0' : ¬ ((digitsValue l : Nat) : Int) = 0 := by omega
      simp [defaultLength, h0, h0', toUint16_natCast]

/-- Witness of `MakeIEFromSpec_narrowing`: `testElement(65540)<unsigned32>`
yields id 4 and no error. -/
theorem MakeIEFromSpec_narrowing_witness :
    MakeIEFromSpec ipfixTaxonomy (ascii "testElement(65540)<unsigned32>")
      = .ok ⟨ascii "testElement", 0, 4, .unsigned32, 4⟩ :=
  MakeIEFromSpec_narrowing ipfixTaxonomy (ascii "testElement") none (ascii "65540")
    (ascii "unsigned32") none 4 (by decide) (by decide) (by decide) (by decide) (by decide)
    (by decide) (by decide)

end Ipfix
